import Mathlib

/-!
# esp32-audio-player: the ping-pong sample buffer and the PCM56 bit-bang driver

Shallow embedding of `stream_buffer<VALUE_TYPE, MAX_SIZE>`
(`components/stream_buffer/include/stream_buffer.hh`) and of `dac_gpio` /
`stereo_player::play_data` (`components/player/include/player.hh`).

Conventions of the embedding.

* The template parameter `MAX_SIZE` is the explicit argument `N`; `VALUE_TYPE` is `α`, and the
  all-zero-bytes value written by `memset` is `(0 : α)`.
* C arrays are total maps on indices: `_buffer i j` is `_buffer[i][j]`, `_limit i` is
  `_limit[i]`.  Only `i < 2` (and `j < N`) denote cells of the object.
* `uint16_t` arithmetic is `Nat` arithmetic followed by `% 65536`.
* The `OPERATION_POLICY` template argument of `get`/`put` is not used by their bodies and is
  dropped.
-/

/-- The data members of `stream_buffer<VALUE_TYPE, MAX_SIZE>`. -/
structure stream_buffer (α : Type) where
  _buffer : Nat → Nat → α
  _limit : Nat → Nat
  _read_idx : Nat
  _read_pos : Nat
  _write_idx : Nat
  _need_data : Bool

/-- The constant `_max_count` (number of slots). -/
def stream_buffer._max_count : Nat := 2

/-- The constructor: `_buffer{}`, `_limit{MAX_SIZE, MAX_SIZE}`, `_read_idx{0}`, `_read_pos{0}`,
`_write_idx{1}`, `_need_data{true}`, then `memset(_buffer, 0, sizeof(_buffer))`.  The braces
reject a `MAX_SIZE` that does not fit `uint16_t`, so no truncation is modelled here. -/
def stream_buffer.ctor {α : Type} [Zero α] (N : Nat) : stream_buffer α :=
  { _buffer := fun _ _ => 0
    _limit := fun _ => N
    _read_idx := 0
    _read_pos := 0
    _write_idx := 1
    _need_data := true }

/-- The member `reset()`: `memset` zeroes the cells `[0,2) × [0,N)`, the loop stores `MAX_SIZE`
(converted to `uint16_t`) in `_limit[0]` and `_limit[1]`, then the scalars are assigned. -/
def stream_buffer.reset {α : Type} [Zero α] (N : Nat) (s : stream_buffer α) : stream_buffer α :=
  { _buffer := fun i j => if i < stream_buffer._max_count ∧ j < N then 0 else s._buffer i j
    _limit := Function.update (Function.update s._limit 0 (N % 65536)) 1 (N % 65536)
    _read_idx := 0
    _read_pos := 0
    _write_idx := 1
    _need_data := true }

/-- The state after the `if` block of `get()`: the slot swap when
`_read_pos >= _limit[_read_idx]`, nothing otherwise. -/
def stream_buffer.get_swap {α : Type} (s : stream_buffer α) : stream_buffer α :=
  if s._read_pos ≥ s._limit s._read_idx then
    { s with
      _read_idx := (s._read_idx + 1) % stream_buffer._max_count
      _read_pos := 0
      _write_idx := ((s._read_idx + 1) % stream_buffer._max_count + 1) % stream_buffer._max_count
      _need_data := true }
  else s

/-- The member `get()`: the conditional swap, then `return _buffer[_read_idx][_read_pos++]`.
The result is the returned `std::optional` and the state after the call. -/
def stream_buffer.get {α : Type} (s : stream_buffer α) : Option α × stream_buffer α :=
  let t := s.get_swap
  (some (t._buffer t._read_idx t._read_pos), { t with _read_pos := (t._read_pos + 1) % 65536 })

/-- The member `put(value)`: return at once when `_limit[_write_idx] >= MAX_SIZE`, otherwise
`_buffer[_write_idx][_limit[_write_idx]++] = value`. -/
def stream_buffer.put {α : Type} (N : Nat) (s : stream_buffer α) (value : α) : stream_buffer α :=
  if s._limit s._write_idx ≥ N then s
  else
    { s with
      _buffer := Function.update s._buffer s._write_idx
        (Function.update (s._buffer s._write_idx) (s._limit s._write_idx) value)
      _limit := Function.update s._limit s._write_idx ((s._limit s._write_idx + 1) % 65536) }

/-- The member `need_data()`: when the flag is set, `_limit[_write_idx] = 0`, the flag is
cleared and `true` is returned; otherwise `false` is returned. -/
def stream_buffer.need_data {α : Type} (s : stream_buffer α) : Bool × stream_buffer α :=
  if s._need_data then
    (true, { s with _limit := Function.update s._limit s._write_idx 0, _need_data := false })
  else (false, s)

/-- The calls a client can make on a buffer. -/
inductive buffer_call (α : Type) where
  | reset : buffer_call α
  | get : buffer_call α
  | put : α → buffer_call α
  | need_data : buffer_call α

/-- The state after one call. -/
def stream_buffer.call {α : Type} [Zero α] (N : Nat) (s : stream_buffer α) :
    buffer_call α → stream_buffer α
  | .reset => s.reset N
  | .get => s.get.2
  | .put v => s.put N v
  | .need_data => s.need_data.2

/-- The state after a sequence of calls, first call first. -/
def stream_buffer.calls {α : Type} [Zero α] (N : Nat) (s : stream_buffer α) :
    List (buffer_call α) → stream_buffer α
  | [] => s
  | c :: cs => stream_buffer.calls N (s.call N c) cs

/-- A state is reachable when some finite sequence of `reset`, `get`, `put` and `need_data`
calls leads to it from the constructor state. -/
def stream_buffer.Reachable {α : Type} [Zero α] (N : Nat) (s : stream_buffer α) : Prop :=
  ∃ cs : List (buffer_call α), s = stream_buffer.calls N (stream_buffer.ctor N) cs

/-- The state after `put(v)` for each `v` of the list, in order. -/
def stream_buffer.puts {α : Type} (N : Nat) (s : stream_buffer α) : List α → stream_buffer α
  | [] => s
  | v :: vs => stream_buffer.puts N (s.put N v) vs

/-- The values returned by `k` successive `get()` calls and the state after them. -/
def stream_buffer.gets {α : Type} (s : stream_buffer α) : Nat → List (Option α) × stream_buffer α
  | 0 => ([], s)
  | k + 1 =>
    let r := s.get
    let rest := stream_buffer.gets r.2 k
    (r.1 :: rest.1, rest.2)

/-- Two states hold the same object: equal scalars, equal `_limit[i]` for `i < 2` and equal
`_buffer[i][j]` for `i < 2`, `j < N`. -/
def stream_buffer.same_object {α : Type} (N : Nat) (s t : stream_buffer α) : Prop :=
  s._read_idx = t._read_idx ∧ s._read_pos = t._read_pos ∧ s._write_idx = t._write_idx ∧
    s._need_data = t._need_data ∧
    (∀ i, i < stream_buffer._max_count → s._limit i = t._limit i) ∧
    (∀ i j, i < stream_buffer._max_count → j < N → s._buffer i j = t._buffer i j)

/-- The calls of a sequence, run from `s`, contain no `reset()` and no `get()` that performs a
slot swap (each `get` finds `_read_pos < _limit[_read_idx]`). -/
def stream_buffer.no_swap {α : Type} [Zero α] (N : Nat) (s : stream_buffer α) :
    List (buffer_call α) → Bool
  | [] => true
  | .reset :: _ => false
  | .get :: cs => decide (s._read_pos < s._limit s._read_idx) && stream_buffer.no_swap N s.get.2 cs
  | .put v :: cs => stream_buffer.no_swap N (s.put N v) cs
  | .need_data :: cs => stream_buffer.no_swap N s.need_data.2 cs

/-- Whether a call is `need_data()`. -/
def buffer_call.is_need_data {α : Type} : buffer_call α → Bool
  | .need_data => true
  | _ => false

/-! ## The PCM56 driver (`player.hh`)

`int16_t` sample values are integers in `[-32768, 32767]`.  In `ch1_val & mask` the value is
promoted to `int`; the and is taken on its 32-bit two's complement pattern.  `uint32_t`
bitmasks are naturals. -/

/-- The 32-bit two's complement pattern of an `int`. -/
def int_pattern (v : Int) : Nat := (v % 4294967296).toNat

/-- The struct `stereo_player_config`: GPIO numbers (the source says "GPIOs 0..31 only"). -/
structure stereo_player_config where
  clk_gpio : Nat
  ch1_data_gpio : Nat
  ch2_data_gpio : Nat
  le_gpio : Nat
  deriving DecidableEq

/-- The two registers `set_samples_and_enable` writes. -/
inductive gpio_reg where
  | GPIO_OUT_W1TS_REG : gpio_reg
  | GPIO_OUT_W1TC_REG : gpio_reg
  deriving DecidableEq

/-- One `REG_WRITE(reg, val)`. -/
structure reg_write where
  reg : gpio_reg
  val : Nat
  deriving DecidableEq

/-- The data members of `dac_gpio`. -/
structure dac_gpio where
  _config : stereo_player_config
  _clk_bitmask : Nat
  _ch1_data_bitmask : Nat
  _ch2_data_bitmask : Nat
  _le_bitmask : Nat
  _set_bitmask : Nat
  _reset_bitmask : Nat
  deriving DecidableEq

/-- The constructor of `dac_gpio`: each bitmask is `1ul << pin`, stored in a `uint32_t`. -/
def dac_gpio.ctor (config : stereo_player_config) : dac_gpio :=
  { _config := config
    _clk_bitmask := (1 <<< config.clk_gpio) % 4294967296
    _ch1_data_bitmask := (1 <<< config.ch1_data_gpio) % 4294967296
    _ch2_data_bitmask := (1 <<< config.ch2_data_gpio) % 4294967296
    _le_bitmask := (1 <<< config.le_gpio) % 4294967296
    _set_bitmask := 0
    _reset_bitmask := 0 }

/-- The body of the `for` loop of `set_samples_and_enable` at bit index `i` with `mask`: the
new members and the four register writes, in program order. -/
def dac_gpio.loop_body (g : dac_gpio) (ch1_val ch2_val : Int) (i : Nat) (mask : Nat) :
    dac_gpio × List reg_write :=
  let g0 := { g with _set_bitmask := 0, _reset_bitmask := 0 }
  let g1 := if i = 14 then { g0 with _set_bitmask := g0._set_bitmask ||| g0._le_bitmask } else g0
  let g2 :=
    if int_pattern ch1_val &&& mask ≠ 0 then
      { g1 with _set_bitmask := g1._set_bitmask ||| g1._ch1_data_bitmask }
    else { g1 with _reset_bitmask := g1._reset_bitmask ||| g1._ch1_data_bitmask }
  let g3 :=
    if int_pattern ch2_val &&& mask ≠ 0 then
      { g2 with _set_bitmask := g2._set_bitmask ||| g2._ch2_data_bitmask }
    else { g2 with _reset_bitmask := g2._reset_bitmask ||| g2._ch2_data_bitmask }
  (g3, [⟨.GPIO_OUT_W1TC_REG, g3._reset_bitmask⟩, ⟨.GPIO_OUT_W1TS_REG, g3._set_bitmask⟩,
        ⟨.GPIO_OUT_W1TS_REG, g3._clk_bitmask⟩, ⟨.GPIO_OUT_W1TC_REG, g3._clk_bitmask⟩])

/-- The loop `for (int i{15}, mask{1 << i}; i >= 0; --i, mask >>= 1)` with `n = i + 1`
iterations left: the body at `i = n - 1`, then `--i, mask >>= 1`. -/
def dac_gpio.set_loop (ch1_val ch2_val : Int) : Nat → Nat → dac_gpio → dac_gpio × List reg_write
  | 0, _, g => (g, [])
  | n + 1, mask, g =>
    let r := g.loop_body ch1_val ch2_val n mask
    let rest := dac_gpio.set_loop ch1_val ch2_val n (mask >>> 1) r.1
    (rest.1, r.2 ++ rest.2)

/-- The member `set_samples_and_enable(ch1_val, ch2_val)`: the loop from `i = 15`,
`mask = 1 << 15`, then the write that clears latch-enable.  The result is the object after the
call and the register writes in program order. -/
def dac_gpio.set_samples_and_enable (g : dac_gpio) (ch1_val ch2_val : Int) :
    dac_gpio × List reg_write :=
  let r := dac_gpio.set_loop ch1_val ch2_val 16 (1 <<< 15) g
  (r.1, r.2 ++ [⟨.GPIO_OUT_W1TC_REG, r.1._le_bitmask⟩])

/-- The struct `stereo_sample_type`: two `int16_t` channels. -/
structure stereo_sample_type where
  channel_0 : Int
  channel_1 : Int
  deriving DecidableEq

instance : Zero stereo_sample_type := ⟨⟨0, 0⟩⟩

/-- The struct `stereo_player::_context_type`, the references replaced by the objects. -/
structure stereo_player._context_type where
  buffer : stream_buffer stereo_sample_type
  gpio : dac_gpio
  play_cnt : Nat
  stereo_sample : stereo_sample_type

/-- One call of `set_samples_and_enable` as seen from outside: its arguments and its writes. -/
structure dac_call where
  ch1_val : Int
  ch2_val : Int
  writes : List reg_write
  deriving DecidableEq

/-- The timer callback `stereo_player::play_data`: `get()` on the buffer, and when the optional
holds a value, `set_samples_and_enable(value->channel_0, value->channel_1)`.  The result is the
returned flag, the context after the call and the driver calls made. -/
def stereo_player.play_data (context : stereo_player._context_type) :
    Bool × stereo_player._context_type × List dac_call :=
  let r := context.buffer.get
  match r.1 with
  | some value =>
    let w := context.gpio.set_samples_and_enable value.channel_0 value.channel_1
    (true, { context with buffer := r.2, gpio := w.1 },
      [⟨value.channel_0, value.channel_1, w.2⟩])
  | none => (true, { context with buffer := r.2 }, [])

/-! ## The GPIO output latch

`GPIO_OUT_W1TS_REG` sets, and `GPIO_OUT_W1TC_REG` clears, the output bits that are 1 in the
written value; the other bits keep their level. -/

/-- The 32-bit output register after one register write. -/
def reg_write.apply (out : Nat) (w : reg_write) : Nat :=
  match w.reg with
  | .GPIO_OUT_W1TS_REG => out ||| w.val
  | .GPIO_OUT_W1TC_REG => out &&& (4294967295 ^^^ w.val)

/-- The output register after a sequence of register writes, first write first. -/
def replay_writes (out : Nat) (ws : List reg_write) : Nat := ws.foldl reg_write.apply out

/-- The levels of pin `pin` at the writes that set the clock line (a `GPIO_OUT_W1TS_REG` write
whose value contains bit `clk`), in order, when the writes are replayed from `out`. -/
def levels_at_clock_set (clk pin : Nat) : Nat → List reg_write → List Bool
  | _, [] => []
  | out, w :: ws =>
    if w.reg = .GPIO_OUT_W1TS_REG ∧ w.val.testBit clk = true then
      (w.apply out).testBit pin :: levels_at_clock_set clk pin (w.apply out) ws
    else levels_at_clock_set clk pin (w.apply out) ws

/-- The levels of pin `pin` at the rising edges of the clock line (a write before which bit
`clk` of the output is 0 and after which it is 1), in order, when the writes are replayed
from `out`. -/
def levels_at_rising_edge (clk pin : Nat) : Nat → List reg_write → List Bool
  | _, [] => []
  | out, w :: ws =>
    if out.testBit clk = false ∧ (w.apply out).testBit clk = true then
      (w.apply out).testBit pin :: levels_at_rising_edge clk pin (w.apply out) ws
    else levels_at_rising_edge clk pin (w.apply out) ws

/-- The 16-bit two's complement pattern of an `int16_t` value. -/
def int16_pattern (v : Int) : Nat := (v % 65536).toNat

/-- The `int16_t` value of a 16-bit pattern. -/
def int16_of_pattern (p : Nat) : Int := if p < 32768 then (p : Int) else (p : Int) - 65536

/-- The number whose binary digits, most significant first, are the given levels. -/
def of_msb_bits (bits : List Bool) : Nat := bits.foldl (fun acc b => 2 * acc + b.toNat) 0

/-- The cell `get()` reads in `return _buffer[_read_idx][_read_pos++]`: the slot index and the
element index after the `if` block. -/
def stream_buffer.get_access {α : Type} (s : stream_buffer α) : Nat × Nat :=
  (s.get_swap._read_idx, s.get_swap._read_pos)

/-- The cell `put` writes in `_buffer[_write_idx][_limit[_write_idx]++] = value`, or `none`
when `put` returns before the assignment. -/
def stream_buffer.put_access {α : Type} (N : Nat) (s : stream_buffer α) : Option (Nat × Nat) :=
  if s._limit s._write_idx ≥ N then none else some (s._write_idx, s._limit s._write_idx)

/-! ## The serial load protocol as the specification words it

For each bit index from 15 down to 0: the "reset" group, the "set" group (with latch-enable
at bit index 14), the clock set, the clock clear; after the 16 bits, the latch-enable clear. -/

/-- The "set" group of bit index `i`: each data line whose channel has bit `i` set, and the
latch-enable line when `i = 14`. -/
def protocol_set_group (ch1_mask ch2_mask le_mask : Nat) (ch1 ch2 : Int) (i : Nat) : Nat :=
  (if i = 14 then le_mask else 0) |||
    (if (int16_pattern ch1).testBit i = true then ch1_mask else 0) |||
    (if (int16_pattern ch2).testBit i = true then ch2_mask else 0)

/-- The "reset" group of bit index `i`: each data line whose channel has bit `i` clear. -/
def protocol_reset_group (ch1_mask ch2_mask : Nat) (ch1 ch2 : Int) (i : Nat) : Nat :=
  (if (int16_pattern ch1).testBit i = true then 0 else ch1_mask) |||
    (if (int16_pattern ch2).testBit i = true then 0 else ch2_mask)

/-- The four writes of bit index `i`: clear the reset group, set the set group, set the clock,
clear the clock. -/
def protocol_bit_writes (clk_mask ch1_mask ch2_mask le_mask : Nat) (ch1 ch2 : Int) (i : Nat) :
    List reg_write :=
  [⟨.GPIO_OUT_W1TC_REG, protocol_reset_group ch1_mask ch2_mask ch1 ch2 i⟩,
   ⟨.GPIO_OUT_W1TS_REG, protocol_set_group ch1_mask ch2_mask le_mask ch1 ch2 i⟩,
   ⟨.GPIO_OUT_W1TS_REG, clk_mask⟩,
   ⟨.GPIO_OUT_W1TC_REG, clk_mask⟩]

/-- The writes of bit indices `n - 1` down to 0. -/
def protocol_bits (clk_mask ch1_mask ch2_mask le_mask : Nat) (ch1 ch2 : Int) :
    Nat → List reg_write
  | 0 => []
  | n + 1 =>
    protocol_bit_writes clk_mask ch1_mask ch2_mask le_mask ch1 ch2 n ++
      protocol_bits clk_mask ch1_mask ch2_mask le_mask ch1 ch2 n

/-- The whole trace for one sample pair: the 16 bits, most significant first, then the
latch-enable clear. -/
def protocol_trace (clk_mask ch1_mask ch2_mask le_mask : Nat) (ch1 ch2 : Int) : List reg_write :=
  protocol_bits clk_mask ch1_mask ch2_mask le_mask ch1 ch2 16 ++
    [⟨.GPIO_OUT_W1TC_REG, le_mask⟩]

/-! ## The feed loop of `play_track` (`main.cc`)

The FLAC decoder is not part of these sources; it appears through the interface the loop
uses.  Raw decoded samples are 32-bit `int` values.  The globals `cmd`, `state` and `volume`
and the locals `have_block`, `flac_decoder` form the loop state, next to `player_buffer`. -/

/-- The enum `cmd_type`. -/
inductive cmd_type where
  | idle : cmd_type
  | list : cmd_type
  | play : cmd_type
  | stop : cmd_type
  deriving DecidableEq

/-- The enum `state_type`; the enumerator `ready` is an alias of `has_storage`. -/
inductive state_type where
  | init : state_type
  | has_connection : state_type
  | has_storage : state_type
  | play : state_type
  deriving DecidableEq

/-- The enumerator `state_type::ready = has_storage`. -/
def state_type.ready : state_type := state_type.has_storage

/-- The constant `player_sample_bit_size`. -/
def player_sample_bit_size : Int := 16

/-- The constant `buffer_max_size`, the `MAX_SIZE` of `player_buffer`. -/
def buffer_max_size : Nat := 4608

/-- The conversion `(player_sample_type)x` to `int16_t`: the low 16 bits, read as signed. -/
def to_player_sample (x : Int) : Int := int16_of_pattern (int16_pattern x)

/-- The `int` value of a 32-bit result: the low 32 bits, read as signed. -/
def to_int (x : Int) : Int := (x + 2147483648) % 4294967296 - 2147483648

/-- The local `sample_rshift = info.sample_bit_size - player_sample_bit_size`. -/
def play_track.sample_rshift (sample_bit_size : Int) : Int :=
  sample_bit_size - player_sample_bit_size

/-- The local `rshift = sample_rshift - volume` of one drain. -/
def play_track.rshift (sample_rshift volume : Int) : Int := sample_rshift - volume

/-- The channel value passed to `put` for the raw sample `x`, by the three branches on
`rshift`: `(player_sample_type)x`, `(player_sample_type)(x >> rshift)` and
`(player_sample_type)(x << -rshift)`.  `>>` on `int` is the arithmetic shift, `<<` keeps the
low 32 bits. -/
def play_track.channel_value (rshift : Int) (x : Int) : Int :=
  if rshift = 0 then to_player_sample x
  else if rshift ≥ 0 then to_player_sample (x >>> rshift.toNat)
  else to_player_sample (to_int (x * 2 ^ (-rshift).toNat))

/-- Modelled from the spec: the decoder's `decoder_state()`, `more_blocks` or `complete`
(the decoder sources are not part of the repository sources at hand). -/
inductive decoder_state where
  | more_blocks : decoder_state
  | complete : decoder_state
  deriving DecidableEq

/-- Modelled from the spec: the block-oriented decoder after its metadata phase.  `pending`
are the blocks of the stream not yet decoded, `block` is the current block, one pair
`(block_data()[0][i], block_data()[1][i])` for each `i < block_size()`, and `state` is what
`state()` reports. -/
structure flac_decoder where
  pending : List (List (Int × Int))
  block : List (Int × Int)
  state : decoder_state

/-- Modelled from the spec: `decode_audio()` decodes exactly one block; the decoder reports
completion once its final block has been decoded. -/
def flac_decoder.decode_audio (d : flac_decoder) : flac_decoder :=
  match d.pending with
  | [] => { d with state := .complete }
  | b :: rest =>
    { pending := rest, block := b,
      state := if rest.isEmpty then .complete else .more_blocks }

/-- The state of the `for (;;)` loop of `play_track`. -/
structure play_track_state where
  cmd : cmd_type
  state : state_type
  volume : Int
  have_block : Bool
  flac_decoder : flac_decoder
  player_buffer : stream_buffer stereo_sample_type

/-- The calls one iteration of the loop makes on the decoder, the buffer and the scheduler. -/
inductive feed_call where
  | decode_audio : feed_call
  | need_data : feed_call
  | put : stereo_sample_type → feed_call
  | taskYIELD : feed_call
  deriving DecidableEq

/-- The stereo samples one drain puts for the current block. -/
def play_track.block_samples (rshift : Int) (block : List (Int × Int)) :
    List stereo_sample_type :=
  block.map (fun x => ⟨play_track.channel_value rshift x.1, play_track.channel_value rshift x.2⟩)

/-- One iteration of the `for (;;)` loop of `play_track`, for a buffer of `MAX_SIZE = N`: the
state after it, whether it left the loop by `break`, and the calls it made, in order. -/
def play_track.iteration (N : Nat) (sample_rshift : Int) (s : play_track_state) :
    play_track_state × Bool × List feed_call :=
  if s.cmd = .stop then
    ({ s with cmd := .idle, state := state_type.ready }, true, [])
  else if s.cmd = .play then
    ({ s with cmd := .idle, state := .play }, true, [])
  else if !s.have_block then
    ({ s with flac_decoder := s.flac_decoder.decode_audio, have_block := true }, false,
      [.decode_audio])
  else if !s.player_buffer.need_data.1 then
    ({ s with player_buffer := s.player_buffer.need_data.2 }, false, [.need_data, .taskYIELD])
  else
    let rshift := play_track.rshift sample_rshift s.volume
    let samples := play_track.block_samples rshift s.flac_decoder.block
    let t : play_track_state :=
      { s with player_buffer := stream_buffer.puts N s.player_buffer.need_data.2 samples,
               have_block := false }
    if s.flac_decoder.state = .complete then
      (t, true, .need_data :: samples.map .put)
    else (t, false, .need_data :: samples.map .put ++ [.taskYIELD])

/-- The constant `_timer_resolution_hz` (40 MHz). -/
def _timer_resolution_hz : Nat := 40000000

/-- The constant `player_oversampling`. -/
def player_oversampling : Nat := 1

/-! ## Album mode (`get_next_album_track`, `main.cc`) -/

/-- The loop `for (; i < files.size() - 1; ++i) if (files[i] == play_file) break;` with
`remaining` iterations left before `i` reaches the bound: the final `i`, or `none` when the
loop reads `files[i]` outside the vector. -/
def get_next_album_track.scan (files : List String) (play_file : String) :
    Nat → Nat → Option Nat
  | 0, i => some i
  | remaining + 1, i =>
    match files[i]? with
    | none => none
    | some f => if f = play_file then some i
      else get_next_album_track.scan files play_file remaining (i + 1)

/-- The function `get_next_album_track()` for a directory whose non-directory entries are
`listing`: the new `play_file` and the returned path, or `none` when `files[i]` or
`files[i + 1]` is read outside the vector.  `std::sort` orders the names by their characters;
`files.size() - 1` is computed in the 32-bit `size_t`, so it is 4294967295 for an empty
vector. -/
def get_next_album_track (listing : List String) (play_dir play_file : String) :
    Option (String × String) :=
  let files := listing.insertionSort (fun a b => a.data ≤ b.data)
  match get_next_album_track.scan files play_file
      (if files.length = 0 then 4294967295 else files.length - 1) 0 with
  | none => none
  | some i =>
    match files[i + 1]? with
    | none => none
    | some f => some (f, play_dir ++ "/" ++ f)

/-! ## One playback session: the feed loop and the timer callback

Between construction and destruction of the player the timer callback `play_data` runs
between iterations of the feed loop.  A session is run along a schedule, a sequence of timer
ticks and loop iterations; once the loop has left by `break` the player is destroyed and the
timer is stopped, so later events change nothing. -/

/-- The global `player_config` (`PCM_CLK` 14, `PCM_CH1_DATA` 26, `PCM_CH2_DATA` 25,
`PCM_LE` 27). -/
def player_config : stereo_player_config :=
  { clk_gpio := 14, ch1_data_gpio := 26, ch2_data_gpio := 25, le_gpio := 27 }

/-- The loop state, the driver object, whether the loop has exited, and the calls of
`set_samples_and_enable` made so far, oldest first. -/
structure play_session where
  feed : play_track_state
  gpio : dac_gpio
  exited : Bool
  dac_calls : List dac_call

/-- The events of a schedule: one timer alarm, or one iteration of the feed loop. -/
inductive session_event where
  | tick : session_event
  | step : session_event
  deriving DecidableEq

/-- The session `play_track` starts: `player_buffer.reset()`, then the player is constructed
and the loop is entered with `have_block = false`. -/
def play_session.start (N : Nat) (decoder : flac_decoder) (cmd : cmd_type) (state : state_type)
    (volume : Int) (buffer : stream_buffer stereo_sample_type) : play_session :=
  { feed :=
      { cmd := cmd, state := state, volume := volume, have_block := false,
        flac_decoder := decoder, player_buffer := buffer.reset N }
    gpio := dac_gpio.ctor player_config
    exited := false
    dac_calls := [] }

/-- The session after one event. -/
def play_session.event (N : Nat) (sample_rshift : Int) (σ : play_session) :
    session_event → play_session
  | .tick =>
    if σ.exited then σ
    else
      let r := stereo_player.play_data
        { buffer := σ.feed.player_buffer, gpio := σ.gpio, play_cnt := player_oversampling,
          stereo_sample := 0 }
      { σ with feed := { σ.feed with player_buffer := r.2.1.buffer }, gpio := r.2.1.gpio,
               dac_calls := σ.dac_calls ++ r.2.2 }
  | .step =>
    if σ.exited then σ
    else
      let r := play_track.iteration N sample_rshift σ.feed
      { σ with feed := r.1, exited := r.2.1 }

/-- The session after a schedule, first event first. -/
def play_session.run (N : Nat) (sample_rshift : Int) (σ : play_session) :
    List session_event → play_session
  | [] => σ
  | e :: es => play_session.run N sample_rshift (σ.event N sample_rshift e) es

/-- The sample pairs passed to `set_samples_and_enable` so far, oldest first. -/
def play_session.samples (σ : play_session) : List (Int × Int) :=
  σ.dac_calls.map (fun c => (c.ch1_val, c.ch2_val))

/-- The block of the synthetic decoder: `[100, 200, 300, 400]` on one channel and
`[-100, -200, -300, -400]` on the other. -/
def synthetic_block : List (Int × Int) := [(100, -100), (200, -200), (300, -300), (400, -400)]

/-- The 2-block synthetic decoder after its metadata phase. -/
def synthetic_decoder : flac_decoder :=
  { pending := [synthetic_block, synthetic_block], block := [], state := .more_blocks }

/-- A session on a stream whose last block is `b2`, before the first slot swap: the loop runs
with `cmd == idle`, the consumer is still in slot 0, which holds `N` zero samples and has been
read up to the number of driver calls made, and the loop is in one of four phases: nothing
decoded (flag set), first block decoded (flag set, decoder not complete), first block put
(flag consumed), last block decoded (flag consumed). -/
def play_session.before_swap (N : Nat) (b2 : List (Int × Int)) (σ : play_session) : Prop :=
  σ.exited = false ∧ σ.feed.cmd = .idle ∧
  σ.feed.player_buffer._read_idx = 0 ∧ σ.feed.player_buffer._write_idx = 1 ∧
  σ.feed.player_buffer._read_pos = σ.dac_calls.length ∧
  σ.feed.player_buffer._limit 0 = N ∧
  (∀ j, j < N → σ.feed.player_buffer._buffer 0 j = 0) ∧
  ((σ.feed.have_block = false ∧ (∃ b1, σ.feed.flac_decoder.pending = [b1, b2]) ∧
      σ.feed.player_buffer._need_data = true) ∨
   (σ.feed.have_block = true ∧ σ.feed.flac_decoder.pending = [b2] ∧
      σ.feed.flac_decoder.state = .more_blocks ∧ σ.feed.player_buffer._need_data = true) ∨
   (σ.feed.have_block = false ∧ σ.feed.flac_decoder.pending = [b2] ∧
      σ.feed.player_buffer._need_data = false) ∨
   (σ.feed.have_block = true ∧ σ.feed.flac_decoder.pending = [] ∧
      σ.feed.player_buffer._need_data = false))

/-- The claim's wording of the value put for a raw sample `x`: `x` unchanged when
`shift == 0`, `x` arithmetically right-shifted by `shift` bits (the floor of `x / 2^shift`)
when `shift > 0`, `x` left-shifted by `-shift` bits (`x * 2^(-shift)`) when `shift < 0`, then
converted to the 16-bit sample type (the low 16 bits, read as two's complement). -/
def volume_shift_spec (shift x : Int) : Int :=
  let y : Int :=
    if shift = 0 then x
    else if shift > 0 then Int.fdiv x (2 ^ shift.toNat)
    else x * 2 ^ (-shift).toNat
  (y + 32768) % 65536 - 32768

/-- A loop state about to drain the block `[(0x00ABCD00, -0x00ABCD00), (100, -100)]` at
volume `v` into a freshly constructed buffer of 4 samples per slot. -/
def play_track.drain_example (v : Int) : play_track_state :=
  { cmd := .idle, state := .play, volume := v, have_block := true,
    flac_decoder :=
      { pending := [], block := [(0x00ABCD00, -0x00ABCD00), (100, -100)], state := .complete },
    player_buffer := stream_buffer.ctor 4 }

/-! ## The alarm period (`stereo_player` constructor), in `double` arithmetic

`alarm_count` is computed in `double`.  A positive normal `double` is `mant * 2^exp` with
`2^52 <= mant < 2^53` and `-1074 <= exp <= 971`; an operation returns the `double` nearest to
the exact result, ties to the even significand.  Zero, subnormal and overflowing results are
outside the model (`none`). -/

/-- A positive `double` value `mant * 2^exp`. -/
structure double where
  mant : Nat
  exp : Int
  deriving DecidableEq

/-- The rational value of a `double`. -/
def double.value (c : double) : ℚ := (c.mant : ℚ) * 2 ^ c.exp

/-- The value of a `double` as a fraction of natural numbers. -/
def double.fraction (c : double) : Nat × Nat :=
  if 0 ≤ c.exp then (c.mant * 2 ^ c.exp.toNat, 1) else (c.mant, 2 ^ (-c.exp).toNat)

/-- The integer nearest to `n / d`, ties to even. -/
def round_nearest_even (n d : Nat) : Nat :=
  if 2 * (n % d) < d then n / d
  else if d < 2 * (n % d) then n / d + 1
  else if (n / d) % 2 = 0 then n / d
  else n / d + 1

/-- Scaling of `n / d * 2^e` by powers of two until `2^52 <= n / d < 2^53`. -/
def double.normalize : Nat → Nat → Nat → Int → Option (Nat × Nat × Int)
  | 0, _, _, _ => none
  | fuel + 1, n, d, e =>
    if n < 2 ^ 52 * d then double.normalize fuel (2 * n) d (e - 1)
    else if 2 ^ 53 * d ≤ n then double.normalize fuel n (2 * d) (e + 1)
    else some (n, d, e)

/-- The `double` nearest to `n / d` (round to nearest, ties to even), when it is a positive
normal `double`. -/
def double.round (n d : Nat) : Option double :=
  match double.normalize 2200 n d 0 with
  | none => none
  | some (n1, d1, e) =>
    let m := round_nearest_even n1 d1
    let r : double := if m = 2 ^ 53 then ⟨2 ^ 52, e + 1⟩ else ⟨m, e⟩
    if -1074 ≤ r.exp ∧ r.exp ≤ 971 then some r else none

/-- The product `k * c` of an integer `k < 2^53` (converted to `double` exactly) and a
`double`. -/
def double.mul_nat (k : Nat) (c : double) : Option double :=
  double.round (k * c.fraction.1) c.fraction.2

/-- The quotient `c / k` of a `double` and an integer `k < 2^53` (converted to `double`
exactly); dividing by zero gives no finite value. -/
def double.div_nat (c : double) (k : Nat) : Option double :=
  double.round c.fraction.1 (c.fraction.2 * k)

/-- The conversion `(uint64_t)c`: truncation toward zero, defined when the result is below
`2^64`. -/
def double.to_uint64 (c : double) : Option Nat :=
  if c.fraction.1 / c.fraction.2 < 2 ^ 64 then some (c.fraction.1 / c.fraction.2) else none

/-- The member `.alarm_count` of `alarm_config`:
`(uint64_t)(_timer_resolution_hz * frequency_calibration / (sample_rate * player_oversampling))`.
The product of the two `size_t` values is taken modulo `2^32`; the `uint64_t` and the
`size_t` operand convert to `double` exactly; the product and the quotient are rounded. -/
def stereo_player.alarm_count (sample_rate : Nat) (frequency_calibration : double) :
    Option Nat :=
  (double.mul_nat _timer_resolution_hz frequency_calibration).bind fun p =>
    (double.div_nat p ((sample_rate * player_oversampling) % 4294967296)).bind
      double.to_uint64

/-! ## Theorems -/

section buffer_lemmas

variable {α : Type}

theorem stream_buffer.calls_append [Zero α] (N : Nat) (s : stream_buffer α)
    (cs ds : List (buffer_call α)) :
    stream_buffer.calls N s (cs ++ ds) = stream_buffer.calls N (stream_buffer.calls N s cs) ds := by
  induction cs generalizing s with
  | nil => rfl
  | cons c cs ih => simp [stream_buffer.calls, ih]

/-- Induction over the calls that lead to a reachable state. -/
theorem stream_buffer.Reachable.induct [Zero α] {N : Nat} {P : stream_buffer α → Prop}
    (h0 : P (stream_buffer.ctor N))
    (hstep : ∀ (s : stream_buffer α) (c : buffer_call α), P s → P (s.call N c))
    (s : stream_buffer α) (hs : s.Reachable N) : P s := by
  obtain ⟨cs, rfl⟩ := hs
  suffices h : ∀ (cs : List (buffer_call α)) (t : stream_buffer α), P t →
      P (stream_buffer.calls N t cs) from h cs _ h0
  intro cs
  induction cs with
  | nil => intro t ht; exact ht
  | cons c cs ih => intro t ht; exact ih _ (hstep t c ht)

theorem stream_buffer.Reachable.ctor [Zero α] (N : Nat) :
    (stream_buffer.ctor N : stream_buffer α).Reachable N := ⟨[], rfl⟩

theorem stream_buffer.Reachable.call [Zero α] {N : Nat} {s : stream_buffer α}
    (hs : s.Reachable N) (c : buffer_call α) : (s.call N c).Reachable N := by
  obtain ⟨cs, rfl⟩ := hs
  exact ⟨cs ++ [c], by simp [stream_buffer.calls_append, stream_buffer.calls]⟩

/-- The ping-pong relation between the two slot indices. -/
theorem stream_buffer.swap_inv_call [Zero α] (N : Nat) (s : stream_buffer α) (c : buffer_call α)
    (h : s._read_idx < 2 ∧ s._write_idx = (s._read_idx + 1) % 2) :
    (s.call N c)._read_idx < 2 ∧ (s.call N c)._write_idx = ((s.call N c)._read_idx + 1) % 2 := by
  obtain ⟨h1, h2⟩ := h
  cases c with
  | reset => simp [stream_buffer.call, stream_buffer.reset]
  | get =>
    simp only [stream_buffer.call, stream_buffer.get, stream_buffer.get_swap,
      stream_buffer._max_count]
    split
    · exact ⟨Nat.mod_lt _ (by decide), rfl⟩
    · exact ⟨h1, h2⟩
  | put v =>
    simp only [stream_buffer.call, stream_buffer.put]
    split
    · exact ⟨h1, h2⟩
    · exact ⟨h1, h2⟩
  | need_data =>
    simp only [stream_buffer.call, stream_buffer.need_data]
    split
    · exact ⟨h1, h2⟩
    · exact ⟨h1, h2⟩

theorem stream_buffer.Reachable.swap_inv [Zero α] {N : Nat} {s : stream_buffer α}
    (hs : s.Reachable N) : s._read_idx < 2 ∧ s._write_idx = (s._read_idx + 1) % 2 :=
  stream_buffer.Reachable.induct (P := fun s => s._read_idx < 2 ∧ s._write_idx = (s._read_idx + 1) % 2)
    (by simp [stream_buffer.ctor]) (fun s c h => stream_buffer.swap_inv_call N s c h) s hs

/-! Frame lemmas: the fields each call leaves alone. -/

theorem stream_buffer.put_read_idx (N : Nat) (s : stream_buffer α) (v : α) :
    (s.put N v)._read_idx = s._read_idx := by
  unfold stream_buffer.put; split <;> rfl

theorem stream_buffer.put_read_pos (N : Nat) (s : stream_buffer α) (v : α) :
    (s.put N v)._read_pos = s._read_pos := by
  unfold stream_buffer.put; split <;> rfl

theorem stream_buffer.put_write_idx (N : Nat) (s : stream_buffer α) (v : α) :
    (s.put N v)._write_idx = s._write_idx := by
  unfold stream_buffer.put; split <;> rfl

theorem stream_buffer.put_need_data (N : Nat) (s : stream_buffer α) (v : α) :
    (s.put N v)._need_data = s._need_data := by
  unfold stream_buffer.put; split <;> rfl

theorem stream_buffer.put_limit_other (N : Nat) (s : stream_buffer α) (v : α) (i : Nat)
    (hi : i ≠ s._write_idx) : (s.put N v)._limit i = s._limit i := by
  unfold stream_buffer.put; split
  · rfl
  · exact Function.update_noteq hi _ _

theorem stream_buffer.put_buffer_other (N : Nat) (s : stream_buffer α) (v : α) (i : Nat)
    (hi : i ≠ s._write_idx) : (s.put N v)._buffer i = s._buffer i := by
  unfold stream_buffer.put; split
  · rfl
  · exact Function.update_noteq hi _ _

theorem stream_buffer.need_data_read_idx (s : stream_buffer α) :
    s.need_data.2._read_idx = s._read_idx := by
  unfold stream_buffer.need_data; split <;> rfl

theorem stream_buffer.need_data_read_pos (s : stream_buffer α) :
    s.need_data.2._read_pos = s._read_pos := by
  unfold stream_buffer.need_data; split <;> rfl

theorem stream_buffer.need_data_write_idx (s : stream_buffer α) :
    s.need_data.2._write_idx = s._write_idx := by
  unfold stream_buffer.need_data; split <;> rfl

theorem stream_buffer.need_data_buffer (s : stream_buffer α) :
    s.need_data.2._buffer = s._buffer := by
  unfold stream_buffer.need_data; split <;> rfl

theorem stream_buffer.need_data_limit_other (s : stream_buffer α) (i : Nat)
    (hi : i ≠ s._write_idx) : s.need_data.2._limit i = s._limit i := by
  unfold stream_buffer.need_data; split
  · exact Function.update_noteq hi _ _
  · rfl

theorem stream_buffer.get_buffer (s : stream_buffer α) : s.get.2._buffer = s._buffer := by
  unfold stream_buffer.get stream_buffer.get_swap; split <;> rfl

theorem stream_buffer.get_limit (s : stream_buffer α) : s.get.2._limit = s._limit := by
  unfold stream_buffer.get stream_buffer.get_swap; split <;> rfl

/-- The read position stays within the valid part of the read slot, except right after a swap
onto a slot whose limit is 0. -/
theorem stream_buffer.read_pos_inv_call [Zero α] (N : Nat) (s : stream_buffer α)
    (c : buffer_call α)
    (h : (s._read_idx < 2 ∧ s._write_idx = (s._read_idx + 1) % 2) ∧
      (s._read_pos ≤ s._limit s._read_idx ∨ (s._read_pos = 1 ∧ s._limit s._read_idx = 0))) :
    ((s.call N c)._read_idx < 2 ∧ (s.call N c)._write_idx = ((s.call N c)._read_idx + 1) % 2) ∧
      ((s.call N c)._read_pos ≤ (s.call N c)._limit (s.call N c)._read_idx ∨
        ((s.call N c)._read_pos = 1 ∧ (s.call N c)._limit (s.call N c)._read_idx = 0)) := by
  refine ⟨stream_buffer.swap_inv_call N s c h.1, ?_⟩
  obtain ⟨⟨h1, h2⟩, h3⟩ := h
  have hne : s._read_idx ≠ s._write_idx := by omega
  cases c with
  | reset => simp [stream_buffer.call, stream_buffer.reset]
  | get =>
    simp only [stream_buffer.call, stream_buffer.get, stream_buffer.get_swap]
    split
    · show (0 + 1) % 65536 ≤ s._limit ((s._read_idx + 1) % stream_buffer._max_count) ∨
        ((0 + 1) % 65536 = 1 ∧ s._limit ((s._read_idx + 1) % stream_buffer._max_count) = 0)
      omega
    · show (s._read_pos + 1) % 65536 ≤ s._limit s._read_idx ∨
        ((s._read_pos + 1) % 65536 = 1 ∧ s._limit s._read_idx = 0)
      left
      have := Nat.mod_le (s._read_pos + 1) 65536
      omega
  | put v =>
    simp only [stream_buffer.call, stream_buffer.put_read_idx, stream_buffer.put_read_pos,
      stream_buffer.put_limit_other N s v _ hne]
    exact h3
  | need_data =>
    simp only [stream_buffer.call, stream_buffer.need_data_read_idx,
      stream_buffer.need_data_read_pos, stream_buffer.need_data_limit_other s _ hne]
    exact h3

/-! The `_need_data` flag along a sequence of calls without reset and without slot swap. -/

theorem stream_buffer.get_need_data_of_lt (s : stream_buffer α)
    (h : s._read_pos < s._limit s._read_idx) : s.get.2._need_data = s._need_data := by
  simp only [stream_buffer.get, stream_buffer.get_swap, ge_iff_le, Nat.not_le.mpr h, if_false]

theorem stream_buffer.need_data_flag_false [Zero α] (N : Nat) (cs : List (buffer_call α)) :
    ∀ t : stream_buffer α, stream_buffer.no_swap N t cs = true → t._need_data = false →
      (stream_buffer.calls N t cs)._need_data = false := by
  induction cs with
  | nil => intro t _ h; exact h
  | cons c cs ih =>
    intro t hq hf
    cases c with
    | reset => simp [stream_buffer.no_swap] at hq
    | get =>
      simp only [stream_buffer.no_swap, Bool.and_eq_true, decide_eq_true_eq] at hq
      refine ih _ hq.2 ?_
      show t.get.2._need_data = false
      rw [stream_buffer.get_need_data_of_lt t hq.1]
      exact hf
    | put v =>
      simp only [stream_buffer.no_swap] at hq
      refine ih _ hq ?_
      show (t.put N v)._need_data = false
      rw [stream_buffer.put_need_data]
      exact hf
    | need_data =>
      simp only [stream_buffer.no_swap] at hq
      refine ih _ hq ?_
      show t.need_data.2._need_data = false
      simp [stream_buffer.need_data, hf]

theorem stream_buffer.need_data_flag_after [Zero α] (N : Nat) (cs : List (buffer_call α)) :
    ∀ t : stream_buffer α, stream_buffer.no_swap N t cs = true →
      cs.any buffer_call.is_need_data = true →
      (stream_buffer.calls N t cs)._need_data = false := by
  induction cs with
  | nil => intro t _ h; simp at h
  | cons c cs ih =>
    intro t hq ha
    cases c with
    | reset => simp [stream_buffer.no_swap] at hq
    | get =>
      simp only [stream_buffer.no_swap, Bool.and_eq_true, decide_eq_true_eq] at hq
      simp only [List.any_cons, buffer_call.is_need_data, Bool.false_or] at ha
      exact ih _ hq.2 ha
    | put v =>
      simp only [stream_buffer.no_swap] at hq
      simp only [List.any_cons, buffer_call.is_need_data, Bool.false_or] at ha
      exact ih _ hq ha
    | need_data =>
      simp only [stream_buffer.no_swap] at hq
      refine stream_buffer.need_data_flag_false N cs _ hq ?_
      show t.need_data.2._need_data = false
      unfold stream_buffer.need_data
      split <;> simp_all

theorem stream_buffer.need_data_flag_keep [Zero α] (N : Nat) (cs : List (buffer_call α)) :
    ∀ t : stream_buffer α, stream_buffer.no_swap N t cs = true →
      cs.any buffer_call.is_need_data = false →
      (stream_buffer.calls N t cs)._need_data = t._need_data := by
  induction cs with
  | nil => intro t _ _; rfl
  | cons c cs ih =>
    intro t hq ha
    cases c with
    | reset => simp [stream_buffer.no_swap] at hq
    | get =>
      simp only [stream_buffer.no_swap, Bool.and_eq_true, decide_eq_true_eq] at hq
      simp only [List.any_cons, buffer_call.is_need_data, Bool.false_or] at ha
      show (stream_buffer.calls N t.get.2 cs)._need_data = t._need_data
      rw [ih _ hq.2 ha, stream_buffer.get_need_data_of_lt t hq.1]
    | put v =>
      simp only [stream_buffer.no_swap] at hq
      simp only [List.any_cons, buffer_call.is_need_data, Bool.false_or] at ha
      show (stream_buffer.calls N (t.put N v) cs)._need_data = t._need_data
      rw [ih _ hq ha]
      exact stream_buffer.put_need_data N t v
    | need_data =>
      simp [buffer_call.is_need_data] at ha

/-! Runs of `put` and of `get`. -/

theorem stream_buffer.put_of_lt (N : Nat) (s : stream_buffer α) (v : α)
    (h : s._limit s._write_idx < N) :
    s.put N v =
      { s with
        _buffer := Function.update s._buffer s._write_idx
          (Function.update (s._buffer s._write_idx) (s._limit s._write_idx) v)
        _limit := Function.update s._limit s._write_idx ((s._limit s._write_idx + 1) % 65536) } := by
  simp only [stream_buffer.put, ge_iff_le, Nat.not_le.mpr h, if_false]

theorem stream_buffer.put_of_ge (N : Nat) (s : stream_buffer α) (v : α)
    (h : N ≤ s._limit s._write_idx) : s.put N v = s := by
  simp only [stream_buffer.put, ge_iff_le, h, if_true]

/-- The fields after a run of `put` calls on a write slot whose limit is at most `N`. -/
theorem stream_buffer.puts_fields (N : Nat) (hN : N ≤ 65535) (vs : List α) :
    ∀ t : stream_buffer α, t._limit t._write_idx ≤ N →
      (stream_buffer.puts N t vs)._read_idx = t._read_idx ∧
      (stream_buffer.puts N t vs)._read_pos = t._read_pos ∧
      (stream_buffer.puts N t vs)._write_idx = t._write_idx ∧
      (stream_buffer.puts N t vs)._need_data = t._need_data ∧
      (∀ i, i ≠ t._write_idx → (stream_buffer.puts N t vs)._limit i = t._limit i) ∧
      (stream_buffer.puts N t vs)._limit t._write_idx =
        min (t._limit t._write_idx + vs.length) N ∧
      (∀ i j, (stream_buffer.puts N t vs)._buffer i j =
        if i = t._write_idx ∧ t._limit t._write_idx ≤ j ∧ j < N then
          vs.getD (j - t._limit t._write_idx) (t._buffer i j)
        else t._buffer i j) := by
  induction vs with
  | nil =>
    intro t ht
    refine ⟨rfl, rfl, rfl, rfl, fun _ _ => rfl, ?_, ?_⟩
    · show t._limit t._write_idx = min (t._limit t._write_idx + 0) N
      omega
    · intro i j
      show t._buffer i j = _
      split <;> rfl
  | cons v vs ih =>
    intro t ht
    show (stream_buffer.puts N (t.put N v) vs)._read_idx = t._read_idx ∧
      (stream_buffer.puts N (t.put N v) vs)._read_pos = t._read_pos ∧
      (stream_buffer.puts N (t.put N v) vs)._write_idx = t._write_idx ∧
      (stream_buffer.puts N (t.put N v) vs)._need_data = t._need_data ∧
      (∀ i, i ≠ t._write_idx → (stream_buffer.puts N (t.put N v) vs)._limit i = t._limit i) ∧
      (stream_buffer.puts N (t.put N v) vs)._limit t._write_idx =
        min (t._limit t._write_idx + (v :: vs).length) N ∧
      (∀ i j, (stream_buffer.puts N (t.put N v) vs)._buffer i j =
        if i = t._write_idx ∧ t._limit t._write_idx ≤ j ∧ j < N then
          (v :: vs).getD (j - t._limit t._write_idx) (t._buffer i j)
        else t._buffer i j)
    by_cases hlt : t._limit t._write_idx < N
    · have hw : (t.put N v)._write_idx = t._write_idx := stream_buffer.put_write_idx N t v
      have hl : (t.put N v)._limit t._write_idx = t._limit t._write_idx + 1 := by
        rw [stream_buffer.put_of_lt N t v hlt]
        show Function.update t._limit t._write_idx ((t._limit t._write_idx + 1) % 65536)
          t._write_idx = _
        rw [Function.update_same]
        omega
      have hb : ∀ i j, (t.put N v)._buffer i j =
          if i = t._write_idx ∧ j = t._limit t._write_idx then v else t._buffer i j := by
        intro i j
        rw [stream_buffer.put_of_lt N t v hlt]
        show Function.update t._buffer t._write_idx
          (Function.update (t._buffer t._write_idx) (t._limit t._write_idx) v) i j = _
        by_cases hi : i = t._write_idx
        · subst hi
          rw [Function.update_same]
          by_cases hj : j = t._limit t._write_idx
          · subst hj
            simp
          · rw [Function.update_noteq hj]
            simp [hj]
        · rw [Function.update_noteq hi]
          simp [hi]
      have h := ih (t.put N v) (by rw [hw, hl]; omega)
      rw [hw, hl] at h
      obtain ⟨h1, h2, h3, h4, h5, h6, h7⟩ := h
      refine ⟨by rw [h1, stream_buffer.put_read_idx], by rw [h2, stream_buffer.put_read_pos],
        h3, by rw [h4, stream_buffer.put_need_data], ?_, ?_, ?_⟩
      · intro i hi
        rw [h5 i hi, stream_buffer.put_limit_other N t v i hi]
      · rw [h6, List.length_cons]
        omega
      · intro i j
        rw [h7 i j, hb i j]
        by_cases hi : i = t._write_idx
        · subst hi
          by_cases hj : j < N
          · by_cases hj0 : j = t._limit t._write_idx
            · subst hj0
              have : ¬ (t._limit t._write_idx + 1 ≤ t._limit t._write_idx) := by omega
              simp [this, hj]
            · by_cases hj1 : t._limit t._write_idx + 1 ≤ j
              · have hle : t._limit t._write_idx ≤ j := by omega
                have hsub : j - t._limit t._write_idx = (j - (t._limit t._write_idx + 1)) + 1 := by
                  omega
                simp only [hj1, hj, hle, hj0, and_self, and_true, true_and, if_true, and_false,
                  if_false]
                rw [hsub, List.getD_cons_succ]
              · have hle : ¬ t._limit t._write_idx ≤ j := by omega
                simp [hj1, hle, hj0]
          · have hj0 : j ≠ t._limit t._write_idx := by omega
            simp [hj, hj0]
        · simp [hi]
    · have hge : N ≤ t._limit t._write_idx := Nat.le_of_not_lt hlt
      rw [stream_buffer.put_of_ge N t v hge]
      obtain ⟨h1, h2, h3, h4, h5, h6, h7⟩ := ih t ht
      refine ⟨h1, h2, h3, h4, h5, ?_, ?_⟩
      · rw [h6, List.length_cons]
        omega
      · intro i j
        rw [h7 i j]
        have : ¬ (t._limit t._write_idx ≤ j ∧ j < N) := by omega
        simp [this]

theorem stream_buffer.get_of_lt (s : stream_buffer α)
    (h : s._read_pos < s._limit s._read_idx) :
    s.get = (some (s._buffer s._read_idx s._read_pos),
      { s with _read_pos := (s._read_pos + 1) % 65536 }) := by
  simp only [stream_buffer.get, stream_buffer.get_swap, ge_iff_le, Nat.not_le.mpr h, if_false]

theorem stream_buffer.get_of_ge (s : stream_buffer α)
    (h : s._limit s._read_idx ≤ s._read_pos) :
    s.get = (some (s._buffer ((s._read_idx + 1) % 2) 0),
      { s with _read_idx := (s._read_idx + 1) % 2, _read_pos := 1,
               _write_idx := ((s._read_idx + 1) % 2 + 1) % 2, _need_data := true }) := by
  simp only [stream_buffer.get, stream_buffer.get_swap, ge_iff_le, h, if_true,
    stream_buffer._max_count]

theorem stream_buffer.gets_succ (s : stream_buffer α) (m : Nat) :
    stream_buffer.gets s (m + 1) =
      (s.get.1 :: (stream_buffer.gets s.get.2 m).1, (stream_buffer.gets s.get.2 m).2) := rfl

/-- A run of `get` calls that stays inside the valid part of the read slot. -/
theorem stream_buffer.gets_no_swap (m : Nat) :
    ∀ s : stream_buffer α, s._read_pos + m ≤ s._limit s._read_idx →
      s._limit s._read_idx ≤ 65535 →
      stream_buffer.gets s m =
        ((List.range m).map (fun i => some (s._buffer s._read_idx (s._read_pos + i))),
          { s with _read_pos := s._read_pos + m }) := by
  induction m with
  | zero => intro s _ _; rfl
  | succ m ih =>
    intro s h1 h2
    have hlt : s._read_pos < s._limit s._read_idx := by omega
    have hmod : (s._read_pos + 1) % 65536 = s._read_pos + 1 := by omega
    have hg := stream_buffer.get_of_lt s hlt
    rw [hmod] at hg
    have hi := ih { s with _read_pos := s._read_pos + 1 }
      (by show s._read_pos + 1 + m ≤ s._limit s._read_idx; omega) h2
    dsimp only at hi
    rw [stream_buffer.gets_succ, hg]
    dsimp only
    rw [hi, List.range_succ_eq_map, List.map_cons, List.map_map]
    have hf : ((fun i => some (s._buffer s._read_idx (s._read_pos + i))) ∘ Nat.succ) =
        (fun i => some (s._buffer s._read_idx (s._read_pos + 1 + i))) := by
      funext i
      show some (s._buffer s._read_idx (s._read_pos + (i + 1))) = _
      rw [Nat.add_assoc, Nat.add_comm 1 i]
    have hp : s._read_pos + 1 + m = s._read_pos + (m + 1) := by omega
    rw [hf, hp]
    rfl

/-- A run of `k >= 1` `get` calls whose first call swaps onto a slot holding at least `k`
valid samples. -/
theorem stream_buffer.gets_swap (k : Nat) (hk1 : 1 ≤ k) (u : stream_buffer α)
    (hge : u._limit u._read_idx ≤ u._read_pos)
    (hk : k ≤ u._limit ((u._read_idx + 1) % 2))
    (hl : u._limit ((u._read_idx + 1) % 2) ≤ 65535) :
    stream_buffer.gets u k =
      ((List.range k).map (fun i => some (u._buffer ((u._read_idx + 1) % 2) i)),
        { u with _read_idx := (u._read_idx + 1) % 2, _read_pos := k,
                 _write_idx := ((u._read_idx + 1) % 2 + 1) % 2, _need_data := true }) := by
  obtain ⟨m, rfl⟩ : ∃ m, k = m + 1 := ⟨k - 1, by omega⟩
  have hg := stream_buffer.get_of_ge u hge
  have hi := stream_buffer.gets_no_swap m
    { u with _read_idx := (u._read_idx + 1) % 2, _read_pos := 1,
             _write_idx := ((u._read_idx + 1) % 2 + 1) % 2, _need_data := true }
    (by show 1 + m ≤ u._limit ((u._read_idx + 1) % 2); omega) hl
  dsimp only at hi
  rw [stream_buffer.gets_succ, hg]
  dsimp only
  rw [hi, List.range_succ_eq_map, List.map_cons, List.map_map]
  have hf : ((fun i => some (u._buffer ((u._read_idx + 1) % 2) i)) ∘ Nat.succ) =
      (fun i => some (u._buffer ((u._read_idx + 1) % 2) (1 + i))) := by
    funext i
    show some (u._buffer ((u._read_idx + 1) % 2) (i + 1)) = _
    rw [Nat.add_comm i 1]
  have hp : 1 + m = m + 1 := by omega
  rw [hf, hp]

theorem stream_buffer.map_range_eq_map_some (vs : List α) (f : Nat → Option α)
    (h : ∀ (i : Nat) (hi : i < vs.length), f i = some (vs.get ⟨i, hi⟩)) :
    (List.range vs.length).map f = vs.map some := by
  apply List.ext_getElem
  · simp
  · intro n h1 h2
    simp only [List.getElem_map, List.getElem_range]
    have hn : n < vs.length := by simpa using h1
    exact h n hn

/-- The limits never exceed `MAX_SIZE`. -/
theorem stream_buffer.limit_le_call [Zero α] (N : Nat) (s : stream_buffer α) (c : buffer_call α)
    (h : ∀ i, s._limit i ≤ N) : ∀ i, (s.call N c)._limit i ≤ N := by
  intro i
  cases c with
  | reset =>
    show Function.update (Function.update s._limit 0 (N % 65536)) 1 (N % 65536) i ≤ N
    have := Nat.mod_le N 65536
    simp only [Function.update_apply]
    split
    · exact this
    · split
      · exact this
      · exact h i
  | get =>
    show s.get.2._limit i ≤ N
    rw [stream_buffer.get_limit]
    exact h i
  | put v =>
    show (s.put N v)._limit i ≤ N
    unfold stream_buffer.put
    split
    · exact h i
    · show Function.update s._limit s._write_idx ((s._limit s._write_idx + 1) % 65536) i ≤ N
      simp only [Function.update_apply]
      split
      · have := Nat.mod_le (s._limit s._write_idx + 1) 65536
        omega
      · exact h i
  | need_data =>
    show s.need_data.2._limit i ≤ N
    unfold stream_buffer.need_data
    split
    · show Function.update s._limit s._write_idx 0 i ≤ N
      simp only [Function.update_apply]
      split
      · exact Nat.zero_le _
      · exact h i
    · exact h i

theorem stream_buffer.Reachable.limit_le [Zero α] {N : Nat} {s : stream_buffer α}
    (hs : s.Reachable N) : ∀ i, s._limit i ≤ N :=
  stream_buffer.Reachable.induct (P := fun s => ∀ i, s._limit i ≤ N)
    (fun _ => Nat.le_refl N) (fun s c h => stream_buffer.limit_le_call N s c h) s hs

theorem stream_buffer.Reachable.read_pos [Zero α] {N : Nat} {s : stream_buffer α}
    (hs : s.Reachable N) :
    s._read_pos ≤ s._limit s._read_idx ∨ (s._read_pos = 1 ∧ s._limit s._read_idx = 0) :=
  (stream_buffer.Reachable.induct
    (P := fun s => (s._read_idx < 2 ∧ s._write_idx = (s._read_idx + 1) % 2) ∧
      (s._read_pos ≤ s._limit s._read_idx ∨ (s._read_pos = 1 ∧ s._limit s._read_idx = 0)))
    (by simp [stream_buffer.ctor]) (fun s c h => stream_buffer.read_pos_inv_call N s c h) s hs).2

theorem stream_buffer.need_data_of_flag {α : Type} (s : stream_buffer α)
    (h : s._need_data = true) :
    s.need_data = (true, { s with _limit := Function.update s._limit s._write_idx 0,
                                  _need_data := false }) := by
  simp only [stream_buffer.need_data, h, if_true]

theorem stream_buffer.map_range_eq_replicate {β : Type} (n : Nat) (f : Nat → β) (b : β)
    (h : ∀ i, i < n → f i = b) : (List.range n).map f = List.replicate n b := by
  apply List.ext_getElem
  · simp
  · intro i h1 h2
    simp only [List.getElem_map, List.getElem_range, List.getElem_replicate]
    exact h i (by simpa using h1)

end buffer_lemmas

section gpio_lemmas

theorem nat_and_two_pow_ne_zero (x i : Nat) : x &&& 2 ^ i ≠ 0 ↔ x.testBit i = true := by
  constructor
  · intro h
    by_contra hb
    apply h
    apply Nat.eq_of_testBit_eq
    intro j
    rw [Nat.testBit_and, Nat.testBit_two_pow, Nat.zero_testBit]
    by_cases hij : i = j
    · subst hij
      simp [hb]
    · simp [hij]
  · intro h h0
    have h1 : (x &&& 2 ^ i).testBit i = true := by
      rw [Nat.testBit_and, Nat.testBit_two_pow, h]
      simp
    rw [h0, Nat.zero_testBit] at h1
    exact Bool.noConfusion h1

theorem reg_write.testBit_apply_set (out m p : Nat) :
    (reg_write.apply out ⟨.GPIO_OUT_W1TS_REG, m⟩).testBit p = (out.testBit p || m.testBit p) := by
  show (out ||| m).testBit p = _
  rw [Nat.testBit_or]

theorem reg_write.testBit_apply_clear (out m p : Nat) (hp : p < 32) :
    (reg_write.apply out ⟨.GPIO_OUT_W1TC_REG, m⟩).testBit p =
      (out.testBit p && !m.testBit p) := by
  show (out &&& (4294967295 ^^^ m)).testBit p = _
  have h : (4294967295 : Nat) = 2 ^ 32 - 1 := by norm_num
  rw [Nat.testBit_and, Nat.testBit_xor, h, Nat.testBit_two_pow_sub_one]
  simp [hp]

/-- The bitmasks of a constructed `dac_gpio` for pins below 32. -/
theorem dac_gpio.ctor_bitmasks (config : stereo_player_config)
    (h : config.clk_gpio < 32 ∧ config.ch1_data_gpio < 32 ∧ config.ch2_data_gpio < 32 ∧
      config.le_gpio < 32) :
    (dac_gpio.ctor config)._clk_bitmask = 2 ^ config.clk_gpio ∧
    (dac_gpio.ctor config)._ch1_data_bitmask = 2 ^ config.ch1_data_gpio ∧
    (dac_gpio.ctor config)._ch2_data_bitmask = 2 ^ config.ch2_data_gpio ∧
    (dac_gpio.ctor config)._le_bitmask = 2 ^ config.le_gpio := by
  have key : ∀ p, p < 32 → (1 <<< p) % 4294967296 = 2 ^ p := by
    intro p hp
    rw [Nat.one_shiftLeft]
    apply Nat.mod_eq_of_lt
    have : (4294967296 : Nat) = 2 ^ 32 := by norm_num
    rw [this]
    exact Nat.pow_lt_pow_right (by decide) hp
  exact ⟨key _ h.1, key _ h.2.1, key _ h.2.2.1, key _ h.2.2.2⟩

theorem dac_gpio.loop_body_masks (g : dac_gpio) (ch1 ch2 : Int) (i mask : Nat) :
    (g.loop_body ch1 ch2 i mask).1._clk_bitmask = g._clk_bitmask ∧
    (g.loop_body ch1 ch2 i mask).1._ch1_data_bitmask = g._ch1_data_bitmask ∧
    (g.loop_body ch1 ch2 i mask).1._ch2_data_bitmask = g._ch2_data_bitmask ∧
    (g.loop_body ch1 ch2 i mask).1._le_bitmask = g._le_bitmask ∧
    (g.loop_body ch1 ch2 i mask).1._config = g._config := by
  simp only [dac_gpio.loop_body]
  split_ifs <;> exact ⟨rfl, rfl, rfl, rfl, rfl⟩

/-- One iteration of the loop, seen on a data line: the level at the clock-set write is the bit
of the channel value selected by the mask, and the clock line is low again afterwards. -/
theorem dac_gpio.loop_body_levels (g : dac_gpio) (ch1 ch2 : Int) (i : Nat)
    (clk p1 p2 le : Nat) (hclk : g._clk_bitmask = 2 ^ clk) (h1 : g._ch1_data_bitmask = 2 ^ p1)
    (h2 : g._ch2_data_bitmask = 2 ^ p2) (hle : g._le_bitmask = 2 ^ le)
    (hb : clk < 32 ∧ p1 < 32 ∧ p2 < 32 ∧ le < 32)
    (hd : clk ≠ p1 ∧ clk ≠ p2 ∧ clk ≠ le ∧ p1 ≠ p2 ∧ p1 ≠ le ∧ p2 ≠ le)
    (out : Nat) (rest : List reg_write) :
    levels_at_clock_set clk p1 out ((g.loop_body ch1 ch2 i (2 ^ i)).2 ++ rest) =
      (int_pattern ch1).testBit i ::
        levels_at_clock_set clk p1 (replay_writes out (g.loop_body ch1 ch2 i (2 ^ i)).2) rest ∧
    levels_at_clock_set clk p2 out ((g.loop_body ch1 ch2 i (2 ^ i)).2 ++ rest) =
      (int_pattern ch2).testBit i ::
        levels_at_clock_set clk p2 (replay_writes out (g.loop_body ch1 ch2 i (2 ^ i)).2) rest := by
  obtain ⟨b1, b2, b3, b4⟩ := hb
  obtain ⟨d1, d2, d3, d4, d5, d6⟩ := hd
  have c1 := nat_and_two_pow_ne_zero (int_pattern ch1) i
  have c2 := nat_and_two_pow_ne_zero (int_pattern ch2) i
  simp only [dac_gpio.loop_body, hclk, h1, h2, hle]
  split_ifs with hi hc1 hc2 hc2 hc1 hc2 hc2 <;>
    simp_all [levels_at_clock_set, replay_writes, reg_write.testBit_apply_set,
      reg_write.testBit_apply_clear, Nat.testBit_two_pow, Ne.symm]

/-- One iteration of the loop when the clock line is low on entry: the only rising edge is the
clock-set write, and the clock line is low again afterwards. -/
theorem dac_gpio.loop_body_edges (g : dac_gpio) (ch1 ch2 : Int) (i : Nat)
    (clk p1 p2 le : Nat) (hclk : g._clk_bitmask = 2 ^ clk) (h1 : g._ch1_data_bitmask = 2 ^ p1)
    (h2 : g._ch2_data_bitmask = 2 ^ p2) (hle : g._le_bitmask = 2 ^ le)
    (hb : clk < 32 ∧ p1 < 32 ∧ p2 < 32 ∧ le < 32)
    (hd : clk ≠ p1 ∧ clk ≠ p2 ∧ clk ≠ le ∧ p1 ≠ p2 ∧ p1 ≠ le ∧ p2 ≠ le)
    (out : Nat) (hlow : out.testBit clk = false) (rest : List reg_write) :
    levels_at_rising_edge clk p1 out ((g.loop_body ch1 ch2 i (2 ^ i)).2 ++ rest) =
      (int_pattern ch1).testBit i ::
        levels_at_rising_edge clk p1 (replay_writes out (g.loop_body ch1 ch2 i (2 ^ i)).2) rest ∧
    levels_at_rising_edge clk p2 out ((g.loop_body ch1 ch2 i (2 ^ i)).2 ++ rest) =
      (int_pattern ch2).testBit i ::
        levels_at_rising_edge clk p2 (replay_writes out (g.loop_body ch1 ch2 i (2 ^ i)).2) rest ∧
    (replay_writes out (g.loop_body ch1 ch2 i (2 ^ i)).2).testBit clk = false := by
  obtain ⟨b1, b2, b3, b4⟩ := hb
  obtain ⟨d1, d2, d3, d4, d5, d6⟩ := hd
  have c1 := nat_and_two_pow_ne_zero (int_pattern ch1) i
  have c2 := nat_and_two_pow_ne_zero (int_pattern ch2) i
  simp only [dac_gpio.loop_body, hclk, h1, h2, hle]
  split_ifs with hi hc1 hc2 hc2 hc1 hc2 hc2 <;>
    simp_all [levels_at_rising_edge, replay_writes, reg_write.testBit_apply_set,
      reg_write.testBit_apply_clear, Nat.testBit_two_pow, Ne.symm]

theorem replay_writes_append (out : Nat) (a b : List reg_write) :
    replay_writes out (a ++ b) = replay_writes (replay_writes out a) b := by
  simp only [replay_writes, List.foldl_append]

theorem dac_gpio.set_loop_succ (ch1 ch2 : Int) (n mask : Nat) (g : dac_gpio) :
    dac_gpio.set_loop ch1 ch2 (n + 1) mask g =
      ((dac_gpio.set_loop ch1 ch2 n (mask >>> 1) (g.loop_body ch1 ch2 n mask).1).1,
        (g.loop_body ch1 ch2 n mask).2 ++
          (dac_gpio.set_loop ch1 ch2 n (mask >>> 1) (g.loop_body ch1 ch2 n mask).1).2) := rfl

theorem two_pow_shiftRight_one (n : Nat) (h : 0 < n) : (2 ^ n) >>> 1 = 2 ^ (n - 1) := by
  obtain ⟨m, rfl⟩ : ∃ m, n = m + 1 := ⟨n - 1, by omega⟩
  rw [Nat.shiftRight_eq_div_pow, Nat.pow_succ]
  simp

theorem dac_gpio.set_loop_masks (ch1 ch2 : Int) (n : Nat) :
    ∀ (mask : Nat) (g : dac_gpio),
      (dac_gpio.set_loop ch1 ch2 n mask g).1._clk_bitmask = g._clk_bitmask ∧
      (dac_gpio.set_loop ch1 ch2 n mask g).1._ch1_data_bitmask = g._ch1_data_bitmask ∧
      (dac_gpio.set_loop ch1 ch2 n mask g).1._ch2_data_bitmask = g._ch2_data_bitmask ∧
      (dac_gpio.set_loop ch1 ch2 n mask g).1._le_bitmask = g._le_bitmask ∧
      (dac_gpio.set_loop ch1 ch2 n mask g).1._config = g._config := by
  induction n with
  | zero => intro mask g; exact ⟨rfl, rfl, rfl, rfl, rfl⟩
  | succ n ih =>
    intro mask g
    rw [dac_gpio.set_loop_succ]
    obtain ⟨a1, a2, a3, a4, a5⟩ := ih (mask >>> 1) (g.loop_body ch1 ch2 n mask).1
    obtain ⟨e1, e2, e3, e4, e5⟩ := dac_gpio.loop_body_masks g ch1 ch2 n mask
    exact ⟨a1.trans e1, a2.trans e2, a3.trans e3, a4.trans e4, a5.trans e5⟩

theorem list_range_succ_map_rev (n : Nat) (f : Nat → Bool) :
    (List.range (n + 1)).map (fun k => f (n + 1 - 1 - k)) =
      f n :: (List.range n).map (fun k => f (n - 1 - k)) := by
  rw [List.range_succ_eq_map, List.map_cons, List.map_map]
  congr 1
  apply List.map_congr_left
  intro k _
  show f (n + 1 - 1 - (k + 1)) = f (n - 1 - k)
  congr 1
  omega

/-- The loop with `n` iterations left and `mask = 2^(n-1)`: the levels of the data lines at the
clock-set writes are bits `n-1` down to 0 of the channel values. -/
theorem dac_gpio.set_loop_levels (ch1 ch2 : Int) (clk p1 p2 le : Nat)
    (hb : clk < 32 ∧ p1 < 32 ∧ p2 < 32 ∧ le < 32)
    (hd : clk ≠ p1 ∧ clk ≠ p2 ∧ clk ≠ le ∧ p1 ≠ p2 ∧ p1 ≠ le ∧ p2 ≠ le) (n : Nat) :
    ∀ (mask : Nat) (g : dac_gpio) (out : Nat) (rest : List reg_write),
      (0 < n → mask = 2 ^ (n - 1)) →
      g._clk_bitmask = 2 ^ clk → g._ch1_data_bitmask = 2 ^ p1 →
      g._ch2_data_bitmask = 2 ^ p2 → g._le_bitmask = 2 ^ le →
      levels_at_clock_set clk p1 out ((dac_gpio.set_loop ch1 ch2 n mask g).2 ++ rest) =
        (List.range n).map (fun k => (int_pattern ch1).testBit (n - 1 - k)) ++
          levels_at_clock_set clk p1
            (replay_writes out (dac_gpio.set_loop ch1 ch2 n mask g).2) rest ∧
      levels_at_clock_set clk p2 out ((dac_gpio.set_loop ch1 ch2 n mask g).2 ++ rest) =
        (List.range n).map (fun k => (int_pattern ch2).testBit (n - 1 - k)) ++
          levels_at_clock_set clk p2
            (replay_writes out (dac_gpio.set_loop ch1 ch2 n mask g).2) rest := by
  induction n with
  | zero =>
    intro mask g out rest _ _ _ _ _
    exact ⟨rfl, rfl⟩
  | succ n ih =>
    intro mask g out rest hm hclk h1 h2 hle
    have hmask : mask = 2 ^ n := hm (Nat.succ_pos n)
    subst hmask
    obtain ⟨e1, e2, e3, e4, _⟩ := dac_gpio.loop_body_masks g ch1 ch2 n (2 ^ n)
    rw [dac_gpio.set_loop_succ]
    dsimp only
    rw [List.append_assoc, replay_writes_append]
    obtain ⟨l1, l2⟩ := dac_gpio.loop_body_levels g ch1 ch2 n clk p1 p2 le hclk h1 h2 hle hb hd out
      ((dac_gpio.set_loop ch1 ch2 n ((2 ^ n) >>> 1) (g.loop_body ch1 ch2 n (2 ^ n)).1).2 ++ rest)
    obtain ⟨i1, i2⟩ := ih ((2 ^ n) >>> 1) (g.loop_body ch1 ch2 n (2 ^ n)).1
      (replay_writes out (g.loop_body ch1 ch2 n (2 ^ n)).2) rest
      (fun h => two_pow_shiftRight_one n h) (e1.trans hclk) (e2.trans h1) (e3.trans h2)
      (e4.trans hle)
    rw [l1, l2, i1, i2, list_range_succ_map_rev, list_range_succ_map_rev]
    exact ⟨rfl, rfl⟩

/-- The same loop when the clock line is low on entry: the rising edges of the clock are the
clock-set writes, and the clock line is low at the end. -/
theorem dac_gpio.set_loop_edges (ch1 ch2 : Int) (clk p1 p2 le : Nat)
    (hb : clk < 32 ∧ p1 < 32 ∧ p2 < 32 ∧ le < 32)
    (hd : clk ≠ p1 ∧ clk ≠ p2 ∧ clk ≠ le ∧ p1 ≠ p2 ∧ p1 ≠ le ∧ p2 ≠ le) (n : Nat) :
    ∀ (mask : Nat) (g : dac_gpio) (out : Nat) (rest : List reg_write),
      (0 < n → mask = 2 ^ (n - 1)) →
      g._clk_bitmask = 2 ^ clk → g._ch1_data_bitmask = 2 ^ p1 →
      g._ch2_data_bitmask = 2 ^ p2 → g._le_bitmask = 2 ^ le →
      out.testBit clk = false →
      levels_at_rising_edge clk p1 out ((dac_gpio.set_loop ch1 ch2 n mask g).2 ++ rest) =
        (List.range n).map (fun k => (int_pattern ch1).testBit (n - 1 - k)) ++
          levels_at_rising_edge clk p1
            (replay_writes out (dac_gpio.set_loop ch1 ch2 n mask g).2) rest ∧
      levels_at_rising_edge clk p2 out ((dac_gpio.set_loop ch1 ch2 n mask g).2 ++ rest) =
        (List.range n).map (fun k => (int_pattern ch2).testBit (n - 1 - k)) ++
          levels_at_rising_edge clk p2
            (replay_writes out (dac_gpio.set_loop ch1 ch2 n mask g).2) rest ∧
      (replay_writes out (dac_gpio.set_loop ch1 ch2 n mask g).2).testBit clk = false := by
  induction n with
  | zero =>
    intro mask g out rest _ _ _ _ _ hlow
    exact ⟨rfl, rfl, hlow⟩
  | succ n ih =>
    intro mask g out rest hm hclk h1 h2 hle hlow
    have hmask : mask = 2 ^ n := hm (Nat.succ_pos n)
    subst hmask
    obtain ⟨e1, e2, e3, e4, _⟩ := dac_gpio.loop_body_masks g ch1 ch2 n (2 ^ n)
    rw [dac_gpio.set_loop_succ]
    dsimp only
    rw [List.append_assoc, replay_writes_append]
    obtain ⟨l1, l2, l3⟩ := dac_gpio.loop_body_edges g ch1 ch2 n clk p1 p2 le hclk h1 h2 hle hb hd
      out hlow
      ((dac_gpio.set_loop ch1 ch2 n ((2 ^ n) >>> 1) (g.loop_body ch1 ch2 n (2 ^ n)).1).2 ++ rest)
    obtain ⟨i1, i2, i3⟩ := ih ((2 ^ n) >>> 1) (g.loop_body ch1 ch2 n (2 ^ n)).1
      (replay_writes out (g.loop_body ch1 ch2 n (2 ^ n)).2) rest
      (fun h => two_pow_shiftRight_one n h) (e1.trans hclk) (e2.trans h1) (e3.trans h2)
      (e4.trans hle) l3
    rw [l1, l2, i1, i2, list_range_succ_map_rev, list_range_succ_map_rev]
    exact ⟨rfl, rfl, i3⟩

/-! Two's complement patterns and their binary digits. -/

theorem int16_pattern_eq_mod (v : Int) : int16_pattern v = int_pattern v % 2 ^ 16 := by
  unfold int16_pattern int_pattern
  omega

theorem int16_pattern_lt (v : Int) : int16_pattern v < 2 ^ 16 := by
  unfold int16_pattern
  omega

theorem int16_of_pattern_pattern (v : Int) (h : -32768 ≤ v ∧ v ≤ 32767) :
    int16_of_pattern (int16_pattern v) = v := by
  unfold int16_of_pattern int16_pattern
  split <;> omega

theorem of_msb_bits_foldl (bits : List Bool) :
    ∀ a : Nat, bits.foldl (fun acc b => 2 * acc + b.toNat) a =
      a * 2 ^ bits.length + bits.foldl (fun acc b => 2 * acc + b.toNat) 0 := by
  induction bits with
  | nil => intro a; simp
  | cons b bs ih =>
    intro a
    rw [List.foldl_cons, List.foldl_cons, ih (2 * a + b.toNat), ih (2 * 0 + b.toNat),
      List.length_cons, Nat.pow_succ]
    ring

theorem of_msb_bits_testBit (p n : Nat) :
    of_msb_bits ((List.range n).map (fun k => p.testBit (n - 1 - k))) = p % 2 ^ n := by
  induction n with
  | zero => simp [of_msb_bits, Nat.mod_one]
  | succ n ih =>
    rw [list_range_succ_map_rev]
    unfold of_msb_bits at ih ⊢
    rw [List.foldl_cons, of_msb_bits_foldl, ih, Nat.mod_pow_succ, Nat.toNat_testBit]
    simp only [List.length_map, List.length_range]
    ring

end gpio_lemmas

section protocol_lemmas

theorem int_pattern_testBit (v : Int) (i : Nat) (hi : i < 16) :
    (int_pattern v).testBit i = (int16_pattern v).testBit i := by
  rw [int16_pattern_eq_mod, Nat.testBit_mod_two_pow]
  simp [hi]

/-- One iteration of the loop emits the four writes of its bit index. -/
theorem dac_gpio.loop_body_writes (g : dac_gpio) (ch1 ch2 : Int) (i : Nat) (hi : i < 16) :
    (g.loop_body ch1 ch2 i (2 ^ i)).2 =
      protocol_bit_writes g._clk_bitmask g._ch1_data_bitmask g._ch2_data_bitmask g._le_bitmask
        ch1 ch2 i := by
  have c1 := nat_and_two_pow_ne_zero (int_pattern ch1) i
  have c2 := nat_and_two_pow_ne_zero (int_pattern ch2) i
  rw [int_pattern_testBit ch1 i hi] at c1
  rw [int_pattern_testBit ch2 i hi] at c2
  simp only [dac_gpio.loop_body, protocol_bit_writes, protocol_set_group, protocol_reset_group]
  split_ifs <;> simp_all

theorem dac_gpio.set_loop_writes (ch1 ch2 : Int) (n : Nat) :
    ∀ (mask : Nat) (g : dac_gpio), n ≤ 16 → (0 < n → mask = 2 ^ (n - 1)) →
      (dac_gpio.set_loop ch1 ch2 n mask g).2 =
        protocol_bits g._clk_bitmask g._ch1_data_bitmask g._ch2_data_bitmask g._le_bitmask
          ch1 ch2 n := by
  induction n with
  | zero => intro mask g _ _; rfl
  | succ n ih =>
    intro mask g hn hm
    have hmask : mask = 2 ^ n := hm (Nat.succ_pos n)
    subst hmask
    obtain ⟨e1, e2, e3, e4, _⟩ := dac_gpio.loop_body_masks g ch1 ch2 n (2 ^ n)
    rw [dac_gpio.set_loop_succ]
    dsimp only
    rw [ih ((2 ^ n) >>> 1) (g.loop_body ch1 ch2 n (2 ^ n)).1 (by omega)
      (fun h => two_pow_shiftRight_one n h), dac_gpio.loop_body_writes g ch1 ch2 n (by omega),
      e1, e2, e3, e4]
    rfl

/-- The register writes of `set_samples_and_enable` are the protocol trace. -/
theorem dac_gpio.set_samples_trace (g : dac_gpio) (ch1 ch2 : Int) :
    (g.set_samples_and_enable ch1 ch2).2 =
      protocol_trace g._clk_bitmask g._ch1_data_bitmask g._ch2_data_bitmask g._le_bitmask
        ch1 ch2 := by
  have h := dac_gpio.set_loop_writes ch1 ch2 16 (2 ^ (16 - 1)) g (by decide) (fun _ => rfl)
  have hm := (dac_gpio.set_loop_masks ch1 ch2 16 (2 ^ (16 - 1)) g).2.2.2.1
  have hwrites : (g.set_samples_and_enable ch1 ch2).2 =
      (dac_gpio.set_loop ch1 ch2 16 (2 ^ (16 - 1)) g).2 ++
        [⟨.GPIO_OUT_W1TC_REG, (dac_gpio.set_loop ch1 ch2 16 (2 ^ (16 - 1)) g).1._le_bitmask⟩] :=
    rfl
  rw [hwrites, h, hm, protocol_trace]

theorem protocol_bits_length (clk_mask ch1_mask ch2_mask le_mask : Nat) (ch1 ch2 : Int)
    (n : Nat) : (protocol_bits clk_mask ch1_mask ch2_mask le_mask ch1 ch2 n).length = 4 * n := by
  induction n with
  | zero => rfl
  | succ n ih =>
    rw [protocol_bits, List.length_append, ih]
    simp only [protocol_bit_writes, List.length_cons, List.length_nil]
    omega

theorem reg_write.apply_lt (out : Nat) (w : reg_write) (ho : out < 2 ^ 32)
    (hw : w.val < 2 ^ 32) : reg_write.apply out w < 2 ^ 32 := by
  unfold reg_write.apply
  split
  · exact Nat.or_lt_two_pow ho hw
  · exact Nat.and_lt_two_pow _ (Nat.xor_lt_two_pow (by norm_num) hw)

/-- The output bits after the four writes of one bit index, pins pairwise distinct and below
32. -/
theorem protocol_bit_writes_replay (clk p1 p2 le : Nat) (ch1 ch2 : Int) (i : Nat)
    (hb : clk < 32 ∧ p1 < 32 ∧ p2 < 32 ∧ le < 32)
    (hd : clk ≠ p1 ∧ clk ≠ p2 ∧ clk ≠ le ∧ p1 ≠ p2 ∧ p1 ≠ le ∧ p2 ≠ le) (out : Nat) :
    (replay_writes out
      (protocol_bit_writes (2 ^ clk) (2 ^ p1) (2 ^ p2) (2 ^ le) ch1 ch2 i)).testBit clk
        = false ∧
    (replay_writes out
      (protocol_bit_writes (2 ^ clk) (2 ^ p1) (2 ^ p2) (2 ^ le) ch1 ch2 i)).testBit p1
        = (int16_pattern ch1).testBit i ∧
    (replay_writes out
      (protocol_bit_writes (2 ^ clk) (2 ^ p1) (2 ^ p2) (2 ^ le) ch1 ch2 i)).testBit p2
        = (int16_pattern ch2).testBit i ∧
    (replay_writes out
      (protocol_bit_writes (2 ^ clk) (2 ^ p1) (2 ^ p2) (2 ^ le) ch1 ch2 i)).testBit le
        = (out.testBit le || decide (i = 14)) ∧
    (∀ p, p < 32 → p ≠ clk → p ≠ p1 → p ≠ p2 → p ≠ le →
      (replay_writes out
        (protocol_bit_writes (2 ^ clk) (2 ^ p1) (2 ^ p2) (2 ^ le) ch1 ch2 i)).testBit p
          = out.testBit p) := by
  obtain ⟨b1, b2, b3, b4⟩ := hb
  obtain ⟨d1, d2, d3, d4, d5, d6⟩ := hd
  simp only [protocol_bit_writes, protocol_set_group, protocol_reset_group, replay_writes,
    List.foldl_cons, List.foldl_nil]
  refine ⟨?_, ?_, ?_, ?_, ?_⟩
  · split_ifs <;>
      simp_all [reg_write.testBit_apply_set, reg_write.testBit_apply_clear,
        Nat.testBit_two_pow, Ne.symm]
  · split_ifs <;>
      simp_all [reg_write.testBit_apply_set, reg_write.testBit_apply_clear,
        Nat.testBit_two_pow, Ne.symm]
  · split_ifs <;>
      simp_all [reg_write.testBit_apply_set, reg_write.testBit_apply_clear,
        Nat.testBit_two_pow, Ne.symm]
  · split_ifs <;>
      simp_all [reg_write.testBit_apply_set, reg_write.testBit_apply_clear,
        Nat.testBit_two_pow, Ne.symm]
  · intro p hp h1 h2 h3 h4
    split_ifs <;>
      simp_all [reg_write.testBit_apply_set, reg_write.testBit_apply_clear,
        Nat.testBit_two_pow, Ne.symm]

/-- The level of the latch-enable line at the clock-set write of one bit index. -/
theorem protocol_bit_writes_le_level (clk p1 p2 le : Nat) (ch1 ch2 : Int) (i : Nat)
    (hb : clk < 32 ∧ p1 < 32 ∧ p2 < 32 ∧ le < 32)
    (hd : clk ≠ p1 ∧ clk ≠ p2 ∧ clk ≠ le ∧ p1 ≠ p2 ∧ p1 ≠ le ∧ p2 ≠ le) (out : Nat)
    (rest : List reg_write) :
    levels_at_clock_set clk le out
        (protocol_bit_writes (2 ^ clk) (2 ^ p1) (2 ^ p2) (2 ^ le) ch1 ch2 i ++ rest) =
      (out.testBit le || decide (i = 14)) ::
        levels_at_clock_set clk le
          (replay_writes out (protocol_bit_writes (2 ^ clk) (2 ^ p1) (2 ^ p2) (2 ^ le) ch1 ch2 i))
          rest := by
  obtain ⟨b1, b2, b3, b4⟩ := hb
  obtain ⟨d1, d2, d3, d4, d5, d6⟩ := hd
  simp only [protocol_bit_writes, protocol_set_group, protocol_reset_group, replay_writes,
    List.foldl_cons, List.foldl_nil, List.cons_append, List.nil_append]
  split_ifs <;>
    simp_all [levels_at_clock_set, reg_write.testBit_apply_set, reg_write.testBit_apply_clear,
      Nat.testBit_two_pow, Ne.symm]

theorem protocol_bits_succ (clk_mask ch1_mask ch2_mask le_mask : Nat) (ch1 ch2 : Int) (n : Nat) :
    protocol_bits clk_mask ch1_mask ch2_mask le_mask ch1 ch2 (n + 1) =
      protocol_bit_writes clk_mask ch1_mask ch2_mask le_mask ch1 ch2 n ++
        protocol_bits clk_mask ch1_mask ch2_mask le_mask ch1 ch2 n := rfl

/-- The output bits after the writes of bit indices `n - 1` down to 0. -/
theorem protocol_bits_replay (clk p1 p2 le : Nat) (ch1 ch2 : Int)
    (hb : clk < 32 ∧ p1 < 32 ∧ p2 < 32 ∧ le < 32)
    (hd : clk ≠ p1 ∧ clk ≠ p2 ∧ clk ≠ le ∧ p1 ≠ p2 ∧ p1 ≠ le ∧ p2 ≠ le) (n : Nat) :
    ∀ out : Nat,
      (0 < n → (replay_writes out
        (protocol_bits (2 ^ clk) (2 ^ p1) (2 ^ p2) (2 ^ le) ch1 ch2 n)).testBit clk = false) ∧
      (0 < n → (replay_writes out
        (protocol_bits (2 ^ clk) (2 ^ p1) (2 ^ p2) (2 ^ le) ch1 ch2 n)).testBit p1
          = (int16_pattern ch1).testBit 0) ∧
      (0 < n → (replay_writes out
        (protocol_bits (2 ^ clk) (2 ^ p1) (2 ^ p2) (2 ^ le) ch1 ch2 n)).testBit p2
          = (int16_pattern ch2).testBit 0) ∧
      (replay_writes out
        (protocol_bits (2 ^ clk) (2 ^ p1) (2 ^ p2) (2 ^ le) ch1 ch2 n)).testBit le
          = (out.testBit le || decide (14 < n)) ∧
      (∀ p, p < 32 → p ≠ clk → p ≠ p1 → p ≠ p2 → p ≠ le →
        (replay_writes out
          (protocol_bits (2 ^ clk) (2 ^ p1) (2 ^ p2) (2 ^ le) ch1 ch2 n)).testBit p
            = out.testBit p) := by
  induction n with
  | zero =>
    intro out
    refine ⟨fun h => absurd h (Nat.lt_irrefl 0), fun h => absurd h (Nat.lt_irrefl 0),
      fun h => absurd h (Nat.lt_irrefl 0), ?_, fun _ _ _ _ _ _ => rfl⟩
    show out.testBit le = (out.testBit le || decide (14 < 0))
    simp
  | succ n ih =>
    intro out
    obtain ⟨a1, a2, a3, a4, a5⟩ := protocol_bit_writes_replay clk p1 p2 le ch1 ch2 n hb hd out
    obtain ⟨i1, i2, i3, i4, i5⟩ := ih (replay_writes out
      (protocol_bit_writes (2 ^ clk) (2 ^ p1) (2 ^ p2) (2 ^ le) ch1 ch2 n))
    rw [protocol_bits_succ, replay_writes_append]
    refine ⟨fun _ => ?_, fun _ => ?_, fun _ => ?_, ?_, ?_⟩
    · rcases Nat.eq_zero_or_pos n with h0 | hp
      · subst h0; exact a1
      · exact i1 hp
    · rcases Nat.eq_zero_or_pos n with h0 | hp
      · subst h0; exact a2
      · exact i2 hp
    · rcases Nat.eq_zero_or_pos n with h0 | hp
      · subst h0; exact a3
      · exact i3 hp
    · rw [i4, a4, Bool.or_assoc]
      congr 1
      rw [← Bool.decide_or]
      exact decide_eq_decide.mpr (by omega)
    · intro p hp h1 h2 h3 h4
      rw [i5 p hp h1 h2 h3 h4, a5 p hp h1 h2 h3 h4]

/-- The levels of the latch-enable line at the clock-set writes of bit indices `n - 1` down to
0. -/
theorem protocol_bits_le_levels (clk p1 p2 le : Nat) (ch1 ch2 : Int)
    (hb : clk < 32 ∧ p1 < 32 ∧ p2 < 32 ∧ le < 32)
    (hd : clk ≠ p1 ∧ clk ≠ p2 ∧ clk ≠ le ∧ p1 ≠ p2 ∧ p1 ≠ le ∧ p2 ≠ le) (n : Nat) :
    ∀ (out : Nat) (rest : List reg_write),
      levels_at_clock_set clk le out
          (protocol_bits (2 ^ clk) (2 ^ p1) (2 ^ p2) (2 ^ le) ch1 ch2 n ++ rest) =
        (List.range n).map
            (fun k => (out.testBit le || decide (n - 1 - k ≤ 14 ∧ 14 < n))) ++
          levels_at_clock_set clk le
            (replay_writes out (protocol_bits (2 ^ clk) (2 ^ p1) (2 ^ p2) (2 ^ le) ch1 ch2 n))
            rest := by
  induction n with
  | zero => intro out rest; rfl
  | succ n ih =>
    intro out rest
    have a4 := (protocol_bit_writes_replay clk p1 p2 le ch1 ch2 n hb hd out).2.2.2.1
    rw [protocol_bits_succ, List.append_assoc, replay_writes_append,
      protocol_bit_writes_le_level clk p1 p2 le ch1 ch2 n hb hd, ih, a4,
      list_range_succ_map_rev n (fun i => (out.testBit le || decide (i ≤ 14 ∧ 14 < n + 1)))]
    rw [List.cons_append]
    congr 1
    · congr 1
      exact decide_eq_decide.mpr (by omega)
    · congr 1
      apply List.map_congr_left
      intro k _
      rw [Bool.or_assoc]
      congr 1
      rw [← Bool.decide_or]
      exact decide_eq_decide.mpr (by omega)

/-- Which lines the two groups of a bit index contain. -/
theorem protocol_groups_bits (p1 p2 le : Nat) (ch1 ch2 : Int) (i : Nat) :
    (∀ p, (protocol_set_group (2 ^ p1) (2 ^ p2) (2 ^ le) ch1 ch2 i).testBit p =
      ((decide (le = p) && decide (i = 14)) ||
        (decide (p1 = p) && (int16_pattern ch1).testBit i) ||
        (decide (p2 = p) && (int16_pattern ch2).testBit i))) ∧
    (∀ p, (protocol_reset_group (2 ^ p1) (2 ^ p2) ch1 ch2 i).testBit p =
      ((decide (p1 = p) && !(int16_pattern ch1).testBit i) ||
        (decide (p2 = p) && !(int16_pattern ch2).testBit i))) := by
  constructor
  · intro p
    simp only [protocol_set_group]
    generalize (int16_pattern ch1).testBit i = b1
    generalize (int16_pattern ch2).testBit i = b2
    cases b1 <;> cases b2 <;> by_cases h14 : i = 14 <;> simp [Nat.testBit_two_pow, h14]
  · intro p
    simp only [protocol_reset_group]
    generalize (int16_pattern ch1).testBit i = b1
    generalize (int16_pattern ch2).testBit i = b2
    cases b1 <;> cases b2 <;> simp [Nat.testBit_two_pow]

/-- The writes of bit index `n - 1 - k` sit at positions `4k .. 4k+3`. -/
theorem protocol_bits_getElem? (clk_mask ch1_mask ch2_mask le_mask : Nat) (ch1 ch2 : Int)
    (rest : List reg_write) (n : Nat) :
    ∀ k j : Nat, k < n → j < 4 →
      (protocol_bits clk_mask ch1_mask ch2_mask le_mask ch1 ch2 n ++ rest)[4 * k + j]? =
        (protocol_bit_writes clk_mask ch1_mask ch2_mask le_mask ch1 ch2 (n - 1 - k))[j]? := by
  induction n with
  | zero => intro k j hk _; exact absurd hk (Nat.not_lt_zero k)
  | succ n ih =>
    intro k j hk hj
    have hlen : (protocol_bit_writes clk_mask ch1_mask ch2_mask le_mask ch1 ch2 n).length = 4 :=
      rfl
    rw [protocol_bits_succ, List.append_assoc]
    rcases Nat.eq_zero_or_pos k with h0 | hp
    · subst h0
      rw [List.getElem?_append_left (by rw [hlen]; omega)]
      simp
    · obtain ⟨m, rfl⟩ : ∃ m, k = m + 1 := ⟨k - 1, by omega⟩
      rw [List.getElem?_append_right (by rw [hlen]; omega), hlen]
      have e1 : 4 * (m + 1) + j - 4 = 4 * m + j := by omega
      have e2 : n + 1 - 1 - (m + 1) = n - 1 - m := by omega
      rw [e1, e2]
      exact ih m j (by omega) hj

theorem protocol_bits_count_le_clear (clk p1 p2 le : Nat) (ch1 ch2 : Int)
    (hd : clk ≠ p1 ∧ clk ≠ p2 ∧ clk ≠ le ∧ p1 ≠ p2 ∧ p1 ≠ le ∧ p2 ≠ le) (n : Nat) :
    (protocol_bits (2 ^ clk) (2 ^ p1) (2 ^ p2) (2 ^ le) ch1 ch2 n).countP
      (fun w => decide (w.reg = .GPIO_OUT_W1TC_REG) && w.val.testBit le) = 0 := by
  obtain ⟨d1, d2, d3, d4, d5, d6⟩ := hd
  induction n with
  | zero => rfl
  | succ n ih =>
    rw [protocol_bits_succ, List.countP_append, ih]
    have hr := (protocol_groups_bits p1 p2 le ch1 ch2 n).2 le
    simp only [protocol_bit_writes, List.countP_cons, List.countP_nil, hr]
    simp [Nat.testBit_two_pow, d3, d5, d6]

theorem protocol_bits_count_clock_set (clk p1 p2 le : Nat) (ch1 ch2 : Int)
    (hd : clk ≠ p1 ∧ clk ≠ p2 ∧ clk ≠ le ∧ p1 ≠ p2 ∧ p1 ≠ le ∧ p2 ≠ le) (n : Nat) :
    (protocol_bits (2 ^ clk) (2 ^ p1) (2 ^ p2) (2 ^ le) ch1 ch2 n).countP
      (fun w => decide (w.reg = .GPIO_OUT_W1TS_REG) && w.val.testBit clk) = n := by
  obtain ⟨d1, d2, d3, d4, d5, d6⟩ := hd
  induction n with
  | zero => rfl
  | succ n ih =>
    rw [protocol_bits_succ, List.countP_append, ih]
    have hs := (protocol_groups_bits p1 p2 le ch1 ch2 n).1 clk
    simp only [protocol_bit_writes, List.countP_cons, List.countP_nil, hs]
    simp [Nat.testBit_two_pow, Ne.symm d1, Ne.symm d2, Ne.symm d3]
    omega

/-- The trace of a constructed driver object, whatever its two scratch members hold. -/
theorem dac_gpio.constructed_trace (config : stereo_player_config)
    (set_bitmask reset_bitmask : Nat) (ch1 ch2 : Int)
    (hb : config.clk_gpio < 32 ∧ config.ch1_data_gpio < 32 ∧ config.ch2_data_gpio < 32 ∧
      config.le_gpio < 32) :
    (dac_gpio.set_samples_and_enable
      { dac_gpio.ctor config with _set_bitmask := set_bitmask,
                                  _reset_bitmask := reset_bitmask } ch1 ch2).2 =
      protocol_trace (2 ^ config.clk_gpio) (2 ^ config.ch1_data_gpio)
        (2 ^ config.ch2_data_gpio) (2 ^ config.le_gpio) ch1 ch2 := by
  obtain ⟨m1, m2, m3, m4⟩ := dac_gpio.ctor_bitmasks config hb
  rw [dac_gpio.set_samples_trace]
  show protocol_trace (dac_gpio.ctor config)._clk_bitmask (dac_gpio.ctor config)._ch1_data_bitmask
    (dac_gpio.ctor config)._ch2_data_bitmask (dac_gpio.ctor config)._le_bitmask ch1 ch2 = _
  rw [m1, m2, m3, m4]

/-- Every write of the loop touches only the four pins. -/
theorem protocol_bits_frame (clk p1 p2 le : Nat) (ch1 ch2 : Int) (n : Nat) :
    ∀ w ∈ protocol_bits (2 ^ clk) (2 ^ p1) (2 ^ p2) (2 ^ le) ch1 ch2 n,
      ∀ p, w.val.testBit p = true → p = clk ∨ p = p1 ∨ p = p2 ∨ p = le := by
  induction n with
  | zero => intro w hw; cases hw
  | succ n ih =>
    intro w hw p hp
    rw [protocol_bits_succ, List.mem_append] at hw
    rcases hw with hw | hw
    · obtain ⟨hs, hr⟩ := protocol_groups_bits p1 p2 le ch1 ch2 n
      simp only [protocol_bit_writes, List.mem_cons, List.mem_singleton, List.mem_nil_iff,
        or_false] at hw
      rcases hw with rfl | rfl | rfl | rfl
      · have h := hr p
        simp only [hp] at h
        simp at h
        rcases h with h | h
        · exact Or.inr (Or.inl h.1.symm)
        · exact Or.inr (Or.inr (Or.inl h.1.symm))
      · have h := hs p
        simp only [hp] at h
        simp at h
        rcases h with (h | h) | h
        · exact Or.inr (Or.inr (Or.inr h.1.symm))
        · exact Or.inr (Or.inl h.1.symm)
        · exact Or.inr (Or.inr (Or.inl h.1.symm))
      · simp only [Nat.testBit_two_pow, decide_eq_true_eq] at hp
        exact Or.inl hp.symm
      · simp only [Nat.testBit_two_pow, decide_eq_true_eq] at hp
        exact Or.inl hp.symm
    · exact ih w hw p hp

end protocol_lemmas

section misc_lemmas

theorem get_next_album_track.scan_found (files : List String) (play_file : String) (j : Nat)
    (hj : files[j]? = some play_file)
    (hfirst : ∀ k, k < j → files[k]? ≠ some play_file) (remaining : Nat) :
    ∀ i, i ≤ j → j < i + remaining →
      get_next_album_track.scan files play_file remaining i = some j := by
  induction remaining with
  | zero => intro i h1 h2; omega
  | succ r ih =>
    intro i h1 h2
    unfold get_next_album_track.scan
    rcases Nat.eq_or_lt_of_le h1 with heq | hlt
    · subst heq
      rw [hj]
      simp
    · have hlen : i < files.length := by
        have : j < files.length := by
          rcases Nat.lt_or_ge j files.length with h | h
          · exact h
          · rw [List.getElem?_eq_none h] at hj
            exact Option.noConfusion hj
        omega
      rw [List.getElem?_eq_getElem hlen]
      have hne : files[i] ≠ play_file := by
        intro h
        apply hfirst i hlt
        rw [List.getElem?_eq_getElem hlen, h]
      simp only [hne, if_false]
      exact ih (i + 1) (by omega) (by omega)

end misc_lemmas

theorem get_next_album_track.scan_succ (files : List String) (play_file : String)
    (remaining i : Nat) :
    get_next_album_track.scan files play_file (remaining + 1) i =
      match files[i]? with
      | none => none
      | some f => if f = play_file then some i
        else get_next_album_track.scan files play_file remaining (i + 1) := rfl

section session_lemmas

theorem play_session.run_append (N : Nat) (sr : Int) (σ : play_session)
    (es fs : List session_event) :
    play_session.run N sr σ (es ++ fs) = play_session.run N sr (play_session.run N sr σ es) fs := by
  induction es generalizing σ with
  | nil => rfl
  | cons e es ih => exact ih _

/-- One timer tick while the loop runs: one `get` on the buffer and one driver call with the
sample it returns. -/
theorem play_session.tick_fields (N : Nat) (sr : Int) (σ : play_session)
    (h : σ.exited = false) :
    (σ.event N sr .tick).exited = false ∧
    (σ.event N sr .tick).feed = { σ.feed with player_buffer := σ.feed.player_buffer.get.2 } ∧
    (σ.event N sr .tick).samples =
      σ.samples ++
        [((σ.feed.player_buffer.get_swap._buffer σ.feed.player_buffer.get_swap._read_idx
            σ.feed.player_buffer.get_swap._read_pos).channel_0,
          (σ.feed.player_buffer.get_swap._buffer σ.feed.player_buffer.get_swap._read_idx
            σ.feed.player_buffer.get_swap._read_pos).channel_1)] := by
  simp only [play_session.event, h, Bool.false_eq_true, if_false, play_session.samples,
    stereo_player.play_data, stream_buffer.get, List.map_append, List.map_cons, List.map_nil]
  exact ⟨trivial, trivial, trivial⟩

theorem play_session.step_fields (N : Nat) (sr : Int) (σ : play_session)
    (h : σ.exited = false) :
    (σ.event N sr .step).exited = (play_track.iteration N sr σ.feed).2.1 ∧
    (σ.event N sr .step).feed = (play_track.iteration N sr σ.feed).1 ∧
    (σ.event N sr .step).dac_calls = σ.dac_calls := by
  simp only [play_session.event, h, Bool.false_eq_true, if_false]
  exact ⟨trivial, trivial, trivial⟩

theorem play_session.event_exited (N : Nat) (sr : Int) (σ : play_session)
    (h : σ.exited = true) (e : session_event) : σ.event N sr e = σ := by
  cases e <;> simp [play_session.event, h]

/-! The three kinds of iteration when no command is pending. -/

theorem play_track.iteration_decode (N : Nat) (sr : Int) (s : play_track_state)
    (hcmd : s.cmd = .idle) (hb : s.have_block = false) :
    play_track.iteration N sr s =
      ({ s with flac_decoder := s.flac_decoder.decode_audio, have_block := true }, false,
        [.decode_audio]) := by
  simp [play_track.iteration, hcmd, hb]

theorem play_track.iteration_wait (N : Nat) (sr : Int) (s : play_track_state)
    (hcmd : s.cmd = .idle) (hb : s.have_block = true)
    (hf : s.player_buffer._need_data = false) :
    play_track.iteration N sr s = (s, false, [.need_data, .taskYIELD]) := by
  have hnd : s.player_buffer.need_data = (false, s.player_buffer) := by
    simp [stream_buffer.need_data, hf]
  cases s with
  | mk c st v hbk d buf =>
    dsimp only at hcmd hb hnd
    subst hcmd hb
    simp [play_track.iteration, hnd]

theorem play_track.iteration_drain (N : Nat) (sr : Int) (s : play_track_state)
    (hcmd : s.cmd = .idle) (hb : s.have_block = true)
    (hf : s.player_buffer._need_data = true) :
    (play_track.iteration N sr s).1 =
      { s with
        player_buffer := stream_buffer.puts N s.player_buffer.need_data.2
          (play_track.block_samples (play_track.rshift sr s.volume) s.flac_decoder.block),
        have_block := false } ∧
    (play_track.iteration N sr s).2.1 = decide (s.flac_decoder.state = .complete) := by
  have hnd : s.player_buffer.need_data.1 = true := by
    simp [stream_buffer.need_data, hf]
  by_cases hc : s.flac_decoder.state = .complete
  · simp [play_track.iteration, hcmd, hb, hnd, hc]
  · simp [play_track.iteration, hcmd, hb, hnd, hc]

theorem play_session.samples_length (σ : play_session) :
    σ.samples.length = σ.dac_calls.length := by
  simp [play_session.samples]

/-- Before the first swap every driver call carries the zero pair, and an event keeps the
session in the regime before the first swap as long as at most `N` driver calls were made. -/
theorem play_session.before_swap_event (N : Nat) (hN : N ≤ 65535) (sr : Int)
    (b2 : List (Int × Int)) (σ : play_session) (e : session_event)
    (hz : ∀ p ∈ σ.samples.take N, p = ((0, 0) : Int × Int))
    (hreg : σ.dac_calls.length ≤ N → play_session.before_swap N b2 σ) :
    (∀ p ∈ (σ.event N sr e).samples.take N, p = ((0, 0) : Int × Int)) ∧
    ((σ.event N sr e).dac_calls.length ≤ N →
      play_session.before_swap N b2 (σ.event N sr e)) := by
  by_cases hex : σ.exited = true
  · rw [play_session.event_exited N sr σ hex e]
    exact ⟨hz, hreg⟩
  have hex' : σ.exited = false := by simpa using hex
  cases e with
  | tick =>
    obtain ⟨t1, t2, t3⟩ := play_session.tick_fields N sr σ hex'
    have hlen : (σ.event N sr .tick).dac_calls.length = σ.dac_calls.length + 1 := by
      rw [← play_session.samples_length, t3, List.length_append, play_session.samples_length]
      rfl
    by_cases hlt : σ.dac_calls.length < N
    · obtain ⟨_, r2, r3, r4, r5, r6, r7, r8⟩ := hreg (Nat.le_of_lt hlt)
      have hpl : σ.feed.player_buffer._read_pos <
          σ.feed.player_buffer._limit σ.feed.player_buffer._read_idx := by
        rw [r3, r5, r6]; exact hlt
      have hgs : σ.feed.player_buffer.get_swap = σ.feed.player_buffer := by
        simp only [stream_buffer.get_swap, ge_iff_le, Nat.not_le.mpr hpl, if_false]
      have hg := stream_buffer.get_of_lt σ.feed.player_buffer hpl
      have hmod : (σ.feed.player_buffer._read_pos + 1) % 65536 =
          σ.dac_calls.length + 1 := by
        rw [r5]; omega
      rw [hmod] at hg
      constructor
      · intro p hp
        rw [t3, hgs, r3, r5, r7 _ hlt] at hp
        have hp2 := List.mem_of_mem_take hp
        rcases List.mem_append.mp hp2 with h | h
        · apply hz p
          rw [List.take_of_length_le (by rw [play_session.samples_length]; omega)]
          exact h
        · rw [List.mem_singleton] at h
          exact h
      · intro _
        rw [play_session.before_swap, t1, t2, hlen, hg]
        exact ⟨rfl, r2, r3, r4, rfl, r6, r7, r8⟩
    · constructor
      · rw [t3, List.take_append_of_le_length
          (by rw [play_session.samples_length]; omega)]
        exact hz
      · intro h
        omega
  | step =>
    obtain ⟨s1, s2, s3⟩ := play_session.step_fields N sr σ hex'
    constructor
    · have : (σ.event N sr .step).samples = σ.samples := by
        simp only [play_session.samples, s3]
      rw [this]
      exact hz
    · intro h
      rw [s3] at h
      obtain ⟨_, r2, r3, r4, r5, r6, r7, r8⟩ := hreg h
      rw [play_session.before_swap, s1, s2, s3]
      rcases r8 with ⟨p1, ⟨b1, p2⟩, p3⟩ | ⟨p1, p2, p3, p4⟩ | ⟨p1, p2, p3⟩ | ⟨p1, p2, p3⟩
      · rw [play_track.iteration_decode N sr σ.feed r2 p1]
        refine ⟨rfl, r2, r3, r4, r5, r6, r7, Or.inr (Or.inl ⟨rfl, ?_, ?_, p3⟩)⟩
        · simp [flac_decoder.decode_audio, p2]
        · simp [flac_decoder.decode_audio, p2]
      · obtain ⟨q1, q2⟩ := play_track.iteration_drain N sr σ.feed r2 p1 p4
        have hnd := stream_buffer.need_data_of_flag σ.feed.player_buffer p4
        have hw : σ.feed.player_buffer.need_data.2._write_idx = 1 := by
          rw [stream_buffer.need_data_write_idx, r4]
        have hl : σ.feed.player_buffer.need_data.2._limit 1 = 0 := by
          rw [hnd, r4]
          simp
        obtain ⟨f1, f2, f3, f4, f5, _, f7⟩ := stream_buffer.puts_fields N hN
          (play_track.block_samples (play_track.rshift sr σ.feed.volume)
            σ.feed.flac_decoder.block)
          σ.feed.player_buffer.need_data.2 (by rw [hw, hl]; exact Nat.zero_le _)
        rw [q1, q2, p3]
        refine ⟨by simp, r2, ?_, ?_, ?_, ?_, ?_, Or.inr (Or.inr (Or.inl ⟨rfl, p2, ?_⟩))⟩
        · show (stream_buffer.puts N _ _)._read_idx = 0
          rw [f1, stream_buffer.need_data_read_idx, r3]
        · show (stream_buffer.puts N _ _)._write_idx = 1
          rw [f3, hw]
        · show (stream_buffer.puts N _ _)._read_pos = _
          rw [f2, stream_buffer.need_data_read_pos, r5]
        · show (stream_buffer.puts N _ _)._limit 0 = N
          rw [f5 0 (by rw [hw]; decide),
            stream_buffer.need_data_limit_other _ 0 (by rw [r4]; decide), r6]
        · intro j hj
          show (stream_buffer.puts N _ _)._buffer 0 j = 0
          rw [f7, hw, if_neg (by omega), stream_buffer.need_data_buffer]
          exact r7 j hj
        · show (stream_buffer.puts N _ _)._need_data = false
          rw [f4, hnd]
      · rw [play_track.iteration_decode N sr σ.feed r2 p1]
        refine ⟨rfl, r2, r3, r4, r5, r6, r7, Or.inr (Or.inr (Or.inr ⟨rfl, ?_, p3⟩))⟩
        simp [flac_decoder.decode_audio, p2]
      · rw [play_track.iteration_wait N sr σ.feed r2 p1 p3]
        exact ⟨rfl, r2, r3, r4, r5, r6, r7, Or.inr (Or.inr (Or.inr ⟨p1, p2, p3⟩))⟩

/-- Along every schedule: the first `N` driver calls carry the zero pair, and the loop has
not exited while at most `N` driver calls were made. -/
theorem play_session.before_swap_run (N : Nat) (hN : N ≤ 65535) (sr : Int)
    (b2 : List (Int × Int)) (es : List session_event) :
    ∀ σ : play_session,
      (∀ p ∈ σ.samples.take N, p = ((0, 0) : Int × Int)) →
      (σ.dac_calls.length ≤ N → play_session.before_swap N b2 σ) →
      (∀ p ∈ (play_session.run N sr σ es).samples.take N, p = ((0, 0) : Int × Int)) ∧
      ((play_session.run N sr σ es).dac_calls.length ≤ N →
        play_session.before_swap N b2 (play_session.run N sr σ es)) := by
  induction es with
  | nil => intro σ hz hreg; exact ⟨hz, hreg⟩
  | cons e es ih =>
    intro σ hz hreg
    obtain ⟨h1, h2⟩ := play_session.before_swap_event N hN sr b2 σ e hz hreg
    exact ih _ h1 h2

theorem play_session.start_before_swap (N : Nat) (hN : N ≤ 65535) (b1 b2 : List (Int × Int))
    (blk : List (Int × Int)) (st : decoder_state) (state : state_type) (volume : Int)
    (buffer : stream_buffer stereo_sample_type) :
    play_session.before_swap N b2
      (play_session.start N ⟨[b1, b2], blk, st⟩ .idle state volume buffer) := by
  have hmod : N % 65536 = N := Nat.mod_eq_of_lt (by omega)
  refine ⟨rfl, rfl, rfl, rfl, rfl, ?_, ?_, Or.inl ⟨rfl, ⟨b1, rfl⟩, rfl⟩⟩
  · simp [play_session.start, stream_buffer.reset, hmod]
  · intro j hj
    simp [play_session.start, stream_buffer.reset, stream_buffer._max_count, hj]

/-- A run of timer ticks while the loop runs is a run of `get` calls, each followed by one
driver call. -/
theorem play_session.run_ticks (N : Nat) (sr : Int) (m : Nat) :
    ∀ σ : play_session, σ.exited = false →
      (play_session.run N sr σ (List.replicate m .tick)).exited = false ∧
      (play_session.run N sr σ (List.replicate m .tick)).feed =
        { σ.feed with player_buffer := (stream_buffer.gets σ.feed.player_buffer m).2 } ∧
      (play_session.run N sr σ (List.replicate m .tick)).samples =
        σ.samples ++
          ((stream_buffer.gets σ.feed.player_buffer m).1.filterMap id).map
            (fun v => (v.channel_0, v.channel_1)) := by
  induction m with
  | zero =>
    intro σ h
    refine ⟨h, rfl, ?_⟩
    simp [play_session.run, stream_buffer.gets]
  | succ m ih =>
    intro σ h
    obtain ⟨t1, t2, t3⟩ := play_session.tick_fields N sr σ h
    obtain ⟨i1, i2, i3⟩ := ih (σ.event N sr .tick) t1
    rw [List.replicate_succ]
    show (play_session.run N sr (σ.event N sr .tick) (List.replicate m .tick)).exited = false ∧
      (play_session.run N sr (σ.event N sr .tick) (List.replicate m .tick)).feed = _ ∧
      (play_session.run N sr (σ.event N sr .tick) (List.replicate m .tick)).samples = _
    rw [i1, i2, i3, t2, t3, stream_buffer.gets_succ]
    refine ⟨rfl, rfl, ?_⟩
    simp [stream_buffer.get, List.append_assoc]

theorem play_track.block_samples_synthetic :
    play_track.block_samples (play_track.rshift (play_track.sample_rshift 16) 0)
        synthetic_block =
      [⟨100, -100⟩, ⟨200, -200⟩, ⟨300, -300⟩, ⟨400, -400⟩] := by
  decide

/-- The schedule with `N + 4` timer ticks between the third and the fourth loop iteration. -/
theorem play_session.synthetic_schedule (N : Nat) (h4 : 4 ≤ N) (hN : N ≤ 65535)
    (state : state_type) (buffer : stream_buffer stereo_sample_type) :
    (play_session.run N (play_track.sample_rshift 16)
      (play_session.start N synthetic_decoder .idle state 0 buffer)
      ([.step, .step, .step] ++ (List.replicate N .tick ++ (List.replicate 4 .tick ++
        [.step])))).exited = true ∧
    (play_session.run N (play_track.sample_rshift 16)
      (play_session.start N synthetic_decoder .idle state 0 buffer)
      ([.step, .step, .step] ++ (List.replicate N .tick ++ (List.replicate 4 .tick ++
        [.step])))).samples = List.replicate N (0, 0) ++ synthetic_block := by
  have hmod : N % 65536 = N := Nat.mod_eq_of_lt (by omega)
  -- the session after the three iterations
  obtain ⟨σ3, hσ3⟩ : ∃ σ3, σ3 = play_session.run N (play_track.sample_rshift 16)
      (play_session.start N synthetic_decoder .idle state 0 buffer) [.step, .step, .step] :=
    ⟨_, rfl⟩
  have hflag0 : (buffer.reset N)._need_data = true := rfl
  have hnd := stream_buffer.need_data_of_flag (buffer.reset N) hflag0
  have e3 : σ3.exited = false ∧ σ3.samples = [] ∧ σ3.feed.cmd = .idle ∧
      σ3.feed.have_block = true ∧ σ3.feed.volume = 0 ∧
      σ3.feed.flac_decoder = ⟨[], synthetic_block, .complete⟩ ∧
      σ3.feed.player_buffer = stream_buffer.puts N (buffer.reset N).need_data.2
        [⟨100, -100⟩, ⟨200, -200⟩, ⟨300, -300⟩, ⟨400, -400⟩] := by
    rw [hσ3]
    simp only [play_session.run, play_session.event, play_session.start, Bool.false_eq_true,
      if_false]
    rw [play_track.iteration_decode N _ _ rfl rfl]
    dsimp only
    have hb : ∀ s : play_track_state, s.cmd = .idle → s.have_block = true →
        s.player_buffer._need_data = true → s.flac_decoder.state = .more_blocks →
        play_track.iteration N (play_track.sample_rshift 16) s =
          ({ s with
              player_buffer := stream_buffer.puts N s.player_buffer.need_data.2
                (play_track.block_samples
                  (play_track.rshift (play_track.sample_rshift 16) s.volume)
                  s.flac_decoder.block),
              have_block := false }, false,
            (play_track.iteration N (play_track.sample_rshift 16) s).2.2) := by
      intro s c1 c2 c3 c4
      obtain ⟨q1, q2⟩ := play_track.iteration_drain N (play_track.sample_rshift 16) s c1 c2 c3
      rw [c4] at q2
      rw [← q1]
      have q3 : (play_track.iteration N (play_track.sample_rshift 16) s).2.1 = false := by
        rw [q2]; rfl
      rw [← q3]
    rw [hb _ rfl rfl rfl rfl]
    dsimp only
    rw [play_track.iteration_decode N _ _ rfl rfl]
    dsimp only
    refine ⟨rfl, rfl, rfl, rfl, rfl, rfl, ?_⟩
    show stream_buffer.puts N (buffer.reset N).need_data.2
      (play_track.block_samples (play_track.rshift (play_track.sample_rshift 16) 0)
        synthetic_block) = _
    rw [play_track.block_samples_synthetic]
  obtain ⟨x1, x2, x3, x4, x5, x6, x7⟩ := e3
  -- the buffer after the three iterations
  have hw : (buffer.reset N).need_data.2._write_idx = 1 := by
    rw [stream_buffer.need_data_write_idx]; rfl
  have hl1 : (buffer.reset N).need_data.2._limit 1 = 0 := by
    rw [hnd]; simp [stream_buffer.reset]
  obtain ⟨f1, f2, f3, f4, f5, f6, f7⟩ := stream_buffer.puts_fields N hN
    ([⟨100, -100⟩, ⟨200, -200⟩, ⟨300, -300⟩, ⟨400, -400⟩] : List stereo_sample_type)
    (buffer.reset N).need_data.2 (by rw [hw, hl1]; exact Nat.zero_le _)
  rw [← x7] at f1 f2 f3 f4 f5 f6 f7
  rw [hw] at f3 f5 f6 f7
  rw [hl1] at f6 f7
  have b_r : σ3.feed.player_buffer._read_idx = 0 := by
    rw [f1, stream_buffer.need_data_read_idx]; rfl
  have b_p : σ3.feed.player_buffer._read_pos = 0 := by
    rw [f2, stream_buffer.need_data_read_pos]; rfl
  have b_l0 : σ3.feed.player_buffer._limit 0 = N := by
    rw [f5 0 (by decide), stream_buffer.need_data_limit_other (buffer.reset N) 0
      (show 0 ≠ (buffer.reset N)._write_idx by simp [stream_buffer.reset])]
    simp [stream_buffer.reset, hmod]
  have b_l1 : σ3.feed.player_buffer._limit 1 = 4 := by
    rw [f6]
    show min (0 + 4) N = 4
    omega
  have b_b0 : ∀ j, j < N → σ3.feed.player_buffer._buffer 0 j = 0 := by
    intro j hj
    rw [f7, if_neg (by omega), stream_buffer.need_data_buffer]
    simp [stream_buffer.reset, stream_buffer._max_count, hj]
  have b_b1 : ∀ j (hj : j < 4), σ3.feed.player_buffer._buffer 1 j =
      ([⟨100, -100⟩, ⟨200, -200⟩, ⟨300, -300⟩, ⟨400, -400⟩] :
        List stereo_sample_type).get ⟨j, hj⟩ := by
    intro j hj
    rw [f7, if_pos ⟨rfl, Nat.zero_le _, by omega⟩, Nat.sub_zero]
    interval_cases j <;> rfl
  -- the N ticks that drain slot 0
  obtain ⟨σ4, hσ4⟩ : ∃ σ4, σ4 = play_session.run N (play_track.sample_rshift 16) σ3
      (List.replicate N .tick) := ⟨_, rfl⟩
  obtain ⟨u1, u2, u3⟩ := play_session.run_ticks N (play_track.sample_rshift 16) N σ3 x1
  rw [← hσ4] at u1 u2 u3
  have hg := stream_buffer.gets_no_swap N σ3.feed.player_buffer
    (by rw [b_r, b_p, b_l0]; omega) (by rw [b_r, b_l0]; omega)
  rw [hg] at u2 u3
  dsimp only at u2 u3
  have hz : (List.range N).map (fun i => some (σ3.feed.player_buffer._buffer
      σ3.feed.player_buffer._read_idx (σ3.feed.player_buffer._read_pos + i))) =
      List.replicate N (some (0 : stereo_sample_type)) := by
    apply stream_buffer.map_range_eq_replicate
    intro i hi
    rw [b_r, b_p, Nat.zero_add, b_b0 i hi]
  rw [hz, x2] at u3
  -- the 4 ticks that swap and drain slot 1
  obtain ⟨σ5, hσ5⟩ : ∃ σ5, σ5 = play_session.run N (play_track.sample_rshift 16) σ4
      (List.replicate 4 .tick) := ⟨_, rfl⟩
  obtain ⟨v1, v2, v3⟩ := play_session.run_ticks N (play_track.sample_rshift 16) 4 σ4 u1
  rw [← hσ5] at v1 v2 v3
  have hsw := stream_buffer.gets_swap 4 (by decide) σ4.feed.player_buffer
    (by rw [u2]; show σ3.feed.player_buffer._limit σ3.feed.player_buffer._read_idx ≤
          σ3.feed.player_buffer._read_pos + N
        rw [b_r, b_l0]; omega)
    (by rw [u2]; show 4 ≤ σ3.feed.player_buffer._limit
          ((σ3.feed.player_buffer._read_idx + 1) % 2)
        rw [b_r, b_l1])
    (by rw [u2]; show σ3.feed.player_buffer._limit
          ((σ3.feed.player_buffer._read_idx + 1) % 2) ≤ 65535
        rw [b_r, b_l1]; decide)
  rw [hsw] at v2 v3
  dsimp only at v2 v3
  have hvals : (List.range 4).map (fun i => some (σ4.feed.player_buffer._buffer
      ((σ4.feed.player_buffer._read_idx + 1) % 2) i)) =
      [some ⟨100, -100⟩, some ⟨200, -200⟩, some ⟨300, -300⟩, some ⟨400, -400⟩] := by
    rw [u2]
    show (List.range 4).map (fun i => some (σ3.feed.player_buffer._buffer
      ((σ3.feed.player_buffer._read_idx + 1) % 2) i)) = _
    rw [b_r]
    show [some (σ3.feed.player_buffer._buffer 1 0), some (σ3.feed.player_buffer._buffer 1 1),
      some (σ3.feed.player_buffer._buffer 1 2), some (σ3.feed.player_buffer._buffer 1 3)] = _
    rw [b_b1 0 (by decide), b_b1 1 (by decide), b_b1 2 (by decide), b_b1 3 (by decide)]
    rfl
  rw [hvals, u3] at v3
  -- the exiting iteration
  obtain ⟨w1, _, w3⟩ := play_session.step_fields N (play_track.sample_rshift 16) σ5 v1
  have hcmd5 : σ5.feed.cmd = .idle := by rw [v2, u2]; exact x3
  have hhb5 : σ5.feed.have_block = true := by rw [v2, u2]; exact x4
  have hflag5 : σ5.feed.player_buffer._need_data = true := by rw [v2]
  have hst5 : σ5.feed.flac_decoder.state = .complete := by rw [v2, u2, x6]
  obtain ⟨_, q2⟩ := play_track.iteration_drain N (play_track.sample_rshift 16) σ5.feed hcmd5
    hhb5 hflag5
  rw [hst5] at q2
  rw [play_session.run_append, ← hσ3, play_session.run_append, ← hσ4, play_session.run_append,
    ← hσ5]
  show (σ5.event N (play_track.sample_rshift 16) .step).exited = true ∧
    (σ5.event N (play_track.sample_rshift 16) .step).samples = _
  constructor
  · rw [w1, q2]
    rfl
  · have hs : (σ5.event N (play_track.sample_rshift 16) .step).samples = σ5.samples := by
      simp only [play_session.samples, w3]
    rw [hs, v3]
    simp [synthetic_block, List.filterMap_replicate]
    exact Or.inr ⟨rfl, rfl⟩

end session_lemmas

section volume_lemmas

theorem to_player_sample_eq (y : Int) :
    to_player_sample y = (y + 32768) % 65536 - 32768 := by
  unfold to_player_sample int16_of_pattern int16_pattern
  split <;> omega

theorem to_player_sample_to_int (y : Int) :
    to_player_sample (to_int y) = to_player_sample y := by
  rw [to_player_sample_eq, to_player_sample_eq]
  unfold to_int
  omega

theorem play_track.channel_value_spec (r x : Int) :
    play_track.channel_value r x = volume_shift_spec r x := by
  unfold play_track.channel_value volume_shift_spec
  by_cases h0 : r = 0
  · simp only [h0, if_true]
    exact to_player_sample_eq x
  · by_cases h1 : r > 0
    · have h2 : r ≥ 0 := by omega
      simp only [h0, h1, h2, if_true, if_false]
      rw [to_player_sample_eq, Int.shiftRight_eq_div_pow, Int.fdiv_eq_ediv]
      · norm_cast
      · positivity
    · have h2 : ¬ r ≥ 0 := by omega
      simp only [h0, h1, h2, if_false]
      rw [to_player_sample_to_int, to_player_sample_eq]

theorem play_track.iteration_drain_calls (N : Nat) (sr : Int) (s : play_track_state)
    (hcmd : s.cmd = .idle) (hb : s.have_block = true)
    (hf : s.player_buffer._need_data = true) :
    (play_track.iteration N sr s).2.2 =
      .need_data ::
        ((play_track.block_samples (play_track.rshift sr s.volume) s.flac_decoder.block).map
          .put ++ (if s.flac_decoder.state = .complete then [] else [.taskYIELD])) := by
  have hnd : s.player_buffer.need_data.1 = true := by
    simp [stream_buffer.need_data, hf]
  by_cases hc : s.flac_decoder.state = .complete
  · simp [play_track.iteration, hcmd, hb, hnd, hc]
  · simp [play_track.iteration, hcmd, hb, hnd, hc]

end volume_lemmas

section double_lemmas

theorem round_nearest_even_bounds (n d : Nat) (hd : 0 < d) :
    2 * (d * round_nearest_even n d) ≤ 2 * n + d ∧
    2 * n ≤ 2 * (d * round_nearest_even n d) + d := by
  have h1 := Nat.div_add_mod n d
  have h2 := Nat.mod_lt n hd
  unfold round_nearest_even
  generalize hq : n / d = q at h1 ⊢
  generalize hr : n % d = r at h1 h2 ⊢
  split_ifs <;> (try simp only [Nat.mul_add, Nat.mul_one]) <;> constructor <;> omega

theorem double.normalize_spec (fuel : Nat) :
    ∀ (n d : Nat) (e : Int) (r : Nat × Nat × Int), 0 < d →
      double.normalize fuel n d e = some r →
      0 < r.2.1 ∧ 2 ^ 52 * r.2.1 ≤ r.1 ∧ r.1 < 2 ^ 53 * r.2.1 ∧
      (r.1 : ℚ) / r.2.1 * 2 ^ r.2.2 = (n : ℚ) / d * 2 ^ e := by
  induction fuel with
  | zero => intro n d e r _ h; simp [double.normalize] at h
  | succ fuel ih =>
    intro n d e r hd h
    unfold double.normalize at h
    split_ifs at h with h1 h2
    · obtain ⟨a, b, c, v⟩ := ih _ _ _ r hd h
      refine ⟨a, b, c, ?_⟩
      rw [v, zpow_sub_one₀ (by norm_num : (2 : ℚ) ≠ 0)]
      push_cast
      field_simp
      ring
    · obtain ⟨a, b, c, v⟩ := ih _ _ _ r (by omega) h
      refine ⟨a, b, c, ?_⟩
      rw [v, zpow_add_one₀ (by norm_num : (2 : ℚ) ≠ 0)]
      push_cast
      field_simp
      ring
    · cases h
      exact ⟨hd, Nat.le_of_not_lt h1, Nat.lt_of_not_le h2, rfl⟩

theorem double.normalize_some (fuel : Nat) :
    ∀ (n d : Nat) (e : Int), 0 < n → 0 < d → 2 ^ 52 * d ≤ n * 2 ^ fuel →
      n < 2 ^ 53 * d * 2 ^ fuel →
      ∃ r, double.normalize (fuel + 1) n d e = some r := by
  induction fuel with
  | zero =>
    intro n d e hn hd h1 h2
    simp only [pow_zero, Nat.mul_one] at h1 h2
    unfold double.normalize
    rw [if_neg (by omega), if_neg (by omega)]
    exact ⟨_, rfl⟩
  | succ fuel ih =>
    intro n d e hn hd h1 h2
    unfold double.normalize
    split_ifs with h3 h4
    · apply ih _ _ _ (by omega) hd
      · rw [pow_succ] at h1
        calc 2 ^ 52 * d ≤ n * (2 ^ fuel * 2) := h1
          _ = 2 * n * 2 ^ fuel := by ring
      · have hp : 0 < 2 ^ fuel := by positivity
        calc 2 * n < 2 * (2 ^ 52 * d) := by omega
          _ = 2 ^ 53 * d := by ring
          _ ≤ 2 ^ 53 * d * 2 ^ fuel := Nat.le_mul_of_pos_right _ hp
    · apply ih _ _ _ hn (by omega)
      · have hp : 0 < 2 ^ fuel := by positivity
        calc 2 ^ 52 * (2 * d) = 2 ^ 53 * d := by ring
          _ ≤ n := h4
          _ ≤ n * 2 ^ fuel := Nat.le_mul_of_pos_right _ hp
      · rw [pow_succ] at h2
        calc n < 2 ^ 53 * d * (2 ^ fuel * 2) := h2
          _ = 2 ^ 53 * (2 * d) * 2 ^ fuel := by ring
    · exact ⟨_, rfl⟩

theorem nat_le_of_zpow_le (n d k : Nat) (hd : 0 < d)
    (h : (2 : ℚ) ^ (-(k : ℤ)) ≤ (n : ℚ) / d) : d ≤ n * 2 ^ k := by
  have hdq : (0 : ℚ) < d := by exact_mod_cast hd
  have hp : (0 : ℚ) < 2 ^ k := pow_pos (by norm_num) _
  rw [zpow_neg, zpow_natCast, le_div_iff₀ hdq] at h
  have h1 : (d : ℚ) ≤ (n : ℚ) * 2 ^ k := by
    calc (d : ℚ) = ((2 : ℚ) ^ k)⁻¹ * d * 2 ^ k := by field_simp
      _ ≤ n * 2 ^ k := mul_le_mul_of_nonneg_right h hp.le
  exact_mod_cast h1

theorem nat_lt_of_lt_zpow (n d k : Nat) (hd : 0 < d)
    (h : (n : ℚ) / d < (2 : ℚ) ^ (k : ℤ)) : n < 2 ^ k * d := by
  have hdq : (0 : ℚ) < d := by exact_mod_cast hd
  rw [div_lt_iff₀ hdq, zpow_natCast] at h
  exact_mod_cast h

theorem double.fuel_lower (n d k f : Nat) (hk : 52 + k ≤ f) (h : d ≤ n * 2 ^ k) :
    2 ^ 52 * d ≤ n * 2 ^ f := by
  calc 2 ^ 52 * d ≤ 2 ^ 52 * (n * 2 ^ k) := Nat.mul_le_mul_left _ h
    _ = n * (2 ^ 52 * 2 ^ k) := by ring
    _ = n * 2 ^ (52 + k) := by rw [pow_add]
    _ ≤ n * 2 ^ f := Nat.mul_le_mul_left _ (Nat.pow_le_pow_right (by decide) hk)

theorem double.fuel_upper (n d k f : Nat) (hk : k ≤ 53 + f) (h : n < 2 ^ k * d) :
    n < 2 ^ 53 * d * 2 ^ f := by
  calc n < 2 ^ k * d := h
    _ ≤ 2 ^ (53 + f) * d := Nat.mul_le_mul_right _ (Nat.pow_le_pow_right (by decide) hk)
    _ = 2 ^ 53 * d * 2 ^ f := by rw [pow_add]; ring

theorem double.round_spec (n d : Nat) (A B : Int) (hn : 0 < n) (hd : 0 < d)
    (hA : (2 : ℚ) ^ A ≤ (n : ℚ) / d) (hB : (n : ℚ) / d < 2 ^ B)
    (hAr : -1022 ≤ A) (hBr : B ≤ 1023) :
    ∃ r, double.round n d = some r ∧ 2 ^ 52 ≤ r.mant ∧ r.mant < 2 ^ 53 ∧
      A - 52 ≤ r.exp ∧ r.exp ≤ B - 52 ∧
      (n : ℚ) / d * (1 - 1 / 2 ^ 53) ≤ r.value ∧
      r.value ≤ (n : ℚ) / d * (1 + 1 / 2 ^ 53) := by
  have hdq : (0 : ℚ) < d := by exact_mod_cast hd
  have h2 : (1 : ℚ) < 2 := by norm_num
  have h2le : (1 : ℚ) ≤ 2 := by norm_num
  -- enough fuel
  have hlo : d ≤ n * 2 ^ 1022 :=
    nat_le_of_zpow_le n d 1022 hd (le_trans (zpow_le_zpow_right₀ h2le hAr) hA)
  have hhi : n < 2 ^ 1023 * d :=
    nat_lt_of_lt_zpow n d 1023 hd (lt_of_lt_of_le hB (zpow_le_zpow_right₀ h2le hBr))
  obtain ⟨r0, hr0⟩ := double.normalize_some 2199 n d 0 hn hd
    (double.fuel_lower n d 1022 2199 (by decide) hlo)
    (double.fuel_upper n d 1023 2199 (by decide) hhi)
  obtain ⟨n1, d1, e⟩ := r0
  obtain ⟨hd1, hl, hu, hv⟩ := double.normalize_spec 2200 n d 0 _ hd hr0
  dsimp only at hd1 hl hu hv
  simp only [zpow_zero, mul_one] at hv
  have hd1q : (0 : ℚ) < d1 := by exact_mod_cast hd1
  have hpe : (0 : ℚ) < 2 ^ e := by positivity
  -- the scaled quotient lies in [2^52, 2^53)
  have hq1 : (2 : ℚ) ^ 52 ≤ (n1 : ℚ) / d1 := by
    rw [le_div_iff₀ hd1q]
    exact_mod_cast hl
  have hq2 : (n1 : ℚ) / d1 < 2 ^ 53 := by
    rw [div_lt_iff₀ hd1q]
    exact_mod_cast hu
  -- the exponent
  have heA : A - 52 ≤ e := by
    have h : (2 : ℚ) ^ A < 2 ^ (53 + e) := by
      calc (2 : ℚ) ^ A ≤ (n : ℚ) / d := hA
        _ = (n1 : ℚ) / d1 * 2 ^ e := hv.symm
        _ < 2 ^ 53 * 2 ^ e := mul_lt_mul_of_pos_right hq2 hpe
        _ = 2 ^ (53 + e) := by
          rw [zpow_add₀ (by norm_num : (2 : ℚ) ≠ 0), zpow_ofNat]
    have := (zpow_lt_zpow_iff_right₀ h2).1 h
    omega
  have heB : e ≤ B - 53 := by
    have h : (2 : ℚ) ^ (52 + e) < 2 ^ B := by
      calc (2 : ℚ) ^ (52 + e) = 2 ^ 52 * 2 ^ e := by
            rw [zpow_add₀ (by norm_num : (2 : ℚ) ≠ 0), zpow_ofNat]
        _ ≤ (n1 : ℚ) / d1 * 2 ^ e := mul_le_mul_of_nonneg_right hq1 hpe.le
        _ = (n : ℚ) / d := hv
        _ < 2 ^ B := hB
    have := (zpow_lt_zpow_iff_right₀ h2).1 h
    omega
  -- the rounded significand
  obtain ⟨hm1, hm2⟩ := round_nearest_even_bounds n1 d1 hd1
  generalize hm : round_nearest_even n1 d1 = m at hm1 hm2
  have hmhi : m ≤ 2 ^ 53 := by
    have h : d1 * (2 * m) < d1 * (2 ^ 54 + 1) := by
      calc d1 * (2 * m) = 2 * (d1 * m) := by ring
        _ ≤ 2 * n1 + d1 := hm1
        _ < 2 * (2 ^ 53 * d1) + d1 := by omega
        _ = d1 * (2 ^ 54 + 1) := by ring
    have := Nat.lt_of_mul_lt_mul_left h
    omega
  have hmlo : 2 ^ 52 ≤ m := by
    have h : d1 * 2 ^ 53 < d1 * (2 * m + 2) := by
      calc d1 * 2 ^ 53 = 2 * (2 ^ 52 * d1) := by ring
        _ ≤ 2 * n1 := by omega
        _ ≤ 2 * (d1 * m) + d1 := hm2
        _ < d1 * (2 * m + 2) := by
          have : 2 * (d1 * m) + d1 + d1 = d1 * (2 * m + 2) := by ring
          omega
    have := Nat.lt_of_mul_lt_mul_left h
    omega
  have hmq1 : (n1 : ℚ) / d1 * (1 - 1 / 2 ^ 53) ≤ m := by
    have h : (2 : ℚ) * n1 ≤ 2 * (d1 * m) + d1 := by exact_mod_cast hm2
    have h3 : (n1 : ℚ) / d1 ≤ m + 1 / 2 := by
      rw [div_le_iff₀ hd1q]
      linarith
    have h4 : (n1 : ℚ) / d1 * (1 / 2 ^ 53) ≥ 1 / 2 := by
      have : (2 : ℚ) ^ 52 * (1 / 2 ^ 53) = 1 / 2 := by norm_num
      rw [← this]
      exact mul_le_mul_of_nonneg_right hq1 (by positivity)
    linarith
  have hmq2 : (m : ℚ) ≤ (n1 : ℚ) / d1 * (1 + 1 / 2 ^ 53) := by
    have h : (2 : ℚ) * (d1 * m) ≤ 2 * n1 + d1 := by exact_mod_cast hm1
    have h3 : (m : ℚ) - 1 / 2 ≤ (n1 : ℚ) / d1 := by
      rw [le_div_iff₀ hd1q]
      linarith
    have h4 : (n1 : ℚ) / d1 * (1 / 2 ^ 53) ≥ 1 / 2 := by
      have : (2 : ℚ) ^ 52 * (1 / 2 ^ 53) = 1 / 2 := by norm_num
      rw [← this]
      exact mul_le_mul_of_nonneg_right hq1 (by positivity)
    linarith
  have hval1 : (n : ℚ) / d * (1 - 1 / 2 ^ 53) ≤ (m : ℚ) * 2 ^ e := by
    rw [← hv]
    calc (n1 : ℚ) / d1 * 2 ^ e * (1 - 1 / 2 ^ 53)
        = (n1 : ℚ) / d1 * (1 - 1 / 2 ^ 53) * 2 ^ e := by ring
      _ ≤ (m : ℚ) * 2 ^ e := mul_le_mul_of_nonneg_right hmq1 hpe.le
  have hval2 : (m : ℚ) * 2 ^ e ≤ (n : ℚ) / d * (1 + 1 / 2 ^ 53) := by
    rw [← hv]
    calc (m : ℚ) * 2 ^ e ≤ (n1 : ℚ) / d1 * (1 + 1 / 2 ^ 53) * 2 ^ e :=
          mul_le_mul_of_nonneg_right hmq2 hpe.le
      _ = (n1 : ℚ) / d1 * 2 ^ e * (1 + 1 / 2 ^ 53) := by ring
  unfold double.round
  rw [hr0]
  simp only [hm]
  by_cases htop : m = 2 ^ 53
  · simp only [htop, if_true]
    rw [if_pos ⟨by omega, by omega⟩]
    refine ⟨_, rfl, le_refl _, by norm_num, by show A - 52 ≤ e + 1; omega,
      by show e + 1 ≤ B - 52; omega, ?_, ?_⟩
    · have hvv : double.value ⟨2 ^ 52, e + 1⟩ = (m : ℚ) * 2 ^ e := by
        unfold double.value
        rw [htop, zpow_add_one₀ (by norm_num : (2 : ℚ) ≠ 0)]
        push_cast
        ring
      rw [hvv]
      exact hval1
    · have hvv : double.value ⟨2 ^ 52, e + 1⟩ = (m : ℚ) * 2 ^ e := by
        unfold double.value
        rw [htop, zpow_add_one₀ (by norm_num : (2 : ℚ) ≠ 0)]
        push_cast
        ring
      rw [hvv]
      exact hval2
  · simp only [htop, if_false]
    rw [if_pos ⟨by show -1074 ≤ e; omega, by show e ≤ 971; omega⟩]
    exact ⟨_, rfl, hmlo, by show m < 2 ^ 53; omega, by show A - 52 ≤ e; omega,
      by show e ≤ B - 52; omega, hval1, hval2⟩

theorem double.fraction_spec (c : double) :
    0 < c.fraction.2 ∧ (c.fraction.1 : ℚ) / c.fraction.2 = c.value ∧
    (0 < c.mant → 0 < c.fraction.1) := by
  unfold double.fraction double.value
  by_cases h : 0 ≤ c.exp
  · simp only [h, if_true]
    refine ⟨Nat.one_pos, ?_, fun hm => Nat.mul_pos hm (by positivity)⟩
    have he : c.exp = ((c.exp.toNat : ℕ) : ℤ) := (Int.toNat_of_nonneg h).symm
    push_cast
    rw [div_one]
    nth_rewrite 2 [he]
    rw [zpow_natCast]
  · simp only [h, if_false]
    refine ⟨by positivity, ?_, fun hm => hm⟩
    have he : c.exp = -(((-c.exp).toNat : ℕ) : ℤ) := by
      rw [Int.toNat_of_nonneg (by omega)]
      omega
    push_cast
    nth_rewrite 2 [he]
    rw [zpow_neg, zpow_natCast, div_eq_mul_inv]

theorem double.value_bounds (c : double) (hc : 2 ^ 52 ≤ c.mant ∧ c.mant < 2 ^ 53) :
    (2 : ℚ) ^ (52 + c.exp) ≤ c.value ∧ c.value < (2 : ℚ) ^ (53 + c.exp) := by
  have hpe : (0 : ℚ) < 2 ^ c.exp := by positivity
  have h1 : (2 : ℚ) ^ 52 ≤ (c.mant : ℚ) := by exact_mod_cast hc.1
  have h2 : (c.mant : ℚ) < (2 : ℚ) ^ 53 := by exact_mod_cast hc.2
  unfold double.value
  rw [zpow_add₀ (by norm_num : (2 : ℚ) ≠ 0), zpow_add₀ (by norm_num : (2 : ℚ) ≠ 0),
    zpow_ofNat, zpow_ofNat]
  exact ⟨mul_le_mul_of_nonneg_right h1 hpe.le, mul_lt_mul_of_pos_right h2 hpe⟩

theorem double.mul_nat_spec (k : Nat) (c : double) (a b : Int)
    (hk : (2 : ℚ) ^ a ≤ k ∧ (k : ℚ) < 2 ^ b) (hc : 2 ^ 52 ≤ c.mant ∧ c.mant < 2 ^ 53)
    (hlo : -1022 ≤ a + (52 + c.exp)) (hhi : b + (53 + c.exp) ≤ 1023) :
    ∃ p, double.mul_nat k c = some p ∧ 2 ^ 52 ≤ p.mant ∧ p.mant < 2 ^ 53 ∧
      a + c.exp ≤ p.exp ∧ p.exp ≤ b + 1 + c.exp ∧
      (k : ℚ) * c.value * (1 - 1 / 2 ^ 53) ≤ p.value ∧
      p.value ≤ (k : ℚ) * c.value * (1 + 1 / 2 ^ 53) := by
  obtain ⟨f2, fv, f1⟩ := double.fraction_spec c
  obtain ⟨v1, v2⟩ := double.value_bounds c hc
  have hkq : (0 : ℚ) < k := lt_of_lt_of_le (by positivity) hk.1
  have hkn : 0 < k := by exact_mod_cast hkq
  have hcv : (0 : ℚ) < c.value := lt_of_lt_of_le (by positivity) v1
  have hratio : (((k * c.fraction.1 : ℕ) : ℚ)) / c.fraction.2 = (k : ℚ) * c.value := by
    rw [Nat.cast_mul, mul_div_assoc, fv]
  have hA : (2 : ℚ) ^ (a + (52 + c.exp)) ≤ ((k * c.fraction.1 : ℕ) : ℚ) / c.fraction.2 := by
    rw [hratio, zpow_add₀ (by norm_num : (2 : ℚ) ≠ 0)]
    exact mul_le_mul hk.1 v1 (by positivity) hkq.le
  have hB : ((k * c.fraction.1 : ℕ) : ℚ) / c.fraction.2 < (2 : ℚ) ^ (b + (53 + c.exp)) := by
    rw [hratio, zpow_add₀ (by norm_num : (2 : ℚ) ≠ 0)]
    exact mul_lt_mul hk.2 v2.le hcv (by positivity)
  obtain ⟨p, hp, m1, m2, e1, e2, w1, w2⟩ := double.round_spec (k * c.fraction.1) c.fraction.2
    _ _ (Nat.mul_pos hkn (f1 (by omega))) f2 hA hB hlo hhi
  rw [hratio] at w1 w2
  exact ⟨p, hp, m1, m2, by omega, by omega, w1, w2⟩

theorem double.div_nat_spec (c : double) (k : Nat) (b : Int)
    (hk : 0 < k ∧ (k : ℚ) ≤ 2 ^ b) (hc : 2 ^ 52 ≤ c.mant ∧ c.mant < 2 ^ 53)
    (hlo : -1022 ≤ 52 + c.exp - b) (hhi : 53 + c.exp ≤ 1023) :
    ∃ p, double.div_nat c k = some p ∧ 2 ^ 52 ≤ p.mant ∧ p.mant < 2 ^ 53 ∧
      c.exp - b ≤ p.exp ∧ p.exp ≤ 1 + c.exp ∧
      c.value / k * (1 - 1 / 2 ^ 53) ≤ p.value ∧
      p.value ≤ c.value / k * (1 + 1 / 2 ^ 53) := by
  obtain ⟨f2, fv, f1⟩ := double.fraction_spec c
  obtain ⟨v1, v2⟩ := double.value_bounds c hc
  have hkq : (0 : ℚ) < k := by exact_mod_cast hk.1
  have hk1 : (1 : ℚ) ≤ k := by exact_mod_cast hk.1
  have hcv : (0 : ℚ) < c.value := lt_of_lt_of_le (by positivity) v1
  have hratio : (c.fraction.1 : ℚ) / ((c.fraction.2 * k : ℕ) : ℚ) = c.value / k := by
    rw [Nat.cast_mul, ← div_div, fv]
  have hA : (2 : ℚ) ^ (52 + c.exp - b) ≤ (c.fraction.1 : ℚ) / ((c.fraction.2 * k : ℕ) : ℚ) := by
    rw [hratio, zpow_sub₀ (by norm_num : (2 : ℚ) ≠ 0)]
    exact div_le_div₀ (by positivity) v1 hkq hk.2
  have hB : (c.fraction.1 : ℚ) / ((c.fraction.2 * k : ℕ) : ℚ) < (2 : ℚ) ^ (53 + c.exp) := by
    rw [hratio]
    exact lt_of_le_of_lt (div_le_self hcv.le hk1) v2
  obtain ⟨p, hp, m1, m2, e1, e2, w1, w2⟩ := double.round_spec c.fraction.1 (c.fraction.2 * k)
    _ _ (f1 (by omega)) (Nat.mul_pos f2 hk.1) hA hB hlo hhi
  rw [hratio] at w1 w2
  exact ⟨p, hp, m1, m2, by omega, by omega, w1, w2⟩

theorem double.to_uint64_spec (c : double) (hc : 2 ^ 52 ≤ c.mant ∧ c.mant < 2 ^ 53)
    (he : c.exp ≤ 11) :
    ∃ a, double.to_uint64 c = some a ∧ (a : ℚ) ≤ c.value ∧ c.value < (a : ℚ) + 1 := by
  obtain ⟨f2, fv, f1⟩ := double.fraction_spec c
  obtain ⟨v1, v2⟩ := double.value_bounds c hc
  have hf2q : (0 : ℚ) < c.fraction.2 := by exact_mod_cast f2
  have hle : (((c.fraction.1 / c.fraction.2 : ℕ)) : ℚ) ≤ c.value := by
    rw [← fv, le_div_iff₀ hf2q]
    exact_mod_cast Nat.div_mul_le_self _ _
  have hlt : c.value < (((c.fraction.1 / c.fraction.2 : ℕ)) : ℚ) + 1 := by
    rw [← fv, div_lt_iff₀ hf2q]
    have := Nat.lt_div_mul_add f2 (a := c.fraction.1)
    have h : c.fraction.1 < (c.fraction.1 / c.fraction.2 + 1) * c.fraction.2 := by
      rw [Nat.add_mul, Nat.one_mul]
      exact this
    exact_mod_cast h
  have hsmall : c.fraction.1 / c.fraction.2 < 2 ^ 64 := by
    have h1 : c.value < (2 : ℚ) ^ (64 : ℤ) :=
      lt_of_lt_of_le v2 (zpow_le_zpow_right₀ (by norm_num) (by omega))
    have h2 : (((c.fraction.1 / c.fraction.2 : ℕ)) : ℚ) < (2 : ℚ) ^ (64 : ℕ) := by
      rw [zpow_ofNat] at h1
      exact lt_of_le_of_lt hle h1
    exact_mod_cast h2
  unfold double.to_uint64
  rw [if_pos hsmall]
  exact ⟨_, rfl, hle, hlt⟩

theorem stereo_player.alarm_count_spec (sample_rate : Nat) (c : double)
    (hs : 0 < sample_rate ∧ sample_rate < 4294967296)
    (hc : 2 ^ 52 ≤ c.mant ∧ c.mant < 2 ^ 53 ∧ -116 ≤ c.exp ∧ c.exp ≤ -20) :
    ∃ a, stereo_player.alarm_count sample_rate c = some a ∧
      (_timer_resolution_hz : ℚ) * c.value / ((sample_rate * player_oversampling : ℕ) : ℚ) *
          (1 - 1 / 2 ^ 53) ^ 2 - 1 < (a : ℚ) ∧
      (a : ℚ) ≤
        (_timer_resolution_hz : ℚ) * c.value / ((sample_rate * player_oversampling : ℕ) : ℚ) *
          (1 + 1 / 2 ^ 53) ^ 2 := by
  obtain ⟨c1, c2, c3, c4⟩ := hc
  have hT : ((_timer_resolution_hz : ℕ) : ℚ) = 40000000 := by
    norm_num [_timer_resolution_hz]
  have hk : (sample_rate * player_oversampling) % 4294967296 = sample_rate := by
    rw [show player_oversampling = 1 from rfl, Nat.mul_one]
    exact Nat.mod_eq_of_lt hs.2
  have hko : sample_rate * player_oversampling = sample_rate := by
    rw [show player_oversampling = 1 from rfl, Nat.mul_one]
  have hsq : (0 : ℚ) < sample_rate := by exact_mod_cast hs.1
  have hs32 : (sample_rate : ℚ) ≤ (2 : ℚ) ^ (32 : ℤ) := by
    rw [zpow_ofNat]
    norm_num
    exact hs.2.le
  obtain ⟨p, hp, pm1, pm2, pe1, pe2, pv1, pv2⟩ := double.mul_nat_spec _timer_resolution_hz c
    25 26 ⟨by rw [hT, zpow_ofNat]; norm_num, by rw [hT, zpow_ofNat]; norm_num⟩ ⟨c1, c2⟩
    (by omega) (by omega)
  obtain ⟨y, hy, ym1, ym2, ye1, ye2, yv1, yv2⟩ := double.div_nat_spec p sample_rate 32
    ⟨hs.1, hs32⟩ ⟨pm1, pm2⟩ (by omega) (by omega)
  obtain ⟨a, ha, av1, av2⟩ := double.to_uint64_spec y ⟨ym1, ym2⟩ (by omega)
  refine ⟨a, ?_, ?_, ?_⟩
  · unfold stereo_player.alarm_count
    rw [hp, Option.some_bind, hk, hy, Option.some_bind, ha]
  · rw [hko]
    have h1 : (_timer_resolution_hz : ℚ) * c.value / sample_rate * (1 - 1 / 2 ^ 53) ^ 2 ≤
        y.value := by
      calc (_timer_resolution_hz : ℚ) * c.value / sample_rate * (1 - 1 / 2 ^ 53) ^ 2
          = (_timer_resolution_hz : ℚ) * c.value * (1 - 1 / 2 ^ 53) / sample_rate *
              (1 - 1 / 2 ^ 53) := by ring
        _ ≤ p.value / sample_rate * (1 - 1 / 2 ^ 53) :=
            mul_le_mul_of_nonneg_right (div_le_div_of_nonneg_right pv1 hsq.le) (by norm_num)
        _ ≤ y.value := yv1
    linarith
  · rw [hko]
    have h1 : y.value ≤
        (_timer_resolution_hz : ℚ) * c.value / sample_rate * (1 + 1 / 2 ^ 53) ^ 2 := by
      calc y.value ≤ p.value / sample_rate * (1 + 1 / 2 ^ 53) := yv2
        _ ≤ (_timer_resolution_hz : ℚ) * c.value * (1 + 1 / 2 ^ 53) / sample_rate *
              (1 + 1 / 2 ^ 53) :=
            mul_le_mul_of_nonneg_right (div_le_div_of_nonneg_right pv2 hsq.le) (by norm_num)
        _ = (_timer_resolution_hz : ℚ) * c.value / sample_rate * (1 + 1 / 2 ^ 53) ^ 2 := by
            ring
    linarith

end double_lemmas

/-! ## The claims -/

/-- C1, counterexample. With `MAX_SIZE = 1`, `put(7)` into a new (or freshly reset) buffer
followed by one `get()` returns 0, not 7: both limits are `MAX_SIZE` after the constructor and
after `reset()`, so `put` discards the sample, and `get` reads the zeroed slot 0. -/
theorem stream_buffer.round_trip_fresh_counterexample :
    (stream_buffer.gets (stream_buffer.puts 1 (stream_buffer.ctor 1 : stream_buffer Int) [7])
      1).1 = [some 0] ∧
    (stream_buffer.gets
      (stream_buffer.puts 1 ((stream_buffer.ctor 1 : stream_buffer Int).reset 1) [7]) 1).1
      = [some 0] ∧
    ¬ ∀ vs : List Int, vs.length ≤ 1 →
      (stream_buffer.gets (stream_buffer.puts 1 (stream_buffer.ctor 1 : stream_buffer Int) vs)
        vs.length).1 = vs.map some := by
  refine ⟨by decide, by decide, fun h => ?_⟩
  have h1 := h [7] (by decide)
  revert h1
  decide

/-- C1, as amended. Round trip on a fresh buffer (for `N <= 65535`): starting from the state
left by the constructor or by `reset()`, `need_data()` returns true; after it and
`put(s_1) ... put(s_k)` with `k <= N`, the first `N` `get` calls return the zeroed samples of
slot 0 and the next `k` `get` calls return `s_1 ... s_k` in that order. -/
theorem stream_buffer.round_trip_fresh {α : Type} [Zero α] (N : Nat) (hN : N ≤ 65535)
    (f : stream_buffer α)
    (hf : f = stream_buffer.ctor N ∨ ∃ s0 : stream_buffer α, f = s0.reset N)
    (vs : List α) (hk : vs.length ≤ N) :
    f.need_data.1 = true ∧
    (stream_buffer.gets (stream_buffer.puts N f.need_data.2 vs) N).1 =
      List.replicate N (some 0) ∧
    (stream_buffer.gets (stream_buffer.gets (stream_buffer.puts N f.need_data.2 vs) N).2
      vs.length).1 = vs.map some := by
  have hmod : N % 65536 = N := Nat.mod_eq_of_lt (by omega)
  have hfresh : f._read_idx = 0 ∧ f._read_pos = 0 ∧ f._write_idx = 1 ∧ f._need_data = true ∧
      f._limit 0 = N ∧ (∀ j, j < N → f._buffer 0 j = 0) := by
    rcases hf with rfl | ⟨s0, rfl⟩
    · exact ⟨rfl, rfl, rfl, rfl, rfl, fun _ _ => rfl⟩
    · refine ⟨rfl, rfl, rfl, rfl, ?_, ?_⟩
      · simp [stream_buffer.reset, hmod]
      · intro j hj
        simp [stream_buffer.reset, stream_buffer._max_count, hj]
  obtain ⟨f1, f2, f3, f4, f5, f6⟩ := hfresh
  have hnd2 := stream_buffer.need_data_of_flag f f4
  have hne : (0 : Nat) ≠ f._write_idx := by omega
  have e_w : f.need_data.2._write_idx = f._write_idx := stream_buffer.need_data_write_idx f
  have e_l : f.need_data.2._limit f._write_idx = 0 := by
    rw [hnd2]
    exact Function.update_same _ _ _
  have hle : f.need_data.2._limit f.need_data.2._write_idx ≤ N := by
    rw [e_w, e_l]
    exact Nat.zero_le _
  obtain ⟨p1, p2, p3, _, p5, p6, p7⟩ := stream_buffer.puts_fields N hN vs f.need_data.2 hle
  rw [e_w] at p3 p5 p6 p7
  rw [e_l] at p6 p7
  rw [stream_buffer.need_data_read_idx, f1] at p1
  rw [stream_buffer.need_data_read_pos, f2] at p2
  have p5r : (stream_buffer.puts N f.need_data.2 vs)._limit 0 = N := by
    rw [p5 _ hne, stream_buffer.need_data_limit_other f _ hne, f5]
  have p7r : ∀ j, j < N → (stream_buffer.puts N f.need_data.2 vs)._buffer 0 j = 0 := by
    intro j hj
    rw [p7]
    have : ¬ (0 = f._write_idx ∧ 0 ≤ j ∧ j < N) := by omega
    simp only [this, if_false]
    rw [stream_buffer.need_data_buffer]
    exact f6 j hj
  rw [f3] at p3 p6 p7
  refine ⟨by rw [hnd2], ?_⟩
  generalize stream_buffer.puts N f.need_data.2 vs = t at p1 p2 p3 p5r p6 p7 p7r ⊢
  have hu := stream_buffer.gets_no_swap N t (by rw [p1, p2, p5r]; omega) (by rw [p1, p5r]; omega)
  rw [hu]
  dsimp only
  constructor
  · apply stream_buffer.map_range_eq_replicate
    intro i hi
    rw [p1, p2, Nat.zero_add, p7r i hi]
  · rcases Nat.eq_zero_or_pos vs.length with h0 | hpos
    · rw [h0, List.length_eq_zero.mp h0]
      rfl
    · have hwr : (t._read_idx + 1) % 2 = 1 := by rw [p1]
      have hsw := stream_buffer.gets_swap vs.length hpos { t with _read_pos := t._read_pos + N }
        (by show t._limit t._read_idx ≤ t._read_pos + N; rw [p1, p5r]; omega)
        (by show vs.length ≤ t._limit ((t._read_idx + 1) % 2); rw [hwr, p6]; omega)
        (by show t._limit ((t._read_idx + 1) % 2) ≤ 65535; rw [hwr, p6]; omega)
      rw [hsw]
      dsimp only
      apply stream_buffer.map_range_eq_map_some
      intro i hi
      rw [hwr, p7]
      have hiN : i < N := by omega
      simp only [Nat.zero_le, hiN, and_self, if_true, Nat.sub_zero, true_and]
      congr 1
      exact List.getD_eq_getElem _ _ hi

theorem stream_buffer.round_trip_fresh_witness :
    (2 : Nat) ≤ 65535 ∧ [(7 : Int), 8].length ≤ 2 ∧
    (stream_buffer.gets (stream_buffer.puts 2
        (stream_buffer.ctor 2 : stream_buffer Int).need_data.2 [7, 8]) 2).1
      = [some 0, some 0] ∧
    (stream_buffer.gets
      (stream_buffer.gets (stream_buffer.puts 2
        (stream_buffer.ctor 2 : stream_buffer Int).need_data.2 [7, 8]) 2).2 2).1
      = [some 7, some 8] :=
  ⟨by decide, by decide,
    (stream_buffer.round_trip_fresh 2 (by decide) (stream_buffer.ctor 2 : stream_buffer Int)
      (Or.inl rfl) [7, 8] (by decide)).2.1,
    (stream_buffer.round_trip_fresh 2 (by decide) (stream_buffer.ctor 2 : stream_buffer Int)
      (Or.inl rfl) [7, 8] (by decide)).2.2⟩

/-- C2. Swap invariant: in every state reachable from the constructor state by `reset`, `get`,
`put` and `need_data` calls, `_read_idx` and `_write_idx` are both 0 or 1 and
`_write_idx == 1 - _read_idx`, which is `(_read_idx + 1) mod 2`. -/
theorem stream_buffer.swap_invariant {α : Type} [Zero α] (N : Nat) (s : stream_buffer α)
    (hs : s.Reachable N) :
    s._read_idx < 2 ∧ s._write_idx < 2 ∧ (s._write_idx : Int) = 1 - (s._read_idx : Int) ∧
      s._write_idx = (s._read_idx + 1) % 2 := by
  have h := stream_buffer.Reachable.swap_inv hs
  omega

theorem stream_buffer.swap_invariant_witness :
    (stream_buffer.calls 2 (stream_buffer.ctor 2 : stream_buffer Int)
        [.need_data, .put 5, .get, .get, .get])._read_idx = 1 ∧
    (stream_buffer.calls 2 (stream_buffer.ctor 2 : stream_buffer Int)
        [.need_data, .put 5, .get, .get, .get])._write_idx = 0 ∧
    ((stream_buffer.calls 2 (stream_buffer.ctor 2 : stream_buffer Int)
        [.need_data, .put 5, .get, .get, .get])._read_idx < 2 ∧
     (stream_buffer.calls 2 (stream_buffer.ctor 2 : stream_buffer Int)
        [.need_data, .put 5, .get, .get, .get])._write_idx < 2 ∧
     ((stream_buffer.calls 2 (stream_buffer.ctor 2 : stream_buffer Int)
        [.need_data, .put 5, .get, .get, .get])._write_idx : Int) =
      1 - ((stream_buffer.calls 2 (stream_buffer.ctor 2 : stream_buffer Int)
        [.need_data, .put 5, .get, .get, .get])._read_idx : Int) ∧
     (stream_buffer.calls 2 (stream_buffer.ctor 2 : stream_buffer Int)
        [.need_data, .put 5, .get, .get, .get])._write_idx =
      ((stream_buffer.calls 2 (stream_buffer.ctor 2 : stream_buffer Int)
        [.need_data, .put 5, .get, .get, .get])._read_idx + 1) % 2) :=
  ⟨by decide, by decide,
    stream_buffer.swap_invariant 2 _ ⟨[.need_data, .put 5, .get, .get, .get], rfl⟩⟩

/-- C3. Within-slot ordering (for `N <= 65535`): in every reachable state in which
`need_data()` returns true, after that call and `put(s_1) ... put(s_k)` with `1 <= k <= N`, the
consumer's `max(0, _limit[_read_idx] - _read_pos)` remaining `get` calls stay in the current
read slot, the next `get` finds `_read_pos >= _limit[_read_idx]` (it performs the swap), and
the next `k` `get` calls return `s_1 ... s_k` in order. -/
theorem stream_buffer.within_slot_order {α : Type} [Zero α] (N : Nat) (hN : N ≤ 65535)
    (s : stream_buffer α) (hs : s.Reachable N) (vs : List α) (hk1 : 1 ≤ vs.length)
    (hk : vs.length ≤ N) (hnd : s.need_data.1 = true) :
    (stream_buffer.gets (stream_buffer.puts N s.need_data.2 vs)
        (s._limit s._read_idx - s._read_pos)).2._read_idx = s._read_idx ∧
    (stream_buffer.gets (stream_buffer.puts N s.need_data.2 vs)
        (s._limit s._read_idx - s._read_pos)).2._read_pos ≥
      (stream_buffer.gets (stream_buffer.puts N s.need_data.2 vs)
        (s._limit s._read_idx - s._read_pos)).2._limit s._read_idx ∧
    (stream_buffer.gets
        (stream_buffer.gets (stream_buffer.puts N s.need_data.2 vs)
          (s._limit s._read_idx - s._read_pos)).2 vs.length).1 = vs.map some := by
  obtain ⟨hr, hw⟩ := stream_buffer.Reachable.swap_inv hs
  have hlim := stream_buffer.Reachable.limit_le hs
  have hpos := stream_buffer.Reachable.read_pos hs
  have hne : s._read_idx ≠ s._write_idx := by omega
  have hflag : s._need_data = true := by
    by_contra hc
    simp [stream_buffer.need_data, hc] at hnd
  have hnd2 := stream_buffer.need_data_of_flag s hflag
  -- the state after need_data
  have e_w : s.need_data.2._write_idx = s._write_idx := stream_buffer.need_data_write_idx s
  have e_l : s.need_data.2._limit s._write_idx = 0 := by
    rw [hnd2]
    exact Function.update_same _ _ _
  have hle : s.need_data.2._limit s.need_data.2._write_idx ≤ N := by
    rw [e_w, e_l]
    exact Nat.zero_le _
  obtain ⟨p1, p2, p3, _, p5, p6, p7⟩ := stream_buffer.puts_fields N hN vs s.need_data.2 hle
  rw [e_w] at p3 p5 p6 p7
  rw [e_l] at p6 p7
  rw [stream_buffer.need_data_read_idx] at p1
  rw [stream_buffer.need_data_read_pos] at p2
  have p5r : (stream_buffer.puts N s.need_data.2 vs)._limit s._read_idx = s._limit s._read_idx := by
    rw [p5 _ hne, stream_buffer.need_data_limit_other s _ hne]
  generalize stream_buffer.puts N s.need_data.2 vs = t at p1 p2 p3 p5r p6 p7 ⊢
  -- the gets that remain in the read slot
  have hu : stream_buffer.gets t (s._limit s._read_idx - s._read_pos) =
      ((List.range (s._limit s._read_idx - s._read_pos)).map
          (fun i => some (t._buffer t._read_idx (t._read_pos + i))),
        { t with _read_pos := t._read_pos + (s._limit s._read_idx - s._read_pos) }) := by
    rcases hpos with hp | ⟨hp1, hp2⟩
    · apply stream_buffer.gets_no_swap
      · rw [p1, p2, p5r]; omega
      · rw [p1, p5r]; have := hlim s._read_idx; omega
    · rw [hp2, hp1]
      rfl
  rw [hu]
  dsimp only
  have hge : t._limit s._read_idx ≤ t._read_pos + (s._limit s._read_idx - s._read_pos) := by
    rw [p5r, p2]; omega
  refine ⟨p1, hge, ?_⟩
  have hwr : (t._read_idx + 1) % 2 = s._write_idx := by rw [p1, hw]
  have hsw := stream_buffer.gets_swap vs.length hk1
    { t with _read_pos := t._read_pos + (s._limit s._read_idx - s._read_pos) }
    (by show t._limit t._read_idx ≤ _; rw [p1]; exact hge)
    (by show vs.length ≤ t._limit ((t._read_idx + 1) % 2); rw [hwr, p6]; omega)
    (by show t._limit ((t._read_idx + 1) % 2) ≤ 65535; rw [hwr, p6]; omega)
  rw [hsw]
  dsimp only
  apply stream_buffer.map_range_eq_map_some
  intro i hi
  rw [hwr, p7]
  have hiN : i < N := by omega
  simp only [Nat.zero_le, hiN, and_self, if_true, Nat.sub_zero, true_and]
  congr 1
  exact List.getD_eq_getElem _ _ hi

theorem stream_buffer.within_slot_order_witness :
    (2 : Nat) ≤ 65535 ∧ 1 ≤ [(7 : Int), 8].length ∧ [(7 : Int), 8].length ≤ 2 ∧
    (stream_buffer.calls 2 (stream_buffer.ctor 2 : stream_buffer Int) [.get]).need_data.1
      = true ∧
    (stream_buffer.gets
        (stream_buffer.gets
          (stream_buffer.puts 2
            (stream_buffer.calls 2 (stream_buffer.ctor 2 : stream_buffer Int)
              [.get]).need_data.2 [7, 8])
          (2 - 1)).2 2).1 = [some 7, some 8] :=
  ⟨by decide, by decide, by decide, by decide,
    (stream_buffer.within_slot_order 2 (by decide)
      (stream_buffer.calls 2 (stream_buffer.ctor 2 : stream_buffer Int) [.get])
      ⟨[.get], rfl⟩ [7, 8] (by decide) (by decide) (by decide)).2.2⟩

/-- C4. Overflow policy of `put` (for `N <= 65535`): from every state whose write slot is empty
(`_limit[_write_idx] == 0`), `N + k` consecutive `put` calls leave `_limit[_write_idx] == N`
and the write slot holding the first `N` samples in order; each `put` after the first `N`
returns the state unchanged; and after any number of these calls every cell outside the write
slot or at an element index `>= N` is unchanged. -/
theorem stream_buffer.put_overflow {α : Type} (N : Nat) (hN : N ≤ 65535) (s : stream_buffer α)
    (h0 : s._limit s._write_idx = 0) (k : Nat) (vs : List α) (hlen : vs.length = N + k) :
    (stream_buffer.puts N s vs)._write_idx = s._write_idx ∧
    (stream_buffer.puts N s vs)._limit s._write_idx = N ∧
    (∀ (j : Nat) (hj : j < N),
      (stream_buffer.puts N s vs)._buffer s._write_idx j = vs.get ⟨j, by omega⟩) ∧
    (∀ (i : Nat) (hi : i < vs.length), N ≤ i →
      (stream_buffer.puts N s (vs.take i)).put N (vs.get ⟨i, hi⟩) =
        stream_buffer.puts N s (vs.take i)) ∧
    (∀ i a b : Nat, (a ≠ s._write_idx ∨ N ≤ b) →
      (stream_buffer.puts N s (vs.take i))._buffer a b = s._buffer a b) := by
  have hle : s._limit s._write_idx ≤ N := by omega
  obtain ⟨_, _, h3, _, _, h6, h7⟩ := stream_buffer.puts_fields N hN vs s hle
  refine ⟨h3, ?_, ?_, ?_, ?_⟩
  · rw [h6, h0]
    omega
  · intro j hj
    rw [h7, h0]
    simp only [Nat.zero_le, hj, and_self, if_true, Nat.sub_zero, true_and]
    exact List.getD_eq_getElem _ _ (by omega)
  · intro i hi hNi
    obtain ⟨_, _, g3, _, _, g6, _⟩ := stream_buffer.puts_fields N hN (vs.take i) s hle
    apply stream_buffer.put_of_ge
    rw [g3, g6, h0, List.length_take]
    omega
  · intro i a b hab
    obtain ⟨_, _, _, _, _, _, g7⟩ := stream_buffer.puts_fields N hN (vs.take i) s hle
    rw [g7]
    have : ¬ (a = s._write_idx ∧ s._limit s._write_idx ≤ b ∧ b < N) := by omega
    simp only [this, if_false]

theorem stream_buffer.put_overflow_witness :
    (2 : Nat) ≤ 65535 ∧
    (stream_buffer.ctor 2 : stream_buffer Int).need_data.2._limit
      (stream_buffer.ctor 2 : stream_buffer Int).need_data.2._write_idx = 0 ∧
    [(10 : Int), 20, 30].length = 2 + 1 ∧
    (stream_buffer.puts 2 (stream_buffer.ctor 2 : stream_buffer Int).need_data.2
      [10, 20, 30])._limit 1 = 2 :=
  ⟨by decide, by decide, by decide,
    (stream_buffer.put_overflow 2 (by decide)
      (stream_buffer.ctor 2 : stream_buffer Int).need_data.2 (by decide) 1 [10, 20, 30]
      (by decide)).2.1⟩

/-- C5. Edge-triggered `need_data`: after a `get` that performs a slot swap, let any calls
follow that contain no `reset` and no further swapping `get` (so `put`, non-swapping `get` and
`need_data` calls, in any order).  A `need_data()` call made after them returns true and sets
`_limit[_write_idx]` to 0 when it is the first `need_data()` since the swap; when an earlier
one has been made since the swap, it returns false and changes no state. -/
theorem stream_buffer.need_data_edge {α : Type} [Zero α] (N : Nat) (s : stream_buffer α)
    (hswap : s._read_pos ≥ s._limit s._read_idx) (pre : List (buffer_call α))
    (hq : stream_buffer.no_swap N s.get.2 pre = true) :
    (pre.any buffer_call.is_need_data = false →
      (stream_buffer.calls N s.get.2 pre).need_data.1 = true ∧
      (stream_buffer.calls N s.get.2 pre).need_data.2._limit
        (stream_buffer.calls N s.get.2 pre).need_data.2._write_idx = 0) ∧
    (pre.any buffer_call.is_need_data = true →
      (stream_buffer.calls N s.get.2 pre).need_data =
        (false, stream_buffer.calls N s.get.2 pre)) := by
  have hget : s.get.2._need_data = true := by
    simp only [stream_buffer.get, stream_buffer.get_swap, hswap, if_true]
  constructor
  · intro ha
    have hf := stream_buffer.need_data_flag_keep N pre _ hq ha
    rw [hget] at hf
    simp [stream_buffer.need_data, hf]
  · intro ha
    have hf := stream_buffer.need_data_flag_after N pre _ hq ha
    simp [stream_buffer.need_data, hf]

theorem stream_buffer.need_data_edge_witness :
    (stream_buffer.calls 2 (stream_buffer.ctor 2 : stream_buffer Int)
        [.need_data, .put 5, .put 6, .get, .get])._read_pos ≥
      (stream_buffer.calls 2 (stream_buffer.ctor 2 : stream_buffer Int)
        [.need_data, .put 5, .put 6, .get, .get])._limit
        (stream_buffer.calls 2 (stream_buffer.ctor 2 : stream_buffer Int)
          [.need_data, .put 5, .put 6, .get, .get])._read_idx ∧
    stream_buffer.no_swap 2
      (stream_buffer.calls 2 (stream_buffer.ctor 2 : stream_buffer Int)
        [.need_data, .put 5, .put 6, .get, .get]).get.2
      [.put 7, .need_data, .put 8, .get] = true ∧
    (stream_buffer.calls 2
      (stream_buffer.calls 2 (stream_buffer.ctor 2 : stream_buffer Int)
        [.need_data, .put 5, .put 6, .get, .get]).get.2
      [.put 7, .need_data, .put 8, .get]).need_data.1 = false :=
  ⟨by decide, by decide,
    congrArg Prod.fst
      ((stream_buffer.need_data_edge 2
        (stream_buffer.calls 2 (stream_buffer.ctor 2 : stream_buffer Int)
          [.need_data, .put 5, .put 6, .get, .get])
        (by decide) [.put 7, .need_data, .put 8, .get] (by decide)).2 (by decide))⟩

/-- C6, counterexample. With `MAX_SIZE = 1`, the calls `need_data(); get(); get()` on a new
buffer end with `_read_idx = 1`, `_read_pos = 1` and `_limit[1] = 0`: the second `get` swaps
onto the slot that `need_data` emptied and still reads one element from it. -/
theorem stream_buffer.read_pos_invariant_counterexample :
    (stream_buffer.calls 1 (stream_buffer.ctor 1 : stream_buffer Int)
        [.need_data, .get, .get])._read_idx = 1 ∧
    (stream_buffer.calls 1 (stream_buffer.ctor 1 : stream_buffer Int)
        [.need_data, .get, .get])._read_pos = 1 ∧
    (stream_buffer.calls 1 (stream_buffer.ctor 1 : stream_buffer Int)
        [.need_data, .get, .get])._limit 1 = 0 ∧
    ¬ ∀ s : stream_buffer Int, s.Reachable 1 → s._read_pos ≤ s._limit s._read_idx := by
  refine ⟨by decide, by decide, by decide, fun h => ?_⟩
  have h1 := h _ ⟨[.need_data, .get, .get], rfl⟩
  revert h1
  decide

/-- C6, as amended. In every state reachable from the constructor state by `reset`, `get`,
`put` and `need_data` calls, either `_read_pos <= _limit[_read_idx]`, or `_read_pos == 1` and
`_limit[_read_idx] == 0` (the state after a `get` that swapped onto an empty slot). -/
theorem stream_buffer.read_pos_invariant {α : Type} [Zero α] (N : Nat) (s : stream_buffer α)
    (hs : s.Reachable N) :
    s._read_pos ≤ s._limit s._read_idx ∨ (s._read_pos = 1 ∧ s._limit s._read_idx = 0) :=
  stream_buffer.Reachable.read_pos hs

theorem stream_buffer.read_pos_invariant_witness :
    (stream_buffer.calls 1 (stream_buffer.ctor 1 : stream_buffer Int)
        [.need_data, .get, .get])._read_pos ≤
      (stream_buffer.calls 1 (stream_buffer.ctor 1 : stream_buffer Int)
        [.need_data, .get, .get])._limit
        (stream_buffer.calls 1 (stream_buffer.ctor 1 : stream_buffer Int)
          [.need_data, .get, .get])._read_idx ∨
    ((stream_buffer.calls 1 (stream_buffer.ctor 1 : stream_buffer Int)
        [.need_data, .get, .get])._read_pos = 1 ∧
      (stream_buffer.calls 1 (stream_buffer.ctor 1 : stream_buffer Int)
        [.need_data, .get, .get])._limit
        (stream_buffer.calls 1 (stream_buffer.ctor 1 : stream_buffer Int)
          [.need_data, .get, .get])._read_idx = 0) :=
  stream_buffer.read_pos_invariant 1 _ ⟨[.need_data, .get, .get], rfl⟩

/-- C8. For `N <= 65535`, from every buffer state `reset()` yields `_read_idx = 0`,
`_read_pos = 0`, `_write_idx = 1`, `_limit[0] = _limit[1] = N`, `_need_data = true` and zeroed
sample storage; this is the object the constructor produces (and `reset()` of the constructor
state is the constructor state), and `reset(); reset()` equals `reset()`. -/
theorem stream_buffer.reset_initial {α : Type} [Zero α] (N : Nat) (hN : N ≤ 65535)
    (s : stream_buffer α) :
    (s.reset N)._read_idx = 0 ∧ (s.reset N)._read_pos = 0 ∧ (s.reset N)._write_idx = 1 ∧
      (s.reset N)._limit 0 = N ∧ (s.reset N)._limit 1 = N ∧ (s.reset N)._need_data = true ∧
      (∀ i j, i < 2 → j < N → (s.reset N)._buffer i j = 0) ∧
      stream_buffer.same_object N (s.reset N) (stream_buffer.ctor N) ∧
      (stream_buffer.ctor N : stream_buffer α).reset N = stream_buffer.ctor N ∧
      (s.reset N).reset N = s.reset N := by
  have hmod : N % 65536 = N := Nat.mod_eq_of_lt (by omega)
  have hb : ∀ i j, i < 2 → j < N → (s.reset N)._buffer i j = 0 := by
    intro i j hi hj
    simp [stream_buffer.reset, stream_buffer._max_count, hi, hj]
  have hl0 : (s.reset N)._limit 0 = N := by simp [stream_buffer.reset, hmod]
  have hl1 : (s.reset N)._limit 1 = N := by simp [stream_buffer.reset, hmod]
  refine ⟨rfl, rfl, rfl, hl0, hl1, rfl, hb, ⟨rfl, rfl, rfl, rfl, ?_, ?_⟩, ?_, ?_⟩
  · intro i hi
    have hi2 : i = 0 ∨ i = 1 := by simp only [stream_buffer._max_count] at hi; omega
    rcases hi2 with rfl | rfl
    · exact hl0
    · exact hl1
  · intro i j hi hj
    exact hb i j hi hj
  · simp only [stream_buffer.reset, stream_buffer.ctor, hmod, stream_buffer.mk.injEq, and_true]
    constructor
    · funext i j
      split <;> rfl
    · funext i
      simp only [Function.update_apply]
      split
      · rfl
      · split <;> rfl
  · simp only [stream_buffer.reset, stream_buffer.mk.injEq, and_true]
    constructor
    · funext i j
      split <;> rfl
    · funext i
      simp only [Function.update_apply]
      split
      · rfl
      · split <;> rfl

theorem stream_buffer.reset_initial_witness :
    (4608 : Nat) ≤ 65535 ∧
    (((stream_buffer.ctor 4608 : stream_buffer Int).put 4608 3).get.2.reset 4608)._limit 1 = 4608 ∧
    ((stream_buffer.ctor 4608 : stream_buffer Int).put 4608 3).get.2._read_pos = 1 :=
  ⟨by decide,
    (stream_buffer.reset_initial 4608 (by decide)
      ((stream_buffer.ctor 4608 : stream_buffer Int).put 4608 3).get.2).2.2.2.2.1,
    by decide⟩

/-- C9. Disjoint slots: in every state with `_write_idx == 1 - _read_idx`, `put` and `need_data`
change neither the contents nor the limit of the slot being read, nor `_read_idx` or
`_read_pos`; and `get` changes no stored sample and no limit of either slot. -/
theorem stream_buffer.disjoint_slots {α : Type} (N : Nat) (s : stream_buffer α) (v : α)
    (h : (s._write_idx : Int) = 1 - (s._read_idx : Int)) :
    ((s.put N v)._buffer s._read_idx = s._buffer s._read_idx ∧
      (s.put N v)._limit s._read_idx = s._limit s._read_idx ∧
      (s.put N v)._read_idx = s._read_idx ∧ (s.put N v)._read_pos = s._read_pos) ∧
    (s.need_data.2._buffer s._read_idx = s._buffer s._read_idx ∧
      s.need_data.2._limit s._read_idx = s._limit s._read_idx ∧
      s.need_data.2._read_idx = s._read_idx ∧ s.need_data.2._read_pos = s._read_pos) ∧
    (s.get.2._buffer = s._buffer ∧ s.get.2._limit = s._limit) := by
  have hne : s._read_idx ≠ s._write_idx := by omega
  refine ⟨⟨stream_buffer.put_buffer_other N s v _ hne, stream_buffer.put_limit_other N s v _ hne,
      stream_buffer.put_read_idx N s v, stream_buffer.put_read_pos N s v⟩,
    ⟨by rw [stream_buffer.need_data_buffer], stream_buffer.need_data_limit_other s _ hne,
      stream_buffer.need_data_read_idx s, stream_buffer.need_data_read_pos s⟩,
    ⟨stream_buffer.get_buffer s, stream_buffer.get_limit s⟩⟩

theorem stream_buffer.disjoint_slots_witness :
    (((stream_buffer.ctor 4 : stream_buffer Int).need_data.2._write_idx : Nat) : Int) =
      1 - (((stream_buffer.ctor 4 : stream_buffer Int).need_data.2._read_idx : Nat) : Int) ∧
    ((stream_buffer.ctor 4 : stream_buffer Int).need_data.2.put 4 9)._buffer 1 0 = 9 ∧
    ((stream_buffer.ctor 4 : stream_buffer Int).need_data.2.put 4 9)._limit 0 = 4 :=
  ⟨by decide, by decide,
    (stream_buffer.disjoint_slots 4 (stream_buffer.ctor 4 : stream_buffer Int).need_data.2 9
      (by decide)).1.2.1⟩

/-- C10. Bit-bang data correctness: for every pair of `int16_t` values, four pairwise distinct
pins in 0..31 and every initial output register, when the writes of `set_samples_and_enable`
are replayed the level of each channel's data line at the k-th clock-set write (k = 0..15) is
bit 15-k of that channel's 16-bit two's complement pattern, and the 16 levels, most significant
first, give back the channel's value.  When the clock line is low on entry, the clock-set
writes are exactly the rising edges of the clock line. -/
theorem dac_gpio.bit_bang_data (config : stereo_player_config) (set_bitmask reset_bitmask : Nat)
    (ch1 ch2 : Int) (out : Nat)
    (hb : config.clk_gpio < 32 ∧ config.ch1_data_gpio < 32 ∧ config.ch2_data_gpio < 32 ∧
      config.le_gpio < 32)
    (hd : config.clk_gpio ≠ config.ch1_data_gpio ∧ config.clk_gpio ≠ config.ch2_data_gpio ∧
      config.clk_gpio ≠ config.le_gpio ∧ config.ch1_data_gpio ≠ config.ch2_data_gpio ∧
      config.ch1_data_gpio ≠ config.le_gpio ∧ config.ch2_data_gpio ≠ config.le_gpio)
    (hr1 : -32768 ≤ ch1 ∧ ch1 ≤ 32767) (hr2 : -32768 ≤ ch2 ∧ ch2 ≤ 32767) :
    levels_at_clock_set config.clk_gpio config.ch1_data_gpio out
        (dac_gpio.set_samples_and_enable
          { dac_gpio.ctor config with _set_bitmask := set_bitmask,
                                      _reset_bitmask := reset_bitmask } ch1 ch2).2 =
      (List.range 16).map (fun k => (int16_pattern ch1).testBit (15 - k)) ∧
    levels_at_clock_set config.clk_gpio config.ch2_data_gpio out
        (dac_gpio.set_samples_and_enable
          { dac_gpio.ctor config with _set_bitmask := set_bitmask,
                                      _reset_bitmask := reset_bitmask } ch1 ch2).2 =
      (List.range 16).map (fun k => (int16_pattern ch2).testBit (15 - k)) ∧
    int16_of_pattern (of_msb_bits
      (levels_at_clock_set config.clk_gpio config.ch1_data_gpio out
        (dac_gpio.set_samples_and_enable
          { dac_gpio.ctor config with _set_bitmask := set_bitmask,
                                      _reset_bitmask := reset_bitmask } ch1 ch2).2)) = ch1 ∧
    int16_of_pattern (of_msb_bits
      (levels_at_clock_set config.clk_gpio config.ch2_data_gpio out
        (dac_gpio.set_samples_and_enable
          { dac_gpio.ctor config with _set_bitmask := set_bitmask,
                                      _reset_bitmask := reset_bitmask } ch1 ch2).2)) = ch2 ∧
    (out.testBit config.clk_gpio = false →
      levels_at_rising_edge config.clk_gpio config.ch1_data_gpio out
          (dac_gpio.set_samples_and_enable
            { dac_gpio.ctor config with _set_bitmask := set_bitmask,
                                        _reset_bitmask := reset_bitmask } ch1 ch2).2 =
        (List.range 16).map (fun k => (int16_pattern ch1).testBit (15 - k)) ∧
      levels_at_rising_edge config.clk_gpio config.ch2_data_gpio out
          (dac_gpio.set_samples_and_enable
            { dac_gpio.ctor config with _set_bitmask := set_bitmask,
                                        _reset_bitmask := reset_bitmask } ch1 ch2).2 =
        (List.range 16).map (fun k => (int16_pattern ch2).testBit (15 - k))) := by
  obtain ⟨m1, m2, m3, m4⟩ := dac_gpio.ctor_bitmasks config hb
  generalize hg : ({ dac_gpio.ctor config with _set_bitmask := set_bitmask,
                                               _reset_bitmask := reset_bitmask } : dac_gpio) = g
  have g1 : g._clk_bitmask = 2 ^ config.clk_gpio := by rw [← hg]; exact m1
  have g2 : g._ch1_data_bitmask = 2 ^ config.ch1_data_gpio := by rw [← hg]; exact m2
  have g3 : g._ch2_data_bitmask = 2 ^ config.ch2_data_gpio := by rw [← hg]; exact m3
  have g4 : g._le_bitmask = 2 ^ config.le_gpio := by rw [← hg]; exact m4
  have hbits : ∀ v : Int,
      (List.range 16).map (fun k => (int_pattern v).testBit (16 - 1 - k)) =
        (List.range 16).map (fun k => (int16_pattern v).testBit (15 - k)) := by
    intro v
    apply List.map_congr_left
    intro k hk
    have hk16 : k < 16 := List.mem_range.mp hk
    rw [int16_pattern_eq_mod, Nat.testBit_mod_two_pow]
    have : 15 - k < 16 := by omega
    simp [this]
  have hwrites : (g.set_samples_and_enable ch1 ch2).2 =
      (dac_gpio.set_loop ch1 ch2 16 (2 ^ (16 - 1)) g).2 ++
        [⟨.GPIO_OUT_W1TC_REG, (dac_gpio.set_loop ch1 ch2 16 (2 ^ (16 - 1)) g).1._le_bitmask⟩] :=
    rfl
  obtain ⟨s1, s2⟩ := dac_gpio.set_loop_levels ch1 ch2 config.clk_gpio config.ch1_data_gpio
    config.ch2_data_gpio config.le_gpio hb hd 16 (2 ^ (16 - 1)) g out
    [⟨.GPIO_OUT_W1TC_REG, (dac_gpio.set_loop ch1 ch2 16 (2 ^ (16 - 1)) g).1._le_bitmask⟩]
    (fun _ => rfl) g1 g2 g3 g4
  have t1 : levels_at_clock_set config.clk_gpio config.ch1_data_gpio out
      (g.set_samples_and_enable ch1 ch2).2 =
      (List.range 16).map (fun k => (int16_pattern ch1).testBit (15 - k)) := by
    rw [hwrites, s1, hbits]
    simp [levels_at_clock_set]
  have t2 : levels_at_clock_set config.clk_gpio config.ch2_data_gpio out
      (g.set_samples_and_enable ch1 ch2).2 =
      (List.range 16).map (fun k => (int16_pattern ch2).testBit (15 - k)) := by
    rw [hwrites, s2, hbits]
    simp [levels_at_clock_set]
  have hval : ∀ v : Int, -32768 ≤ v ∧ v ≤ 32767 →
      int16_of_pattern (of_msb_bits
        ((List.range 16).map (fun k => (int16_pattern v).testBit (15 - k)))) = v := by
    intro v hv
    have h := of_msb_bits_testBit (int16_pattern v) 16
    rw [Nat.mod_eq_of_lt (int16_pattern_lt v)] at h
    rw [h]
    exact int16_of_pattern_pattern v hv
  refine ⟨t1, t2, by rw [t1]; exact hval ch1 hr1, by rw [t2]; exact hval ch2 hr2, ?_⟩
  intro hlow
  obtain ⟨r1, r2, r3⟩ := dac_gpio.set_loop_edges ch1 ch2 config.clk_gpio config.ch1_data_gpio
    config.ch2_data_gpio config.le_gpio hb hd 16 (2 ^ (16 - 1)) g out
    [⟨.GPIO_OUT_W1TC_REG, (dac_gpio.set_loop ch1 ch2 16 (2 ^ (16 - 1)) g).1._le_bitmask⟩]
    (fun _ => rfl) g1 g2 g3 g4 hlow
  have hfin : ∀ pin, levels_at_rising_edge config.clk_gpio pin
      (replay_writes out (dac_gpio.set_loop ch1 ch2 16 (2 ^ (16 - 1)) g).2)
      [⟨.GPIO_OUT_W1TC_REG, (dac_gpio.set_loop ch1 ch2 16 (2 ^ (16 - 1)) g).1._le_bitmask⟩]
      = [] := by
    intro pin
    have hc : (reg_write.apply (replay_writes out (dac_gpio.set_loop ch1 ch2 16 (2 ^ (16 - 1)) g).2)
        ⟨.GPIO_OUT_W1TC_REG,
          (dac_gpio.set_loop ch1 ch2 16 (2 ^ (16 - 1)) g).1._le_bitmask⟩).testBit
        config.clk_gpio = false := by
      rw [reg_write.testBit_apply_clear _ _ _ hb.1, r3]
      rfl
    simp only [levels_at_rising_edge, hc]
    simp
  constructor
  · rw [hwrites, r1, hbits, hfin]
    simp
  · rw [hwrites, r2, hbits, hfin]
    simp

theorem dac_gpio.bit_bang_data_witness :
    levels_at_clock_set 14 26 0
        (dac_gpio.set_samples_and_enable (dac_gpio.ctor ⟨14, 26, 25, 27⟩) (-32767) 1).2 =
      [true, false, false, false, false, false, false, false,
       false, false, false, false, false, false, false, true] ∧
    levels_at_clock_set 14 25 0
        (dac_gpio.set_samples_and_enable (dac_gpio.ctor ⟨14, 26, 25, 27⟩) (-32767) 1).2 =
      (List.range 16).map (fun k => (int16_pattern 1).testBit (15 - k)) ∧
    int16_of_pattern (of_msb_bits
      (levels_at_clock_set 14 26 0
        (dac_gpio.set_samples_and_enable (dac_gpio.ctor ⟨14, 26, 25, 27⟩) (-32767) 1).2)) =
      -32767 :=
  ⟨by decide,
    (dac_gpio.bit_bang_data ⟨14, 26, 25, 27⟩ 0 0 (-32767) 1 0 (by decide) (by decide)
      (by decide) (by decide)).2.1,
    (dac_gpio.bit_bang_data ⟨14, 26, 25, 27⟩ 0 0 (-32767) 1 0 (by decide) (by decide)
      (by decide) (by decide)).2.2.1⟩

/-- C11. Latch-enable timing, pins pairwise distinct and below 32: in the write trace of
`set_samples_and_enable` the latch-enable bit is in the set group of bit index 14 only and in
no reset group; exactly one write clears it, the last write of the trace (position 64), which
follows the clear of the 16th clock pulse (position 63).  Replayed from an output with
latch-enable low, the line is low at the first clock-set write and high at the 15 others; and
it is low on return. -/
theorem dac_gpio.latch_enable_timing (config : stereo_player_config)
    (set_bitmask reset_bitmask : Nat) (ch1 ch2 : Int) (out : Nat)
    (hb : config.clk_gpio < 32 ∧ config.ch1_data_gpio < 32 ∧ config.ch2_data_gpio < 32 ∧
      config.le_gpio < 32)
    (hd : config.clk_gpio ≠ config.ch1_data_gpio ∧ config.clk_gpio ≠ config.ch2_data_gpio ∧
      config.clk_gpio ≠ config.le_gpio ∧ config.ch1_data_gpio ≠ config.ch2_data_gpio ∧
      config.ch1_data_gpio ≠ config.le_gpio ∧ config.ch2_data_gpio ≠ config.le_gpio) :
    (∀ k, k < 16 → ∃ r s : Nat,
      (dac_gpio.set_samples_and_enable
          { dac_gpio.ctor config with _set_bitmask := set_bitmask,
                                      _reset_bitmask := reset_bitmask } ch1 ch2).2[4 * k + 0]? =
        some ⟨.GPIO_OUT_W1TC_REG, r⟩ ∧
      (dac_gpio.set_samples_and_enable
          { dac_gpio.ctor config with _set_bitmask := set_bitmask,
                                      _reset_bitmask := reset_bitmask } ch1 ch2).2[4 * k + 1]? =
        some ⟨.GPIO_OUT_W1TS_REG, s⟩ ∧
      r.testBit config.le_gpio = false ∧
      s.testBit config.le_gpio = decide (15 - k = 14)) ∧
    (dac_gpio.set_samples_and_enable
        { dac_gpio.ctor config with _set_bitmask := set_bitmask,
                                    _reset_bitmask := reset_bitmask } ch1 ch2).2.countP
      (fun w => decide (w.reg = .GPIO_OUT_W1TC_REG) && w.val.testBit config.le_gpio) = 1 ∧
    (dac_gpio.set_samples_and_enable
        { dac_gpio.ctor config with _set_bitmask := set_bitmask,
                                    _reset_bitmask := reset_bitmask } ch1 ch2).2.length = 65 ∧
    (dac_gpio.set_samples_and_enable
        { dac_gpio.ctor config with _set_bitmask := set_bitmask,
                                    _reset_bitmask := reset_bitmask } ch1 ch2).2[64]? =
      some ⟨.GPIO_OUT_W1TC_REG, 2 ^ config.le_gpio⟩ ∧
    (dac_gpio.set_samples_and_enable
        { dac_gpio.ctor config with _set_bitmask := set_bitmask,
                                    _reset_bitmask := reset_bitmask } ch1 ch2).2[63]? =
      some ⟨.GPIO_OUT_W1TC_REG, 2 ^ config.clk_gpio⟩ ∧
    (out.testBit config.le_gpio = false →
      levels_at_clock_set config.clk_gpio config.le_gpio out
          (dac_gpio.set_samples_and_enable
            { dac_gpio.ctor config with _set_bitmask := set_bitmask,
                                        _reset_bitmask := reset_bitmask } ch1 ch2).2 =
        false :: List.replicate 15 true) ∧
    (replay_writes out
      (dac_gpio.set_samples_and_enable
        { dac_gpio.ctor config with _set_bitmask := set_bitmask,
                                    _reset_bitmask := reset_bitmask } ch1 ch2).2).testBit
      config.le_gpio = false := by
  rw [dac_gpio.constructed_trace config set_bitmask reset_bitmask ch1 ch2 hb]
  have hlen : (protocol_bits (2 ^ config.clk_gpio) (2 ^ config.ch1_data_gpio)
      (2 ^ config.ch2_data_gpio) (2 ^ config.le_gpio) ch1 ch2 16).length = 64 :=
    protocol_bits_length _ _ _ _ _ _ 16
  refine ⟨?_, ?_, ?_, ?_, ?_, ?_, ?_⟩
  · intro k hk
    have e : 15 - k = 16 - 1 - k := by omega
    have h0 := protocol_bits_getElem? (2 ^ config.clk_gpio) (2 ^ config.ch1_data_gpio)
      (2 ^ config.ch2_data_gpio) (2 ^ config.le_gpio) ch1 ch2
      [⟨.GPIO_OUT_W1TC_REG, 2 ^ config.le_gpio⟩] 16 k 0 hk (by decide)
    have h1 := protocol_bits_getElem? (2 ^ config.clk_gpio) (2 ^ config.ch1_data_gpio)
      (2 ^ config.ch2_data_gpio) (2 ^ config.le_gpio) ch1 ch2
      [⟨.GPIO_OUT_W1TC_REG, 2 ^ config.le_gpio⟩] 16 k 1 hk (by decide)
    obtain ⟨hs, hr⟩ := protocol_groups_bits config.ch1_data_gpio config.ch2_data_gpio
      config.le_gpio ch1 ch2 (15 - k)
    rw [← e] at h0 h1
    refine ⟨protocol_reset_group (2 ^ config.ch1_data_gpio) (2 ^ config.ch2_data_gpio)
        ch1 ch2 (15 - k),
      protocol_set_group (2 ^ config.ch1_data_gpio) (2 ^ config.ch2_data_gpio)
        (2 ^ config.le_gpio) ch1 ch2 (15 - k), h0, h1, ?_, ?_⟩
    · rw [hr]
      simp [hd.2.2.2.2.1, hd.2.2.2.2.2]
    · rw [hs]
      simp [hd.2.2.2.2.1, hd.2.2.2.2.2]
  · rw [protocol_trace, List.countP_append,
      protocol_bits_count_le_clear _ _ _ _ ch1 ch2 hd 16]
    simp
  · rw [protocol_trace, List.length_append, hlen]
    rfl
  · rw [protocol_trace, List.getElem?_append_right (by rw [hlen]), hlen]
    rfl
  · have h3 := protocol_bits_getElem? (2 ^ config.clk_gpio) (2 ^ config.ch1_data_gpio)
      (2 ^ config.ch2_data_gpio) (2 ^ config.le_gpio) ch1 ch2
      [⟨.GPIO_OUT_W1TC_REG, 2 ^ config.le_gpio⟩] 16 15 3 (by decide) (by decide)
    exact h3
  · intro hlow
    rw [protocol_trace, protocol_bits_le_levels _ _ _ _ ch1 ch2 hb hd 16, hlow]
    simp [levels_at_clock_set, List.range_succ_eq_map, List.replicate]
  · rw [protocol_trace, replay_writes_append]
    show (reg_write.apply _ ⟨.GPIO_OUT_W1TC_REG, 2 ^ config.le_gpio⟩).testBit config.le_gpio
      = false
    rw [reg_write.testBit_apply_clear _ _ _ hb.2.2.2, Nat.testBit_two_pow_self]
    simp

theorem dac_gpio.latch_enable_timing_witness :
    levels_at_clock_set 14 27 0
        (dac_gpio.set_samples_and_enable (dac_gpio.ctor ⟨14, 26, 25, 27⟩) (-32767) 1).2 =
      false :: List.replicate 15 true ∧
    (replay_writes 0
      (dac_gpio.set_samples_and_enable (dac_gpio.ctor ⟨14, 26, 25, 27⟩) (-32767) 1).2).testBit
      27 = false :=
  ⟨(dac_gpio.latch_enable_timing ⟨14, 26, 25, 27⟩ 0 0 (-32767) 1 0 (by decide)
      (by decide)).2.2.2.2.2.1 (by decide),
    by decide⟩

/-- C12. Shape of the pin-write trace: for every sample pair, `set_samples_and_enable` emits
exactly 65 register writes: for each bit index 15 down to 0, in this order, the clear of the
reset group, the set of the set group, the set of the clock mask, the clear of the clock mask,
and at the end the latch-enable clear.  With pairwise distinct pins there are exactly 16
clock-set writes, and in every bit the set and reset groups are disjoint with each data line
in exactly one of them. -/
theorem dac_gpio.trace_shape (config : stereo_player_config) (set_bitmask reset_bitmask : Nat)
    (ch1 ch2 : Int)
    (hb : config.clk_gpio < 32 ∧ config.ch1_data_gpio < 32 ∧ config.ch2_data_gpio < 32 ∧
      config.le_gpio < 32)
    (hd : config.clk_gpio ≠ config.ch1_data_gpio ∧ config.clk_gpio ≠ config.ch2_data_gpio ∧
      config.clk_gpio ≠ config.le_gpio ∧ config.ch1_data_gpio ≠ config.ch2_data_gpio ∧
      config.ch1_data_gpio ≠ config.le_gpio ∧ config.ch2_data_gpio ≠ config.le_gpio) :
    (dac_gpio.set_samples_and_enable
        { dac_gpio.ctor config with _set_bitmask := set_bitmask,
                                    _reset_bitmask := reset_bitmask } ch1 ch2).2 =
      protocol_trace (2 ^ config.clk_gpio) (2 ^ config.ch1_data_gpio)
        (2 ^ config.ch2_data_gpio) (2 ^ config.le_gpio) ch1 ch2 ∧
    (dac_gpio.set_samples_and_enable
        { dac_gpio.ctor config with _set_bitmask := set_bitmask,
                                    _reset_bitmask := reset_bitmask } ch1 ch2).2.length = 65 ∧
    (∀ k, k < 16 →
      (dac_gpio.set_samples_and_enable
          { dac_gpio.ctor config with _set_bitmask := set_bitmask,
                                      _reset_bitmask := reset_bitmask } ch1 ch2).2[4 * k + 0]? =
        some ⟨.GPIO_OUT_W1TC_REG, protocol_reset_group (2 ^ config.ch1_data_gpio)
          (2 ^ config.ch2_data_gpio) ch1 ch2 (15 - k)⟩ ∧
      (dac_gpio.set_samples_and_enable
          { dac_gpio.ctor config with _set_bitmask := set_bitmask,
                                      _reset_bitmask := reset_bitmask } ch1 ch2).2[4 * k + 1]? =
        some ⟨.GPIO_OUT_W1TS_REG, protocol_set_group (2 ^ config.ch1_data_gpio)
          (2 ^ config.ch2_data_gpio) (2 ^ config.le_gpio) ch1 ch2 (15 - k)⟩ ∧
      (dac_gpio.set_samples_and_enable
          { dac_gpio.ctor config with _set_bitmask := set_bitmask,
                                      _reset_bitmask := reset_bitmask } ch1 ch2).2[4 * k + 2]? =
        some ⟨.GPIO_OUT_W1TS_REG, 2 ^ config.clk_gpio⟩ ∧
      (dac_gpio.set_samples_and_enable
          { dac_gpio.ctor config with _set_bitmask := set_bitmask,
                                      _reset_bitmask := reset_bitmask } ch1 ch2).2[4 * k + 3]? =
        some ⟨.GPIO_OUT_W1TC_REG, 2 ^ config.clk_gpio⟩) ∧
    (dac_gpio.set_samples_and_enable
        { dac_gpio.ctor config with _set_bitmask := set_bitmask,
                                    _reset_bitmask := reset_bitmask } ch1 ch2).2[64]? =
      some ⟨.GPIO_OUT_W1TC_REG, 2 ^ config.le_gpio⟩ ∧
    (dac_gpio.set_samples_and_enable
        { dac_gpio.ctor config with _set_bitmask := set_bitmask,
                                    _reset_bitmask := reset_bitmask } ch1 ch2).2.countP
      (fun w => decide (w.reg = .GPIO_OUT_W1TS_REG) && w.val.testBit config.clk_gpio) = 16 ∧
    (∀ i, i < 16 →
      protocol_set_group (2 ^ config.ch1_data_gpio) (2 ^ config.ch2_data_gpio)
          (2 ^ config.le_gpio) ch1 ch2 i &&&
        protocol_reset_group (2 ^ config.ch1_data_gpio) (2 ^ config.ch2_data_gpio) ch1 ch2 i
          = 0 ∧
      (protocol_set_group (2 ^ config.ch1_data_gpio) (2 ^ config.ch2_data_gpio)
          (2 ^ config.le_gpio) ch1 ch2 i).testBit config.ch1_data_gpio =
        !(protocol_reset_group (2 ^ config.ch1_data_gpio) (2 ^ config.ch2_data_gpio)
          ch1 ch2 i).testBit config.ch1_data_gpio ∧
      (protocol_set_group (2 ^ config.ch1_data_gpio) (2 ^ config.ch2_data_gpio)
          (2 ^ config.le_gpio) ch1 ch2 i).testBit config.ch2_data_gpio =
        !(protocol_reset_group (2 ^ config.ch1_data_gpio) (2 ^ config.ch2_data_gpio)
          ch1 ch2 i).testBit config.ch2_data_gpio) := by
  rw [dac_gpio.constructed_trace config set_bitmask reset_bitmask ch1 ch2 hb]
  obtain ⟨d1, d2, d3, d4, d5, d6⟩ := hd
  have hlen : (protocol_bits (2 ^ config.clk_gpio) (2 ^ config.ch1_data_gpio)
      (2 ^ config.ch2_data_gpio) (2 ^ config.le_gpio) ch1 ch2 16).length = 64 :=
    protocol_bits_length _ _ _ _ _ _ 16
  refine ⟨rfl, ?_, ?_, ?_, ?_, ?_⟩
  · rw [protocol_trace, List.length_append, hlen]
    rfl
  · intro k hk
    have e : 15 - k = 16 - 1 - k := by omega
    have h0 := protocol_bits_getElem? (2 ^ config.clk_gpio) (2 ^ config.ch1_data_gpio)
      (2 ^ config.ch2_data_gpio) (2 ^ config.le_gpio) ch1 ch2
      [⟨.GPIO_OUT_W1TC_REG, 2 ^ config.le_gpio⟩] 16 k 0 hk (by decide)
    have h1 := protocol_bits_getElem? (2 ^ config.clk_gpio) (2 ^ config.ch1_data_gpio)
      (2 ^ config.ch2_data_gpio) (2 ^ config.le_gpio) ch1 ch2
      [⟨.GPIO_OUT_W1TC_REG, 2 ^ config.le_gpio⟩] 16 k 1 hk (by decide)
    have h2 := protocol_bits_getElem? (2 ^ config.clk_gpio) (2 ^ config.ch1_data_gpio)
      (2 ^ config.ch2_data_gpio) (2 ^ config.le_gpio) ch1 ch2
      [⟨.GPIO_OUT_W1TC_REG, 2 ^ config.le_gpio⟩] 16 k 2 hk (by decide)
    have h3 := protocol_bits_getElem? (2 ^ config.clk_gpio) (2 ^ config.ch1_data_gpio)
      (2 ^ config.ch2_data_gpio) (2 ^ config.le_gpio) ch1 ch2
      [⟨.GPIO_OUT_W1TC_REG, 2 ^ config.le_gpio⟩] 16 k 3 hk (by decide)
    rw [e]
    exact ⟨h0, h1, h2, h3⟩
  · rw [protocol_trace, List.getElem?_append_right (by rw [hlen]), hlen]
    rfl
  · rw [protocol_trace, List.countP_append,
      protocol_bits_count_clock_set _ _ _ _ ch1 ch2 ⟨d1, d2, d3, d4, d5, d6⟩ 16]
    simp
  · intro i _
    obtain ⟨hs, hr⟩ := protocol_groups_bits config.ch1_data_gpio config.ch2_data_gpio
      config.le_gpio ch1 ch2 i
    refine ⟨?_, ?_, ?_⟩
    · apply Nat.eq_of_testBit_eq
      intro p
      rw [Nat.testBit_and, hs p, hr p, Nat.zero_testBit]
      generalize (int16_pattern ch1).testBit i = b1
      generalize (int16_pattern ch2).testBit i = b2
      by_cases e1 : config.ch1_data_gpio = p <;> by_cases e2 : config.ch2_data_gpio = p <;>
        by_cases e3 : config.le_gpio = p <;> cases b1 <;> cases b2 <;> simp_all
    · rw [hs, hr]
      simp [d4, d5, Ne.symm d4, Ne.symm d5]
    · rw [hs, hr]
      simp [d4, d6, Ne.symm d4, Ne.symm d6]

theorem dac_gpio.trace_shape_witness :
    (dac_gpio.set_samples_and_enable (dac_gpio.ctor ⟨14, 26, 25, 27⟩) (-32767) 1).2.length
      = 65 ∧
    (dac_gpio.set_samples_and_enable (dac_gpio.ctor ⟨14, 26, 25, 27⟩) (-32767) 1).2.take 9 =
      [⟨.GPIO_OUT_W1TC_REG, 2 ^ 25⟩, ⟨.GPIO_OUT_W1TS_REG, 2 ^ 26⟩,
       ⟨.GPIO_OUT_W1TS_REG, 2 ^ 14⟩, ⟨.GPIO_OUT_W1TC_REG, 2 ^ 14⟩,
       ⟨.GPIO_OUT_W1TC_REG, 2 ^ 26 + 2 ^ 25⟩, ⟨.GPIO_OUT_W1TS_REG, 2 ^ 27⟩,
       ⟨.GPIO_OUT_W1TS_REG, 2 ^ 14⟩, ⟨.GPIO_OUT_W1TC_REG, 2 ^ 14⟩,
       ⟨.GPIO_OUT_W1TC_REG, 2 ^ 26 + 2 ^ 25⟩] :=
  ⟨(dac_gpio.trace_shape ⟨14, 26, 25, 27⟩ 0 0 (-32767) 1 (by decide) (by decide)).2.1,
    by decide⟩

/-- C13, counterexample. For `d = 16` and `v = -2`, `play_track` computes
`rshift = (16 - 16) - (-2) = 2`, not -2, and takes the right-shift branch: the raw sample 100
is put as 25 (a left shift by 2 would give 400). -/
theorem play_track.volume_shift_counterexample :
    play_track.rshift (play_track.sample_rshift 16) (-2) = 2 ∧
    play_track.rshift (play_track.sample_rshift 16) (-2) ≠ -2 ∧
    play_track.channel_value (play_track.rshift (play_track.sample_rshift 16) (-2)) 100 = 25 ∧
    to_player_sample (to_int (100 * 2 ^ 2)) = 400 := by
  decide

/-- C13, as amended. Volume shift: for every decoder bit depth `d` and volume level `v` with
`-32 < (d - 16) - v < 32` (the shift counts C++ defines on a 32-bit `int`), `play_track`
computes `rshift = (d - 16) - v`, and an iteration that drains the current block (command
idle, a block decoded, `need_data()` true) calls `need_data` and then `put` once for each raw
sample pair of the block, in order, each channel `x` put unchanged when `rshift == 0`,
arithmetically right-shifted by `rshift` bits when `rshift > 0` and left-shifted by `-rshift`
bits when `rshift < 0`, then converted to the 16-bit sample type; the buffer after the
iteration is the buffer after these puts.  `d = 24, v = 0` gives 8 and
`0x00ABCD00 >> 8 = 0x00ABCD`; `d = 24, v = 3` gives 5; `d = 16, v = -2` gives 2, a right shift
by 2; `d = 16, v = 2` gives -2, a left shift by 2. -/
theorem play_track.volume_shift (d v : Int) (N : Nat) (s : play_track_state)
    (hv : s.volume = v ∧ -32 < (d - 16) - v ∧ (d - 16) - v < 32)
    (hcmd : s.cmd = .idle) (hb : s.have_block = true)
    (hf : s.player_buffer._need_data = true) :
    play_track.rshift (play_track.sample_rshift d) v = (d - 16) - v ∧
    (play_track.iteration N (play_track.sample_rshift d) s).2.2 =
      .need_data ::
        (s.flac_decoder.block.map (fun r => feed_call.put
            ⟨volume_shift_spec ((d - 16) - v) r.1, volume_shift_spec ((d - 16) - v) r.2⟩) ++
          (if s.flac_decoder.state = .complete then [] else [.taskYIELD])) ∧
    (play_track.iteration N (play_track.sample_rshift d) s).1.player_buffer =
      stream_buffer.puts N s.player_buffer.need_data.2
        (s.flac_decoder.block.map (fun r =>
          ⟨volume_shift_spec ((d - 16) - v) r.1, volume_shift_spec ((d - 16) - v) r.2⟩)) ∧
    play_track.rshift (play_track.sample_rshift 24) 0 = 8 ∧
    (0x00ABCD00 : Int) >>> (8 : Nat) = 0x00ABCD ∧
    play_track.rshift (play_track.sample_rshift 24) 3 = 5 ∧
    play_track.rshift (play_track.sample_rshift 16) (-2) = 2 ∧
    play_track.rshift (play_track.sample_rshift 16) 2 = -2 := by
  have hr : play_track.rshift (play_track.sample_rshift d) v = (d - 16) - v := rfl
  have hsamples : play_track.block_samples
      (play_track.rshift (play_track.sample_rshift d) s.volume) s.flac_decoder.block =
      s.flac_decoder.block.map (fun r =>
        (⟨volume_shift_spec ((d - 16) - v) r.1, volume_shift_spec ((d - 16) - v) r.2⟩ :
          stereo_sample_type)) := by
    rw [hv.1, hr]
    unfold play_track.block_samples
    apply List.map_congr_left
    intro r _
    rw [play_track.channel_value_spec, play_track.channel_value_spec]
  refine ⟨hr, ?_, ?_, by decide, by decide, by decide, by decide, by decide⟩
  · rw [play_track.iteration_drain_calls N _ s hcmd hb hf, hsamples, List.map_map]
    rfl
  · rw [(play_track.iteration_drain N _ s hcmd hb hf).1, hsamples]

/-- C13, witness: a 24-bit stream at volume 0 (shift 8) draining the block
`[(0x00ABCD00, -0x00ABCD00), (100, -100)]`. -/
theorem play_track.volume_shift_witness :
    ((play_track.drain_example 0).volume = 0 ∧
      -32 < ((24 : Int) - 16) - 0 ∧ ((24 : Int) - 16) - 0 < 32) ∧
    (play_track.drain_example 0).cmd = .idle ∧
    (play_track.drain_example 0).have_block = true ∧
    (play_track.drain_example 0).player_buffer._need_data = true ∧
    (play_track.iteration 4 (play_track.sample_rshift 24) (play_track.drain_example 0)).2.2 =
      .need_data ::
        ((play_track.drain_example 0).flac_decoder.block.map (fun r => feed_call.put
            ⟨volume_shift_spec ((24 - 16) - 0) r.1, volume_shift_spec ((24 - 16) - 0) r.2⟩) ++
          (if (play_track.drain_example 0).flac_decoder.state = .complete then []
           else [.taskYIELD])) ∧
    volume_shift_spec ((24 - 16) - 0) 0x00ABCD00 = -21555 ∧
    volume_shift_spec ((24 - 16) - 0) 100 = 0 ∧
    volume_shift_spec ((16 - 16) - 2) 100 = 400 ∧
    volume_shift_spec ((16 - 16) - (-2)) 100 = 25 :=
  ⟨⟨rfl, by decide⟩, rfl, rfl, rfl,
    (play_track.volume_shift 24 0 4 (play_track.drain_example 0) ⟨rfl, by decide⟩ rfl rfl
      rfl).2.1,
    by decide, by decide, by decide, by decide⟩

/-- C15. Command handling in the feed loop: when the command is `stop` at the top of an
iteration, the command becomes `idle`, the player state becomes `ready` and the loop exits;
when it is `play`, the command becomes `idle`, the state becomes `play` and the loop exits.
In both cases the iteration makes no call: it decodes no block and calls neither `need_data`
nor `put`, and the decoder, the buffer and `have_block` are unchanged. -/
theorem play_track.command_handling (N : Nat) (sample_rshift : Int) (s : play_track_state) :
    (s.cmd = .stop →
      play_track.iteration N sample_rshift s =
        ({ s with cmd := .idle, state := state_type.ready }, true, [])) ∧
    (s.cmd = .play →
      play_track.iteration N sample_rshift s =
        ({ s with cmd := .idle, state := .play }, true, [])) ∧
    ((s.cmd = .stop ∨ s.cmd = .play) →
      (play_track.iteration N sample_rshift s).1.cmd = .idle ∧
      (play_track.iteration N sample_rshift s).2.1 = true ∧
      (play_track.iteration N sample_rshift s).2.2 = [] ∧
      (play_track.iteration N sample_rshift s).1.flac_decoder = s.flac_decoder ∧
      (play_track.iteration N sample_rshift s).1.player_buffer = s.player_buffer ∧
      (play_track.iteration N sample_rshift s).1.have_block = s.have_block ∧
      (play_track.iteration N sample_rshift s).1.volume = s.volume) := by
  have hstop : s.cmd = .stop →
      play_track.iteration N sample_rshift s =
        ({ s with cmd := .idle, state := state_type.ready }, true, []) := by
    intro h
    unfold play_track.iteration
    rw [if_pos h]
  have hplay : s.cmd = .play →
      play_track.iteration N sample_rshift s =
        ({ s with cmd := .idle, state := .play }, true, []) := by
    intro h
    have hne : ¬ s.cmd = .stop := by rw [h]; decide
    unfold play_track.iteration
    rw [if_neg hne, if_pos h]
  refine ⟨hstop, hplay, ?_⟩
  rintro (h | h)
  · rw [hstop h]
    exact ⟨rfl, rfl, rfl, rfl, rfl, rfl, rfl⟩
  · rw [hplay h]
    exact ⟨rfl, rfl, rfl, rfl, rfl, rfl, rfl⟩

theorem play_track.command_handling_witness :
    (play_track.iteration 4 0
      { cmd := .stop, state := .play, volume := 0, have_block := true,
        flac_decoder := ⟨[], [(1, 2)], .complete⟩,
        player_buffer := stream_buffer.ctor 4 }).1.state = state_type.ready ∧
    (play_track.iteration 4 0
      { cmd := .stop, state := .play, volume := 0, have_block := true,
        flac_decoder := ⟨[], [(1, 2)], .complete⟩,
        player_buffer := stream_buffer.ctor 4 }).2.2 = [] :=
  ⟨by decide,
    ((play_track.command_handling 4 0
      { cmd := .stop, state := .play, volume := 0, have_block := true,
        flac_decoder := ⟨[], [(1, 2)], .complete⟩,
        player_buffer := stream_buffer.ctor 4 }).2.2 (Or.inl rfl)).2.2.1⟩

/-- C16, counterexample. With the buffer of `main.cc` (4608 samples per slot), the 2-block
synthetic decoder, volume 0 and a 16-bit stream, the schedule "three loop iterations, 4608
timer ticks, 4 timer ticks, one loop iteration" ends the loop after 4612 calls of
`set_samples_and_enable`, not 8; and in no schedule at all is the list of samples passed to
the driver the eight decoded pairs. -/
theorem play_session.end_to_end_counterexample :
    ((play_session.run buffer_max_size (play_track.sample_rshift 16)
        (play_session.start buffer_max_size synthetic_decoder .idle .play 0
          (stream_buffer.ctor buffer_max_size))
        ([.step, .step, .step] ++ (List.replicate buffer_max_size .tick ++
          (List.replicate 4 .tick ++ [.step])))).exited = true ∧
      (play_session.run buffer_max_size (play_track.sample_rshift 16)
        (play_session.start buffer_max_size synthetic_decoder .idle .play 0
          (stream_buffer.ctor buffer_max_size))
        ([.step, .step, .step] ++ (List.replicate buffer_max_size .tick ++
          (List.replicate 4 .tick ++ [.step])))).samples.length = 4612) ∧
    ¬ ∃ es : List session_event,
      (play_session.run buffer_max_size (play_track.sample_rshift 16)
        (play_session.start buffer_max_size synthetic_decoder .idle .play 0
          (stream_buffer.ctor buffer_max_size)) es).samples =
        synthetic_block ++ synthetic_block := by
  constructor
  · obtain ⟨a, b⟩ := play_session.synthetic_schedule buffer_max_size (by decide) (by decide)
      .play (stream_buffer.ctor buffer_max_size)
    refine ⟨a, ?_⟩
    rw [b, List.length_append, List.length_replicate]
    rfl
  · rintro ⟨es, h⟩
    have hz := (play_session.before_swap_run buffer_max_size (by decide)
      (play_track.sample_rshift 16) synthetic_block es
      (play_session.start buffer_max_size synthetic_decoder .idle .play 0
        (stream_buffer.ctor buffer_max_size))
      (by intro p hp; simp [play_session.samples, play_session.start] at hp)
      (fun _ => play_session.start_before_swap buffer_max_size (by decide) synthetic_block
        synthetic_block [] .more_blocks .play 0 (stream_buffer.ctor buffer_max_size))).1
    rw [h] at hz
    rw [List.take_of_length_le (by decide)] at hz
    have h0 := hz (100, -100) (by simp [synthetic_block])
    exact absurd h0 (by decide)

/-- C16, as amended. For a buffer of `N` samples per slot (`4 ≤ N ≤ 65535`), the 2-block
synthetic decoder, volume 0 and a 16-bit stream: in every interleaving of timer ticks and
loop iterations the first `N` calls of `set_samples_and_enable` carry the zero pair of the
reset slot 0, and the loop has not exited before call `N + 1`; and in the schedule "three
loop iterations, `N` timer ticks, 4 timer ticks, one loop iteration" the loop has exited and
the calls made are the `N` zero pairs followed by the four decoded pairs of the first block,
in original order and unshifted. -/
theorem play_session.end_to_end (N : Nat) (h4 : 4 ≤ N) (hN : N ≤ 65535) (state : state_type)
    (buffer : stream_buffer stereo_sample_type) :
    (∀ es : List session_event,
      (∀ p ∈ (play_session.run N (play_track.sample_rshift 16)
          (play_session.start N synthetic_decoder .idle state 0 buffer) es).samples.take N,
        p = ((0, 0) : Int × Int)) ∧
      ((play_session.run N (play_track.sample_rshift 16)
          (play_session.start N synthetic_decoder .idle state 0 buffer) es).exited = true →
        N + 1 ≤ (play_session.run N (play_track.sample_rshift 16)
          (play_session.start N synthetic_decoder .idle state 0 buffer) es).samples.length)) ∧
    (play_session.run N (play_track.sample_rshift 16)
      (play_session.start N synthetic_decoder .idle state 0 buffer)
      ([.step, .step, .step] ++ (List.replicate N .tick ++ (List.replicate 4 .tick ++
        [.step])))).exited = true ∧
    (List.replicate N ((0, 0) : Int × Int) ++ synthetic_block) <+:
      (play_session.run N (play_track.sample_rshift 16)
        (play_session.start N synthetic_decoder .idle state 0 buffer)
        ([.step, .step, .step] ++ (List.replicate N .tick ++ (List.replicate 4 .tick ++
          [.step])))).samples := by
  refine ⟨?_, ?_⟩
  · intro es
    obtain ⟨hz, hreg⟩ := play_session.before_swap_run N hN (play_track.sample_rshift 16)
      synthetic_block es (play_session.start N synthetic_decoder .idle state 0 buffer)
      (by intro p hp; simp [play_session.samples, play_session.start] at hp)
      (fun _ => play_session.start_before_swap N hN synthetic_block synthetic_block []
        .more_blocks state 0 buffer)
    refine ⟨hz, ?_⟩
    intro hex
    rw [play_session.samples_length]
    by_contra hlt
    have hb := hreg (by omega)
    rw [hb.1] at hex
    exact absurd hex (by decide)
  · obtain ⟨a, b⟩ := play_session.synthetic_schedule N h4 hN state buffer
    exact ⟨a, by rw [b]⟩

/-- C16, witness: the amended statement at `N = 4` on a freshly constructed buffer. -/
theorem play_session.end_to_end_witness :
    4 ≤ 4 ∧ 4 ≤ 65535 ∧
    ((∀ es : List session_event,
      (∀ p ∈ (play_session.run 4 (play_track.sample_rshift 16)
          (play_session.start 4 synthetic_decoder .idle .play 0 (stream_buffer.ctor 4))
          es).samples.take 4,
        p = ((0, 0) : Int × Int)) ∧
      ((play_session.run 4 (play_track.sample_rshift 16)
          (play_session.start 4 synthetic_decoder .idle .play 0 (stream_buffer.ctor 4))
          es).exited = true →
        4 + 1 ≤ (play_session.run 4 (play_track.sample_rshift 16)
          (play_session.start 4 synthetic_decoder .idle .play 0 (stream_buffer.ctor 4))
          es).samples.length)) ∧
    (play_session.run 4 (play_track.sample_rshift 16)
      (play_session.start 4 synthetic_decoder .idle .play 0 (stream_buffer.ctor 4))
      ([.step, .step, .step] ++ (List.replicate 4 .tick ++ (List.replicate 4 .tick ++
        [.step])))).exited = true ∧
    (List.replicate 4 ((0, 0) : Int × Int) ++ synthetic_block) <+:
      (play_session.run 4 (play_track.sample_rshift 16)
        (play_session.start 4 synthetic_decoder .idle .play 0 (stream_buffer.ctor 4))
        ([.step, .step, .step] ++ (List.replicate 4 .tick ++ (List.replicate 4 .tick ++
          [.step])))).samples) :=
  ⟨by decide, by decide,
    play_session.end_to_end 4 (by decide) (by decide) .play (stream_buffer.ctor 4)⟩

/-- C17, counterexample. For `sample_rate = 8000` and `c` the `double` nearest to 0.3
(`5404319552844595 * 2^-54`), the constructor's `double` computation gives the alarm count
1500 (the product rounds up to 12000000), while `40000000 * c / (8000 * 1)` truncated toward
zero is 1499. -/
theorem stereo_player.alarm_period_counterexample :
    double.round 3 10 = some ⟨5404319552844595, -54⟩ ∧
    stereo_player.alarm_count 8000 ⟨5404319552844595, -54⟩ = some 1500 ∧
    double.mul_nat _timer_resolution_hz ⟨5404319552844595, -54⟩ =
      some ⟨6442450944000000, -29⟩ ∧
    double.value ⟨6442450944000000, -29⟩ = 12000000 ∧
    ⌊(_timer_resolution_hz : ℚ) * double.value ⟨5404319552844595, -54⟩ /
        ((8000 * player_oversampling : ℕ) : ℚ)⌋ = 1499 := by
  refine ⟨by decide, by decide, by decide, ?_, ?_⟩
  · norm_num [double.value, zpow_neg]
  · rw [Int.floor_eq_iff]
    norm_num [double.value, zpow_neg, _timer_resolution_hz, player_oversampling]

/-- C17, as amended. Alarm period: for every `sample_rate` with `0 < sample_rate < 2^32` and
every `double` calibration ratio `c` with `2^-64 <= c < 2^33`, the alarm count configured by
the constructor is defined and is `40000000 * c / (sample_rate * 1)` computed in `double`
arithmetic (the product and the quotient each rounded to the nearest `double`), truncated
toward zero; with `x` the exact quotient it satisfies
`x * (1 - 2^-53)^2 - 1 < alarm_count <= x * (1 + 2^-53)^2`.  `c = 1` and
`sample_rate = 44100` give 907, and `c = 0.995428` (as the `double` literal) and
`sample_rate = 44100` give 902; these two values are also the truncations of the exact
quotients with the calibration taken as an exact rational. -/
theorem stereo_player.alarm_period (sample_rate : Nat) (c : double)
    (hs : 0 < sample_rate ∧ sample_rate < 4294967296)
    (hc : 2 ^ 52 ≤ c.mant ∧ c.mant < 2 ^ 53 ∧ -116 ≤ c.exp ∧ c.exp ≤ -20) :
    (∃ a, stereo_player.alarm_count sample_rate c = some a ∧
      (_timer_resolution_hz : ℚ) * c.value / ((sample_rate * player_oversampling : ℕ) : ℚ) *
          (1 - 1 / 2 ^ 53) ^ 2 - 1 < (a : ℚ) ∧
      (a : ℚ) ≤
        (_timer_resolution_hz : ℚ) * c.value / ((sample_rate * player_oversampling : ℕ) : ℚ) *
          (1 + 1 / 2 ^ 53) ^ 2) ∧
    double.value ⟨2 ^ 52, -52⟩ = 1 ∧
    stereo_player.alarm_count 44100 ⟨2 ^ 52, -52⟩ = some 907 ∧
    ⌊(_timer_resolution_hz : ℚ) * 1 / ((44100 * player_oversampling : ℕ) : ℚ)⌋ = 907 ∧
    double.round 995428 1000000 = some ⟨8966018339748316, -53⟩ ∧
    stereo_player.alarm_count 44100 ⟨8966018339748316, -53⟩ = some 902 ∧
    ⌊(_timer_resolution_hz : ℚ) * (995428 / 1000000) /
        ((44100 * player_oversampling : ℕ) : ℚ)⌋ = 902 := by
  refine ⟨stereo_player.alarm_count_spec sample_rate c hs hc, ?_, by decide, ?_, by decide,
    by decide, ?_⟩
  · norm_num [double.value, zpow_neg]
  · rw [Int.floor_eq_iff]
    norm_num [_timer_resolution_hz, player_oversampling]
  · rw [Int.floor_eq_iff]
    norm_num [_timer_resolution_hz, player_oversampling]

/-- C17, witness: `sample_rate = 44100` and the `double` literal `0.995428`. -/
theorem stereo_player.alarm_period_witness :
    (0 < 44100 ∧ 44100 < 4294967296) ∧
    (2 ^ 52 ≤ 8966018339748316 ∧ 8966018339748316 < 2 ^ 53 ∧ (-116 : Int) ≤ -53 ∧
      (-53 : Int) ≤ -20) ∧
    ∃ a, stereo_player.alarm_count 44100 ⟨8966018339748316, -53⟩ = some a ∧
      (_timer_resolution_hz : ℚ) * double.value ⟨8966018339748316, -53⟩ /
          ((44100 * player_oversampling : ℕ) : ℚ) * (1 - 1 / 2 ^ 53) ^ 2 - 1 < (a : ℚ) ∧
      (a : ℚ) ≤
        (_timer_resolution_hz : ℚ) * double.value ⟨8966018339748316, -53⟩ /
          ((44100 * player_oversampling : ℕ) : ℚ) * (1 + 1 / 2 ^ 53) ^ 2 :=
  ⟨by decide, by decide,
    (stereo_player.alarm_period 44100 ⟨8966018339748316, -53⟩ (by decide) (by decide)).1⟩

/-- C18. Index safety of the buffer: for `1 <= N <= 65535`, in every state reachable from the
constructor state, `_limit[0] <= N` and `_limit[1] <= N`; both slot indices are 0 or 1; the
cell `get` reads has slot index in {0,1} and element index `< N`; the cell `put` writes, when
it writes, has slot index in {0,1} and element index `_limit[_write_idx] < N`, and `put`
changes no cell outside `[0,2) × [0,N)`; `_read_pos <= N`, and the 16-bit increment of
`_read_pos` in `get` does not wrap. -/
theorem stream_buffer.index_safety {α : Type} [Zero α] (N : Nat) (hN1 : 1 ≤ N)
    (hN : N ≤ 65535) (s : stream_buffer α) (hs : s.Reachable N) (v : α) :
    (s._limit 0 ≤ N ∧ s._limit 1 ≤ N) ∧
    (s._read_idx < 2 ∧ s._write_idx < 2) ∧
    (s.get.1 = some (s._buffer s.get_access.1 s.get_access.2) ∧
      s.get_access.1 < 2 ∧ s.get_access.2 < N) ∧
    (∀ a, stream_buffer.put_access N s = some a →
      a.1 < 2 ∧ a.2 < N ∧ a.2 = s._limit s._write_idx ∧
      (s.put N v)._buffer = Function.update s._buffer a.1
        (Function.update (s._buffer a.1) a.2 v)) ∧
    (stream_buffer.put_access N s = none → s.put N v = s) ∧
    (∀ i j, (2 ≤ i ∨ N ≤ j) → (s.put N v)._buffer i j = s._buffer i j) ∧
    s._read_pos ≤ N ∧
    s.get.2._read_pos = s.get_access.2 + 1 ∧ s.get.2._read_pos ≤ N := by
  obtain ⟨hr, hw⟩ := stream_buffer.Reachable.swap_inv hs
  have hlim := stream_buffer.Reachable.limit_le hs
  have hpos := stream_buffer.Reachable.read_pos hs
  have hw2 : s._write_idx < 2 := by omega
  have hacc : s.get_access.1 < 2 ∧ s.get_access.2 < N ∧
      s.get.2._read_pos = s.get_access.2 + 1 ∧
      s.get.1 = some (s._buffer s.get_access.1 s.get_access.2) := by
    by_cases h : s._limit s._read_idx ≤ s._read_pos
    · have hg := stream_buffer.get_of_ge s h
      have ha : s.get_access = ((s._read_idx + 1) % 2, 0) := by
        simp only [stream_buffer.get_access, stream_buffer.get_swap, ge_iff_le, h, if_true,
          stream_buffer._max_count]
      rw [ha, hg]
      refine ⟨Nat.mod_lt _ (by decide), by omega, rfl, rfl⟩
    · have hlt : s._read_pos < s._limit s._read_idx := Nat.lt_of_not_le h
      have hg := stream_buffer.get_of_lt s hlt
      have ha : s.get_access = (s._read_idx, s._read_pos) := by
        simp only [stream_buffer.get_access, stream_buffer.get_swap, ge_iff_le, h, if_false]
      have := hlim s._read_idx
      rw [ha, hg]
      refine ⟨hr, by show s._read_pos < N; omega, ?_, rfl⟩
      show (s._read_pos + 1) % 65536 = s._read_pos + 1
      omega
  refine ⟨⟨hlim 0, hlim 1⟩, ⟨hr, hw2⟩, ⟨hacc.2.2.2, hacc.1, hacc.2.1⟩, ?_, ?_, ?_, ?_, hacc.2.2.1, ?_⟩
  · intro a ha
    unfold stream_buffer.put_access at ha
    split at ha
    · exact Option.noConfusion ha
    · rename_i hlt
      have hlt2 : s._limit s._write_idx < N := Nat.lt_of_not_le hlt
      cases Option.some.inj ha
      refine ⟨hw2, hlt2, rfl, ?_⟩
      rw [stream_buffer.put_of_lt N s v hlt2]
  · intro ha
    unfold stream_buffer.put_access at ha
    split at ha
    · rename_i hge
      exact stream_buffer.put_of_ge N s v hge
    · exact Option.noConfusion ha
  · intro i j hij
    by_cases hlt : s._limit s._write_idx < N
    · rw [stream_buffer.put_of_lt N s v hlt]
      show Function.update s._buffer s._write_idx
        (Function.update (s._buffer s._write_idx) (s._limit s._write_idx) v) i j = _
      by_cases hi : i = s._write_idx
      · subst hi
        have hj : j ≠ s._limit s._write_idx := by omega
        rw [Function.update_same, Function.update_noteq hj]
      · rw [Function.update_noteq hi]
    · rw [stream_buffer.put_of_ge N s v (Nat.le_of_not_lt hlt)]
  · have := hlim s._read_idx
    omega
  · rw [hacc.2.2.1]
    omega

theorem stream_buffer.index_safety_witness :
    (1 : Nat) ≤ 2 ∧ (2 : Nat) ≤ 65535 ∧
    (stream_buffer.calls 2 (stream_buffer.ctor 2 : stream_buffer Int)
      [.need_data, .put 5, .get, .get]).get_access = (1, 0) ∧
    (stream_buffer.calls 2 (stream_buffer.ctor 2 : stream_buffer Int)
      [.need_data, .put 5, .get, .get]).get_access.2 < 2 :=
  ⟨by decide, by decide, by decide,
    (stream_buffer.index_safety 2 (by decide) (by decide)
      (stream_buffer.calls 2 (stream_buffer.ctor 2 : stream_buffer Int)
        [.need_data, .put 5, .get, .get])
      ⟨[.need_data, .put 5, .get, .get], rfl⟩ 0).2.2.1.2.2⟩

/-- C19. Pin frame and final state of the bit-bang: for every sample pair, every initial
32-bit output state and four pairwise distinct pins in 0..31, every register write of
`set_samples_and_enable` has a mask inside the union of the clock, channel-1 data, channel-2
data and latch-enable bitmasks, so every other output bit keeps its level; on return the clock
line and the latch-enable line are low and each data line holds bit 0 of its channel's
value. -/
theorem dac_gpio.pin_frame (config : stereo_player_config) (set_bitmask reset_bitmask : Nat)
    (ch1 ch2 : Int) (out : Nat) (hout : out < 2 ^ 32)
    (hb : config.clk_gpio < 32 ∧ config.ch1_data_gpio < 32 ∧ config.ch2_data_gpio < 32 ∧
      config.le_gpio < 32)
    (hd : config.clk_gpio ≠ config.ch1_data_gpio ∧ config.clk_gpio ≠ config.ch2_data_gpio ∧
      config.clk_gpio ≠ config.le_gpio ∧ config.ch1_data_gpio ≠ config.ch2_data_gpio ∧
      config.ch1_data_gpio ≠ config.le_gpio ∧ config.ch2_data_gpio ≠ config.le_gpio) :
    (∀ w ∈ (dac_gpio.set_samples_and_enable
        { dac_gpio.ctor config with _set_bitmask := set_bitmask,
                                    _reset_bitmask := reset_bitmask } ch1 ch2).2,
      w.val &&& (2 ^ config.clk_gpio ||| 2 ^ config.ch1_data_gpio |||
        2 ^ config.ch2_data_gpio ||| 2 ^ config.le_gpio) = w.val) ∧
    (∀ p, p ≠ config.clk_gpio → p ≠ config.ch1_data_gpio → p ≠ config.ch2_data_gpio →
      p ≠ config.le_gpio →
      (replay_writes out
        (dac_gpio.set_samples_and_enable
          { dac_gpio.ctor config with _set_bitmask := set_bitmask,
                                      _reset_bitmask := reset_bitmask } ch1 ch2).2).testBit p
        = out.testBit p) ∧
    (replay_writes out
      (dac_gpio.set_samples_and_enable
        { dac_gpio.ctor config with _set_bitmask := set_bitmask,
                                    _reset_bitmask := reset_bitmask } ch1 ch2).2).testBit
      config.clk_gpio = false ∧
    (replay_writes out
      (dac_gpio.set_samples_and_enable
        { dac_gpio.ctor config with _set_bitmask := set_bitmask,
                                    _reset_bitmask := reset_bitmask } ch1 ch2).2).testBit
      config.le_gpio = false ∧
    (replay_writes out
      (dac_gpio.set_samples_and_enable
        { dac_gpio.ctor config with _set_bitmask := set_bitmask,
                                    _reset_bitmask := reset_bitmask } ch1 ch2).2).testBit
      config.ch1_data_gpio = (int16_pattern ch1).testBit 0 ∧
    (replay_writes out
      (dac_gpio.set_samples_and_enable
        { dac_gpio.ctor config with _set_bitmask := set_bitmask,
                                    _reset_bitmask := reset_bitmask } ch1 ch2).2).testBit
      config.ch2_data_gpio = (int16_pattern ch2).testBit 0 := by
  rw [dac_gpio.constructed_trace config set_bitmask reset_bitmask ch1 ch2 hb]
  obtain ⟨r1, r2, r3, _, r5⟩ := protocol_bits_replay config.clk_gpio config.ch1_data_gpio
    config.ch2_data_gpio config.le_gpio ch1 ch2 hb hd 16 out
  have hfinal : ∀ p, (replay_writes out
      (protocol_trace (2 ^ config.clk_gpio) (2 ^ config.ch1_data_gpio)
        (2 ^ config.ch2_data_gpio) (2 ^ config.le_gpio) ch1 ch2)).testBit p =
      ((replay_writes out
        (protocol_bits (2 ^ config.clk_gpio) (2 ^ config.ch1_data_gpio)
          (2 ^ config.ch2_data_gpio) (2 ^ config.le_gpio) ch1 ch2 16)).testBit p &&
        (decide (p < 32) ^^ decide (config.le_gpio = p))) := by
    intro p
    rw [protocol_trace, replay_writes_append]
    show (_ &&& (4294967295 ^^^ 2 ^ config.le_gpio)).testBit p = _
    have h : (4294967295 : Nat) = 2 ^ 32 - 1 := by norm_num
    rw [Nat.testBit_and, Nat.testBit_xor, h, Nat.testBit_two_pow_sub_one, Nat.testBit_two_pow]
  refine ⟨?_, ?_, ?_, ?_, ?_, ?_⟩
  · intro w hw
    have hmem : ∀ p, w.val.testBit p = true →
        p = config.clk_gpio ∨ p = config.ch1_data_gpio ∨ p = config.ch2_data_gpio ∨
          p = config.le_gpio := by
      intro p hp
      rw [protocol_trace, List.mem_append] at hw
      rcases hw with hw | hw
      · exact protocol_bits_frame _ _ _ _ ch1 ch2 16 w hw p hp
      · rw [List.mem_singleton] at hw
        subst hw
        simp only [Nat.testBit_two_pow, decide_eq_true_eq] at hp
        exact Or.inr (Or.inr (Or.inr hp.symm))
    apply Nat.eq_of_testBit_eq
    intro p
    rw [Nat.testBit_and]
    by_cases hp : w.val.testBit p = true
    · rw [hp]
      rcases hmem p hp with h | h | h | h <;>
        simp [Nat.testBit_or, Nat.testBit_two_pow, h]
    · simp [hp]
  · intro p h1 h2 h3 h4
    rw [hfinal]
    by_cases hp : p < 32
    · rw [r5 p hp h1 h2 h3 h4]
      simp [hp, Ne.symm h4]
    · have hz : out.testBit p = false :=
        Nat.testBit_lt_two_pow (Nat.lt_of_lt_of_le hout
          (Nat.pow_le_pow_right (by decide) (by omega)))
      rw [hz]
      simp [hp, Ne.symm h4]
  · rw [hfinal, r1 (by decide)]
    rfl
  · rw [hfinal]
    simp [hb.2.2.2]
  · rw [hfinal, r2 (by decide)]
    simp [hb.2.1, Ne.symm hd.2.2.2.2.1]
  · rw [hfinal, r3 (by decide)]
    simp [hb.2.2.1, Ne.symm hd.2.2.2.2.2]

theorem dac_gpio.pin_frame_witness :
    (2 ^ 3 + 2 ^ 14 : Nat) < 2 ^ 32 ∧
    (replay_writes (2 ^ 3 + 2 ^ 14)
      (dac_gpio.set_samples_and_enable (dac_gpio.ctor ⟨14, 26, 25, 27⟩) (-32767) 1).2) =
      2 ^ 3 + 2 ^ 26 + 2 ^ 25 ∧
    (replay_writes (2 ^ 3 + 2 ^ 14)
      (dac_gpio.set_samples_and_enable (dac_gpio.ctor ⟨14, 26, 25, 27⟩) (-32767) 1).2).testBit
      14 = false :=
  ⟨by decide, by decide,
    (dac_gpio.pin_frame ⟨14, 26, 25, 27⟩ 0 0 (-32767) 1 (2 ^ 3 + 2 ^ 14) (by decide) (by decide)
      (by decide)).2.2.1⟩

/-- C20. Next album track selection: the reads of `files` do not stay in bounds.  With the
single file `a.flac` as `play_file` (the last file in sorted order), with an empty directory,
and with a `play_file` that is not in the directory, `get_next_album_track` reads `files`
outside the vector.  Whenever `play_file` occurs in the sorted listing at a position that is
not the last, the new `play_file` is the element right after it and the result is
`play_dir + "/" +` that element. -/
theorem get_next_album_track.out_of_bounds :
    get_next_album_track ["a.flac"] "/music" "a.flac" = none ∧
    get_next_album_track [] "/music" "a.flac" = none ∧
    get_next_album_track ["b.flac", "a.flac"] "/music" "c.flac" = none ∧
    get_next_album_track ["b.flac", "a.flac"] "/music" "a.flac" =
      some ("b.flac", "/music/b.flac") ∧
    (∀ (listing : List String) (play_dir play_file : String) (j : Nat)
      (hlen : j + 1 < (listing.insertionSort (fun a b => a.data ≤ b.data)).length),
      (listing.insertionSort (fun a b => a.data ≤ b.data))[j]? = some play_file →
      (∀ k, k < j →
        (listing.insertionSort (fun a b => a.data ≤ b.data))[k]? ≠ some play_file) →
      get_next_album_track listing play_dir play_file =
        some ((listing.insertionSort (fun a b => a.data ≤ b.data)).get ⟨j + 1, hlen⟩,
          play_dir ++ "/" ++
            (listing.insertionSort (fun a b => a.data ≤ b.data)).get ⟨j + 1, hlen⟩)) := by
  refine ⟨by decide, ?_, by decide, by decide, ?_⟩
  · have h : get_next_album_track.scan [] "a.flac" (4294967294 + 1) 0 = none := by
      rw [get_next_album_track.scan_succ]
      rfl
    unfold get_next_album_track
    simp only [List.insertionSort, List.length_nil, if_true]
    rw [show (4294967295 : Nat) = 4294967294 + 1 from rfl, h]
  · intro listing play_dir play_file j hlen hj hfirst
    unfold get_next_album_track
    generalize listing.insertionSort (fun a b => a.data ≤ b.data) = files at hlen hj hfirst ⊢
    have hne : ¬ files.length = 0 := by omega
    have hscan := get_next_album_track.scan_found files play_file j hj hfirst
      (files.length - 1) 0 (Nat.zero_le j) (by omega)
    simp only [hne, if_false, hscan, List.getElem?_eq_getElem hlen]
    rfl
